import Mathlib

/-!
# Invader: script tokenizer, tag post-processing, cache file loader and build command

A shallow embedding of `Invader::Tokenizer::tokenize` (src/script/tokenizer.cpp), of
`Invader::Parser::Scenario::postprocess_hek_data`
(src/tag/parser/compile/scenario/postprocess.cpp), of `Invader::Parser::Effect::post_compile`
(src/tag/parser/compile/effect.cpp), of the accessor `Map::get_data_at_offset`
(include/invader/map/map.hpp) and of the function `main` of the build command
(src/build/build.cpp), with the properties proved about them.

The tokenizer input is a C string: the characters `s` followed by a terminating NUL.
Pointers into it are indices; reading index `s.length` yields the NUL, reading any
larger index is an out-of-bounds read (undefined behaviour), reported as a fault.
A NUL inside `s` ends the string there; the characters behind it are then memory that
happens to be readable after the terminator.
-/

namespace Invader

/-! ## Memory model of the input string -/

/-- The NUL character that terminates a C string. -/
def NUL : Char := Char.ofNat 0

/-- Ways in which a run of the model stops without a result. -/
inductive Fault where
  | outOfBounds
  | outOfFuel
  deriving DecidableEq, Repr

/-- Dereference `string + i`: inside the string, at its terminator, or out of bounds. -/
def charAt (s : List Char) (i : Nat) : Except Fault Char :=
  if i < s.length then .ok (s.getD i NUL)
  else if i = s.length then .ok NUL
  else .error .outOfBounds

/-- The constructor `std::string(p, n)` with `p = string + i`: exactly `n` characters starting
at index `i`; all of them must lie in the string or on its terminator. -/
def stdString (s : List Char) (i n : Nat) : Except Fault (List Char) :=
  if i + n ≤ s.length + 1 then .ok (((s ++ [NUL]).drop i).take n)
  else .error .outOfBounds

/-- The conversion of `const char *` to `std::string` (`error_token = token_start`): the
characters from index `i` up to the first NUL. -/
def cString (s : List Char) (i : Nat) : List Char :=
  (s.drop i).takeWhile (fun ch => ch ≠ NUL)

/-! ## Tokens -/

/-- The enumeration `Tokenizer::TokenType`. -/
inductive TokenType where
  | TOKEN_TYPE_PARENTHESIS_BEGIN
  | TOKEN_TYPE_PARENTHESIS_END
  | TOKEN_TYPE_STRING
  | TOKEN_TYPE_DECIMAL
  | TOKEN_TYPE_INTEGER
  deriving DecidableEq, Repr

/-- The variant `Token::value`. A float is kept as the text handed to `strtof`. -/
inductive TokenValue where
  | string (s : List Char)
  | integer (v : Int)
  | decimal (strtofArgument : List Char)
  deriving DecidableEq, Repr

/-- The structure `Tokenizer::Token`. -/
structure Token where
  line : Nat
  column : Nat
  value : TokenValue
  type : TokenType
  deriving DecidableEq, Repr

/-! ## Numeric conversion -/

/-- The decimal digit test, the negation of `c < '0' || c > '9'` (line 76). -/
def isDigit (c : Char) : Bool := !(decide (c < '0') || decide (c > '9'))

/-- The C `isspace` test in the "C" locale. -/
def isSpace (c : Char) : Bool :=
  c == ' ' || c == '\t' || c == '\n' || c == Char.ofNat 11 || c == Char.ofNat 12 || c == '\r'

/-- The value of a run of leading decimal digits, with `acc` the value read so far. -/
def digitsValue : List Char → Nat → Nat
  | [], acc => acc
  | c :: rest, acc => if isDigit c then digitsValue rest (acc * 10 + (c.toNat - '0'.toNat)) else acc

/-- The function `std::strtol(s, nullptr, 10)` for a `long` of `longBits` bits: leading white
space, an optional sign, then decimal digits; a value outside the range of `long` saturates. -/
def strtol (longBits : Nat) (s : List Char) : Int :=
  let body := s.dropWhile isSpace
  let negative := body.head? = some '-'
  let digits := if body.head? = some '-' ∨ body.head? = some '+' then body.drop 1 else body
  let magnitude : Int := (digitsValue digits 0 : Nat)
  if negative then max (-magnitude) (-(2 ^ (longBits - 1)))
  else min magnitude (2 ^ (longBits - 1) - 1)

/-- The conversion `static_cast<std::int32_t>` of a `long`: reduction modulo `2 ^ 32` into the
signed range. -/
def toInt32 (v : Int) : Int := (v + 2 ^ 31) % 2 ^ 32 - 2 ^ 31

/-! ## Classification and decoding of a finished token (tokenizer.cpp lines 38-112) -/

/-- The locals of the decoding loop: the decoded text `s` and the flags `numeric`, `decimal`
and `t_escape`. -/
structure Scan where
  s : List Char
  numeric : Bool
  decimal : Bool
  t_escape : Bool
  deriving DecidableEq, Repr

/-- The character appended for an escaped character `c` (the `switch` of lines 59-72). -/
def escapedChar (c : Char) : Char :=
  if c = 'n' then '\n' else if c = 'r' then '\r' else if c = 't' then '\t' else c

/-- One iteration of the loop over `raw_string` (lines 53-88); `next` is `*(&c + 1)`, the
character stored after `c` (the NUL of the `std::string` when `c` is its last character). -/
def scanChar (st : Scan) (c next : Char) : Scan :=
  if c = '\\' ∧ st.t_escape = false then
    { st with t_escape := true, numeric := false }
  else if st.t_escape = true then
    { st with s := st.s ++ [escapedChar c], t_escape := false }
  else if isDigit c = false ∧ (c ≠ '-' ∨ st.s.length > 0) then
    if c = '.' ∧ next ≠ NUL ∧ st.decimal = false then
      { st with decimal := true, s := st.s ++ [c], t_escape := false }
    else
      { st with numeric := false, s := st.s ++ [c], t_escape := false }
  else
    { st with s := st.s ++ [c], t_escape := false }

/-- The loop `for(char &c : raw_string)` of lines 52-89. -/
def scanRaw : List Char → Scan → Scan
  | [], st => st
  | c :: rest, st => scanRaw rest (scanChar st c (rest.headD NUL))

/-- The locals before the loop: `numeric = true`, `decimal = false`, `s` empty,
`t_escape = false`. -/
def scanInit : Scan := { s := [], numeric := true, decimal := false, t_escape := false }

/-- The text `s` after lines 91-94: the first character is dropped when `raw_string[0]` is a
quote (`s.substr(1, s.size() - 1)`). -/
def tokenText (raw : List Char) : List Char :=
  let r := scanRaw raw scanInit
  if raw.headD NUL = '"' then (r.s.drop 1).take (r.s.length - 1) else r.s

/-- The type given to the token in lines 96-112. -/
def tokenType (raw : List Char) : TokenType :=
  let r := scanRaw raw scanInit
  if r.numeric = false then .TOKEN_TYPE_STRING
  else if r.decimal = true then .TOKEN_TYPE_DECIMAL
  else .TOKEN_TYPE_INTEGER

/-- The value given to the token in lines 96-112. -/
def tokenValue (longBits : Nat) (raw : List Char) : TokenValue :=
  let r := scanRaw raw scanInit
  if r.numeric = false then .string (tokenText raw)
  else if r.decimal = true then .decimal (tokenText raw)
  else .integer (toInt32 (strtol longBits (cString (tokenText raw) 0)))

/-- The token built from `raw_string` (lines 38-112), started at `line`, `column`. -/
def finishToken (longBits : Nat) (raw : List Char) (line column : Nat) : Token :=
  { line := line, column := column, value := tokenValue longBits raw, type := tokenType raw }

/-! ## The character loop (tokenizer.cpp lines 8-183) -/

/-- The locals of `Tokenizer::tokenize` at the head of the `for` loop. The pointers `c` and
`token_start` are indices into the input; `token_start = none` is the null pointer. -/
structure State where
  c : Nat
  token_start : Option Nat
  token_start_line : Nat
  token_start_column : Nat
  escape : Bool
  expected_end : Char
  tokens : List Token
  line : Nat
  column : Nat
  deriving DecidableEq, Repr

/-- The locals before the first iteration (lines 8-21). -/
def initState : State :=
  { c := 0, token_start := none, token_start_line := 0, token_start_column := 0,
    escape := false, expected_end := NUL, tokens := [], line := 1, column := 1 }

/-- The test of line 24. -/
def isWhitespace (ch : Char) : Bool :=
  ch == ' ' || ch == '\t' || ch == '\r' || ch == '\n'

/-- The test of line 27. -/
def isParenthesis (st : State) (ch : Char) : Bool :=
  (ch == '(' || ch == ')') && st.expected_end != '"'

/-- The test of line 28, `parenthesis_killed_the_radio_star`. -/
def parenthesisKilled (st : State) (ch : Char) : Bool :=
  isParenthesis st ch && st.token_start.isSome && !st.escape

/-- The test of line 33: the current character breaks the open token. -/
def breaksToken (st : State) (ch : Char) : Bool :=
  !st.escape && ((st.expected_end == ' ' && isWhitespace ch) || st.expected_end == ch
    || isParenthesis st ch)

/-- The loop `while(*c != '\n') c++` of lines 129-131, run on the characters from `c` on:
the index of the first newline. Stepping over the terminator reads out of bounds. -/
def skipComment : List Char → Nat → Except Fault Nat
  | [], _ => .error .outOfBounds
  | ch :: rest, c => if ch = '\n' then .ok c else skipComment rest (c + 1)

/-- Lines 42-47 and 96-112: the open token is emitted, built from `raw_string`, and the
lexer is back outside a token. -/
def closeToken (longBits : Nat) (st : State) (raw : List Char) : State :=
  { st with
    tokens := st.tokens ++
      [finishToken longBits raw st.token_start_line st.token_start_column],
    expected_end := NUL, token_start := none }

/-- The one-character token of lines 120-124 for the parenthesis `ch` at `line`, `column`. -/
def parenthesisToken (line column : Nat) (ch : Char) : Token :=
  { line := line, column := column, value := .string [ch],
    type := if ch = '(' then .TOKEN_TYPE_PARENTHESIS_BEGIN else .TOKEN_TYPE_PARENTHESIS_END }

/-- Lines 119-125: a parenthesis met outside a token is emitted as a token of its own. -/
def emitParenthesis (st : State) (ch : Char) : State :=
  { st with tokens := st.tokens ++ [parenthesisToken st.line st.column ch] }

/-- Lines 135-145: a token starts at the current character. -/
def startToken (st : State) (ch : Char) : State :=
  { st with token_start := some st.c,
            expected_end := if ch = '"' then '"' else ' ',
            token_start_column := st.column, token_start_line := st.line }

/-- Lines 31-146 of one iteration at character `ch = *c`: the token is broken or started, a
parenthesis token is emitted, or a comment is skipped (which moves `c`). The raw text of a
broken token is `std::string(c, length)` with `length = c - token_start` (lines 35-36). -/
def stepBody (longBits : Nat) (s : List Char) (st : State) (ch : Char) : Except Fault State :=
  match st.token_start with
  | some ts =>
    if breaksToken st ch then
      match stdString s st.c (st.c - ts) with
      | .ok raw => .ok (closeToken longBits st raw)
      | .error e => .error e
    else .ok st
  | none =>
    if isWhitespace ch then .ok st
    else if isParenthesis st ch then .ok (emitParenthesis st ch)
    else if ch = ';' then
      match skipComment (s.drop st.c) st.c with
      | .ok c => .ok { st with c := c }
      | .error e => .error e
    else .ok (startToken st ch)

/-- Lines 154-169 and the `c++` of the loop header, at the character `ch = *c`. -/
def stepTail (st : State) (ch : Char) : State :=
  { st with
    escape := decide (ch = '\\') && !st.escape,
    line := if ch = '\n' then st.line + 1 else st.line,
    column := if ch = '\n' then 1 else st.column + 1,
    c := st.c + 1 }

/-- One iteration of the `for` loop at a character `ch = *c` other than NUL. After a killed
token (lines 149-152) `c--; continue` and the `c++` of the header leave `c` in place. -/
def step (longBits : Nat) (s : List Char) (st : State) (ch : Char) : Except Fault State :=
  match stepBody longBits s st ch with
  | .error e => .error e
  | .ok st1 =>
    if parenthesisKilled st ch then .ok st1
    else
      match charAt s st1.c with
      | .ok ch1 => .ok (stepTail st1 ch1)
      | .error e => .error e

/-- The `for` loop of line 22, bounded by `fuel` iterations: it stops at the NUL. -/
def loop (longBits : Nat) (s : List Char) : Nat → State → Except Fault State
  | 0, _ => .error .outOfFuel
  | fuel + 1, st =>
    match charAt s st.c with
    | .error e => .error e
    | .ok ch =>
      if ch = NUL then .ok st
      else
        match step longBits s st ch with
        | .error e => .error e
        | .ok st1 => loop longBits s fuel st1

/-- What `Tokenizer::tokenize` hands back: the returned vector and the reference parameters.
The three error details are written only when `error` is set; `none` is "left untouched". -/
structure TokenizeResult where
  tokens : List Token
  error : Bool
  error_line : Option Nat
  error_column : Option Nat
  error_token : Option (List Char)
  deriving DecidableEq, Repr

/-- Lines 172-183 on the locals left by the loop. -/
def finish (s : List Char) (st : State) : TokenizeResult :=
  match st.token_start with
  | some ts =>
    { tokens := st.tokens, error := true, error_line := some st.token_start_line,
      error_column := some st.token_start_column, error_token := some (cString s ts) }
  | none =>
    { tokens := st.tokens, error := false, error_line := none, error_column := none,
      error_token := none }

/-- The number of iterations that always suffices: every iteration moves `c` forward except
the one after a killed token, which closes the open token. -/
def fuelFor (s : List Char) : Nat := 2 * s.length + 2

/-- The function `Tokenizer::tokenize` on the C string `s`, with `long` of `longBits` bits. -/
def tokenize (longBits : Nat) (s : List Char) : Except Fault TokenizeResult :=
  match loop longBits s (fuelFor s) initState with
  | .ok st => .ok (finish s st)
  | .error e => .error e

/-! ## Reachable loop states and source positions -/

/-- The loop states that a run on `s` passes through: the initial locals, and the locals
after any iteration taken at a character other than NUL. -/
inductive Reachable (longBits : Nat) (s : List Char) : State → Prop where
  | start : Reachable longBits s initState
  | next {st st1 : State} {ch : Char} :
      Reachable longBits s st → charAt s st.c = .ok ch → ch ≠ NUL →
      step longBits s st ch = .ok st1 → Reachable longBits s st1

/-- The 1-based line of index `i`: one plus the number of newlines before it. -/
def lineOf (s : List Char) (i : Nat) : Nat :=
  1 + (s.take i).count '\n'

/-- The 1-based column of index `i`: one plus the number of characters since the last newline
before it. -/
def columnOf (s : List Char) (i : Nat) : Nat :=
  1 + ((s.take i).reverse.takeWhile (fun ch => ch ≠ '\n')).length

/-- The (line, column) pairs of a list of tokens. -/
def positions (tokens : List Token) : List (Nat × Nat) :=
  tokens.map (fun t => (t.line, t.column))

/-! ## Classification rules -/

/-- The integer rule in the words of the specification: every character is a decimal digit or
a single minus sign that is not the leading character. -/
def specIntegerRule (tok : List Char) : Bool :=
  tok.all (fun c => isDigit c || c == '-') && decide (tok.count '-' ≤ 1)
    && (tok.head? != some '-')

/-- The decimal rule in the words of the specification: the integer rule, except that the
token contains exactly one `.`, which is neither its first nor its last character. -/
def specDecimalRule (tok : List Char) : Bool :=
  tok.all (fun c => isDigit c || c == '-' || c == '.') && decide (tok.count '-' ≤ 1)
    && (tok.head? != some '-') && decide (tok.count '.' = 1)
    && (tok.head? != some '.') && (tok.getLast? != some '.')

/-- The integer rule of the code: every character is a decimal digit, except that the first
character may be a minus sign. -/
def integerText : List Char → Bool
  | [] => true
  | c :: rest => (isDigit c || c == '-') && rest.all isDigit

/-- The decimal rule of the code: every character is a decimal digit or a `.`, except that the
first character may be a minus sign; there is exactly one `.` and it is not the last
character. -/
def decimalText : List Char → Bool
  | [] => false
  | c :: rest =>
    (isDigit c || c == '-' || c == '.') && rest.all (fun d => isDigit d || d == '.')
      && decide ((c :: rest).count '.' = 1) && ((c :: rest).getLast? != some '.')

/-- The decoding of escapes in the words of the specification: scanning left to right, a
backslash and the character after it become one character (newline for `n`, carriage return
for `r`, tab for `t`, the character itself otherwise); every other character is kept. -/
def specUnescape : List Char → List Char
  | [] => []
  | [c] => [c]
  | c :: d :: rest =>
    if c = '\\' then escapedChar d :: specUnescape rest else c :: specUnescape (d :: rest)

/-! ## Scenario post-processing (postprocess.cpp)

The buffer `script_syntax_data` is a list of bytes. It is viewed through
`reinterpret_cast` as a `ScenarioScriptNodeTable` header followed by an array of
`ScenarioScriptNode`; both structures are declared in generated headers that are not part of
the sources at hand, so their sizes, member offsets and enumerator values are parameters. -/

/-- The sizes and member offsets that `postprocess_hek_data` relies on:
`sizeof(ScenarioScriptNodeTable::C)`, the offsets of its members `size` (16 bits) and
`first_element_ptr` (32 bits), `sizeof(ScenarioScriptNode::C)`, and the offsets of the node
members `type` (16 bits), `flags` (16 bits) and `data` (32 bits). -/
structure Layout where
  tableSize : Nat
  sizeOffset : Nat
  firstElementPtrOffset : Nat
  nodeSize : Nat
  typeOffset : Nat
  flagsOffset : Nat
  dataOffset : Nat
  deriving DecidableEq, Repr

/-- What every C++ structure layout guarantees: each member lies inside its structure and
distinct members do not overlap. -/
structure Layout.WellFormed (L : Layout) : Prop where
  size_in : L.sizeOffset + 2 ≤ L.tableSize
  ptr_in : L.firstElementPtrOffset + 4 ≤ L.tableSize
  size_ptr : L.sizeOffset + 2 ≤ L.firstElementPtrOffset ∨
    L.firstElementPtrOffset + 4 ≤ L.sizeOffset
  type_in : L.typeOffset + 2 ≤ L.nodeSize
  flags_in : L.flagsOffset + 2 ≤ L.nodeSize
  data_in : L.dataOffset + 4 ≤ L.nodeSize
  type_data : L.typeOffset + 2 ≤ L.dataOffset ∨ L.dataOffset + 4 ≤ L.typeOffset
  flags_data : L.flagsOffset + 2 ≤ L.dataOffset ∨ L.dataOffset + 4 ≤ L.flagsOffset

/-- The enumerators used by `postprocess_hek_data`: eight values of
`ScenarioScriptValueType` and two bits of `ScenarioScriptNodeFlagsFlag`. -/
structure Constants where
  SCENARIO_SCRIPT_VALUE_TYPE_SOUND : Nat
  SCENARIO_SCRIPT_VALUE_TYPE_EFFECT : Nat
  SCENARIO_SCRIPT_VALUE_TYPE_DAMAGE : Nat
  SCENARIO_SCRIPT_VALUE_TYPE_LOOPING_SOUND : Nat
  SCENARIO_SCRIPT_VALUE_TYPE_ANIMATION_GRAPH : Nat
  SCENARIO_SCRIPT_VALUE_TYPE_ACTOR_VARIANT : Nat
  SCENARIO_SCRIPT_VALUE_TYPE_DAMAGE_EFFECT : Nat
  SCENARIO_SCRIPT_VALUE_TYPE_OBJECT_DEFINITION : Nat
  SCENARIO_SCRIPT_NODE_FLAGS_FLAG_IS_GLOBAL : Nat
  SCENARIO_SCRIPT_NODE_FLAGS_FLAG_IS_SCRIPT_CALL : Nat
  deriving DecidableEq, Repr

/-- The tag classes assigned by the `switch` of lines 26-61. -/
inductive TagFourCC where
  | TAG_FOURCC_SOUND
  | TAG_FOURCC_EFFECT
  | TAG_FOURCC_DAMAGE_EFFECT
  | TAG_FOURCC_SOUND_LOOPING
  | TAG_FOURCC_MODEL_ANIMATIONS
  | TAG_FOURCC_ACTOR_VARIANT
  | TAG_FOURCC_OBJECT
  deriving DecidableEq, Repr

/-- The big-endian 16-bit value stored at offset `off`. -/
def be16At (buf : List Nat) (off : Nat) : Nat :=
  (buf.getD off 0 % 256) * 256 + buf.getD (off + 1) 0 % 256

/-- The `n` bytes stored from offset `off` on. -/
def bytesAt (buf : List Nat) (off n : Nat) : List Nat :=
  (List.range n).map (fun t => buf.getD (off + t) 0)

/-- The call `read()` on a `BigEndian<std::uint16_t>` member at offset `off`; both bytes must
lie inside the buffer. -/
def readBE16 (buf : List Nat) (off : Nat) : Except Fault Nat :=
  if off + 2 ≤ buf.length then .ok (be16At buf off) else .error .outOfBounds

/-- A store of `bytes` at offset `off`; all of them must lie inside the buffer. -/
def writeBytes (buf : List Nat) (off : Nat) (bytes : List Nat) : Except Fault (List Nat) :=
  if off + bytes.length ≤ buf.length then
    .ok (buf.take off ++ bytes ++ buf.drop (off + bytes.length))
  else .error .outOfBounds

/-- The offset of `nodes[i]`, where `nodes` is `table + 1` (line 18). -/
def nodeOffset (L : Layout) (i : Nat) : Nat := L.tableSize + i * L.nodeSize

/-- The `switch` of lines 26-61: the tag class of a node type, `none` for `default`. -/
def tagClassOf (K : Constants) (type : Nat) : Option TagFourCC :=
  if type = K.SCENARIO_SCRIPT_VALUE_TYPE_SOUND then some .TAG_FOURCC_SOUND
  else if type = K.SCENARIO_SCRIPT_VALUE_TYPE_EFFECT then some .TAG_FOURCC_EFFECT
  else if type = K.SCENARIO_SCRIPT_VALUE_TYPE_DAMAGE then some .TAG_FOURCC_DAMAGE_EFFECT
  else if type = K.SCENARIO_SCRIPT_VALUE_TYPE_LOOPING_SOUND then some .TAG_FOURCC_SOUND_LOOPING
  else if type = K.SCENARIO_SCRIPT_VALUE_TYPE_ANIMATION_GRAPH then
    some .TAG_FOURCC_MODEL_ANIMATIONS
  else if type = K.SCENARIO_SCRIPT_VALUE_TYPE_ACTOR_VARIANT then some .TAG_FOURCC_ACTOR_VARIANT
  else if type = K.SCENARIO_SCRIPT_VALUE_TYPE_DAMAGE_EFFECT then some .TAG_FOURCC_DAMAGE_EFFECT
  else if type = K.SCENARIO_SCRIPT_VALUE_TYPE_OBJECT_DEFINITION then some .TAG_FOURCC_OBJECT
  else none

/-- The bytes of `TagID::null_tag_id()`, the id `0xFFFFFFFF`. -/
def nullTagId : List Nat := [255, 255, 255, 255]

/-- The body of the loop (lines 21-70) for node `i`. -/
def processNode (L : Layout) (K : Constants) (buf : List Nat) (i : Nat) :
    Except Fault (List Nat) :=
  match readBE16 buf (nodeOffset L i + L.typeOffset) with
  | .error e => .error e
  | .ok type =>
    match tagClassOf K type with
    | none => .ok buf
    | some _ =>
      match readBE16 buf (nodeOffset L i + L.flagsOffset) with
      | .error e => .error e
      | .ok flags =>
        if flags &&& K.SCENARIO_SCRIPT_NODE_FLAGS_FLAG_IS_GLOBAL ≠ 0 ∨
            flags &&& K.SCENARIO_SCRIPT_NODE_FLAGS_FLAG_IS_SCRIPT_CALL ≠ 0 then .ok buf
        else writeBytes buf (nodeOffset L i + L.dataOffset) nullTagId

/-- The loop `for(std::uint16_t i = 0; i < element_count; i++)` of line 20, bounded by `fuel`
iterations; the counter wraps at 16 bits. -/
def nodeLoop (L : Layout) (K : Constants) (element_count : Nat) :
    Nat → Nat → List Nat → Except Fault (List Nat)
  | 0, _, _ => .error .outOfFuel
  | fuel + 1, i, buf =>
    if i < element_count then
      match processNode L K buf i with
      | .error e => .error e
      | .ok buf1 => nodeLoop L K element_count fuel ((i + 1) % 65536) buf1
    else .ok buf

/-- The function `Scenario::postprocess_hek_data` on the bytes of `script_syntax_data`. -/
def postprocess_hek_data (L : Layout) (K : Constants) (script_syntax_data : List Nat) :
    Except Fault (List Nat) :=
  if script_syntax_data.length ≥ L.tableSize then
    match writeBytes script_syntax_data L.firstElementPtrOffset [0, 0, 0, 0] with
    | .error e => .error e
    | .ok buf =>
      match readBE16 buf L.sizeOffset with
      | .error e => .error e
      | .ok size =>
        nodeLoop L K (min size ((buf.length - L.tableSize) / L.nodeSize))
          (min size ((buf.length - L.tableSize) / L.nodeSize) + 1) 0 buf
  else .ok script_syntax_data

/-- The member `type` of node `i`. -/
def nodeType (L : Layout) (buf : List Nat) (i : Nat) : Nat :=
  be16At buf (nodeOffset L i + L.typeOffset)

/-- The member `flags` of node `i`. -/
def nodeFlags (L : Layout) (buf : List Nat) (i : Nat) : Nat :=
  be16At buf (nodeOffset L i + L.flagsOffset)

/-- The four bytes of the member `data` of node `i`. -/
def nodeData (L : Layout) (buf : List Nat) (i : Nat) : List Nat :=
  bytesAt buf (nodeOffset L i + L.dataOffset) 4

/-- The number of nodes processed (line 17): the smaller of the table's `size` member and
the number of whole nodes that fit in the buffer after the header. -/
def elementCount (L : Layout) (buf : List Nat) : Nat :=
  min (be16At buf L.sizeOffset) ((buf.length - L.tableSize) / L.nodeSize)

/-- The node types named by the specification: sound, effect, damage, looping sound,
animation graph, actor variant, damage effect, object definition. -/
def referenceTypes (K : Constants) : List Nat :=
  [K.SCENARIO_SCRIPT_VALUE_TYPE_SOUND, K.SCENARIO_SCRIPT_VALUE_TYPE_EFFECT,
   K.SCENARIO_SCRIPT_VALUE_TYPE_DAMAGE, K.SCENARIO_SCRIPT_VALUE_TYPE_LOOPING_SOUND,
   K.SCENARIO_SCRIPT_VALUE_TYPE_ANIMATION_GRAPH, K.SCENARIO_SCRIPT_VALUE_TYPE_ACTOR_VARIANT,
   K.SCENARIO_SCRIPT_VALUE_TYPE_DAMAGE_EFFECT, K.SCENARIO_SCRIPT_VALUE_TYPE_OBJECT_DEFINITION]

/-- The condition of the specification for nulling the data of node `i`: its type is one of
the reference types and neither the is-global nor the is-script-call flag is set. -/
def isNulled (L : Layout) (K : Constants) (buf : List Nat) (i : Nat) : Prop :=
  nodeType L buf i ∈ referenceTypes K ∧
  nodeFlags L buf i &&& K.SCENARIO_SCRIPT_NODE_FLAGS_FLAG_IS_GLOBAL = 0 ∧
  nodeFlags L buf i &&& K.SCENARIO_SCRIPT_NODE_FLAGS_FLAG_IS_SCRIPT_CALL = 0

instance (L : Layout) (K : Constants) (buf : List Nat) (i : Nat) :
    Decidable (isNulled L K buf i) := by
  unfold isNulled
  infer_instance

/-- Offset `k` lies in the member `data` of node `m`. -/
def inData (L : Layout) (m k : Nat) : Prop :=
  nodeOffset L m + L.dataOffset ≤ k ∧ k < nodeOffset L m + L.dataOffset + 4

instance (L : Layout) (m k : Nat) : Decidable (inData L m k) := by
  unfold inData
  infer_instance

/-- The buffer `cur` is `base` after the loop has handled the nodes below `i`: the same length,
the `data` bytes of the nodes below `i` that meet the nulling condition are `0xFF`, every
other byte is that of `base`. -/
def After (L : Layout) (K : Constants) (base : List Nat) (i : Nat) (cur : List Nat) : Prop :=
  cur.length = base.length ∧
  ∀ k, cur.getD k 0 =
    if ∃ m, m < i ∧ isNulled L K base m ∧ inData L m k then 255 else base.getD k 0

/-- The layout of the Halo Editing Kit structures: a 56-byte table header with `size` at
offset 46 and `first_element_ptr` at offset 52, and 20-byte nodes with `type` at offset 4,
`flags` at offset 6 and `data` at offset 16. -/
def hekLayout : Layout :=
  { tableSize := 56, sizeOffset := 46, firstElementPtrOffset := 52, nodeSize := 20,
    typeOffset := 4, flagsOffset := 6, dataOffset := 16 }

/-- The enumerator values of the Halo Editing Kit definitions: node types 24 to 31, the
is-script-call bit 2 and the is-global bit 4. -/
def hekConstants : Constants :=
  { SCENARIO_SCRIPT_VALUE_TYPE_SOUND := 24, SCENARIO_SCRIPT_VALUE_TYPE_EFFECT := 25,
    SCENARIO_SCRIPT_VALUE_TYPE_DAMAGE := 26, SCENARIO_SCRIPT_VALUE_TYPE_LOOPING_SOUND := 27,
    SCENARIO_SCRIPT_VALUE_TYPE_ANIMATION_GRAPH := 28,
    SCENARIO_SCRIPT_VALUE_TYPE_ACTOR_VARIANT := 29,
    SCENARIO_SCRIPT_VALUE_TYPE_DAMAGE_EFFECT := 30,
    SCENARIO_SCRIPT_VALUE_TYPE_OBJECT_DEFINITION := 31,
    SCENARIO_SCRIPT_NODE_FLAGS_FLAG_IS_GLOBAL := 4,
    SCENARIO_SCRIPT_NODE_FLAGS_FLAG_IS_SCRIPT_CALL := 2 }

/-- A node of the example table: 20 bytes with the given `type`, `flags` and `data` bytes,
the other members zero. -/
def exampleNode (type flags : Nat) (data : List Nat) : List Nat :=
  [0, 0, 0, 0, type / 256, type % 256, flags / 256, flags % 256,
   0, 0, 0, 0, 0, 0, 0, 0] ++ data

/-- The example table of the specification: a header declaring three nodes (with a non-zero
`first_element_ptr`), then a sound node flagged global, an effect node without flags and a
node of an unrecognized type (9, a string). -/
def exampleTable : List Nat :=
  List.replicate 46 0 ++ [0, 3] ++ [0, 3, 0, 0] ++ [64, 68, 11, 220] ++
    exampleNode 24 4 [0, 1, 0, 2] ++ exampleNode 25 0 [0, 3, 0, 4] ++
    exampleNode 9 0 [0, 5, 0, 6]

/-! ## Auxiliary predicates of the proofs -/

/-- Characters acceptable to an integer; `first` tells whether a minus sign is acceptable as
the first of them. -/
def intOk (first : Bool) : List Char → Bool
  | [] => true
  | c :: rest => (isDigit c || (first && c == '-')) && rest.all isDigit

/-- Characters acceptable to a decimal; `first` tells whether a minus sign is acceptable as
the first of them. -/
def decOk (first : Bool) : List Char → Bool
  | [] => true
  | c :: rest =>
    (isDigit c || c == '.' || (first && c == '-')) && rest.all (fun d => isDigit d || d == '.')

/-- The invariant of the character loop: `c` is inside the string or on its terminator, the
counters `line` and `column` are the position of `c`, an open token started before `c` at the
recorded position and expects a quote exactly when it began with one, and outside a token
nothing is expected and nothing is escaped. -/
structure Inv (s : List Char) (st : State) : Prop where
  c_le : st.c ≤ s.length
  line_eq : st.line = lineOf s st.c
  column_eq : st.column = columnOf s st.c
  opened : ∀ ts, st.token_start = some ts →
    ts < st.c ∧ st.token_start_line = lineOf s ts ∧ st.token_start_column = columnOf s ts ∧
    st.expected_end = (if s.getD ts NUL = '"' then '"' else ' ')
  closed : st.token_start = none → st.expected_end = NUL ∧ st.escape = false

/-! ## The effect hook (effect.cpp)

`Effect::post_compile` walks the struct heap of the build workload. The structures it casts
the struct data to (`Effect`, `EffectEvent`, `EffectPart`, `DamageEffect`), the workload itself
and the enumerators are declared in headers that are not part of the sources at hand. The heap
is therefore kept typed: each struct holds the object its bytes are cast to, with the members
the hook uses. A dereference that the typed heap cannot serve (an index past an array, an
empty `std::optional`, a struct of another kind) is undefined behaviour, reported as a fault.
-/

/-- Ways in which the hook leaves defined behaviour. -/
inductive HookFault where
  | outOfBounds
  | emptyOptional
  | wrongStruct
  deriving DecidableEq, Repr

/-- A `float` member: NaN or a number. The hook only copies such values and compares them
with `>`; `R` is the linearly ordered type of the numbers. -/
inductive FloatValue (R : Type) where
  | nan
  | num (r : R)
  deriving DecidableEq, Repr

/-- The comparison `a > b` of two floats: false as soon as one of them is NaN. -/
def FloatValue.gt {R : Type} [LinearOrder R] : FloatValue R → FloatValue R → Bool
  | .num a, .num b => decide (b < a)
  | _, _ => false

/-- Modelled from the spec: a tag id is a handle made of an index and a generation, with one
reserved value, all bits set, that denotes "no tag". -/
structure TagID where
  index : Nat
  generation : Nat
  deriving DecidableEq, Repr

/-- The reserved id `TagID::null_tag_id()`, `0xFFFFFFFF`. -/
def TagID.null_tag_id : TagID := { index := 0xFFFF, generation := 0xFFFF }

/-- The test `TagID::is_null()`. -/
def TagID.is_null (t : TagID) : Bool := t == TagID.null_tag_id

/-- The members of `EffectPart::struct_little` used by the hook: the dependency `type` (its
class and tag id) and `type_class`. Classes are the numeric values of `TagFourCC`. -/
structure EffectPart where
  type_tag_fourcc : Nat
  type_tag_id : TagID
  type_class : Nat
  deriving DecidableEq, Repr

/-- The members of `EffectEvent::struct_little` used by the hook: the block `parts`, as its
count and the struct index `resolve_pointer(&event.parts.pointer)` yields (if any). -/
structure EffectEvent where
  parts_count : Nat
  parts_pointer : Option Nat
  deriving DecidableEq, Repr

/-- The members of `Effect::struct_little` used by the hook: `flags`,
`maximum_damage_radius` and the block `events`, as its count and the struct index
`resolve_pointer(&effect.events.pointer)` yields (if any). -/
structure EffectData (R : Type) where
  flags : Nat
  maximum_damage_radius : FloatValue R
  events_count : Nat
  events_pointer : Option Nat
  deriving DecidableEq, Repr

/-- The data of one struct of the workload, by what the hook casts it to: an effect placed at
a byte offset, an array of events, an array of parts, a damage effect (its `radius.to`), or
anything else. -/
inductive StructData (R : Type) where
  | effect (offset : Nat) (e : EffectData R)
  | events (l : List EffectEvent)
  | parts (l : List EffectPart)
  | damage_effect (radius_to : FloatValue R)
  | other
  deriving DecidableEq, Repr

/-- The member of a workload tag used by the hook: `base_struct`, an optional struct index. -/
structure BuildWorkloadTag where
  base_struct : Option Nat
  deriving DecidableEq, Repr

/-- The enumeration `HEK::CacheFileEngine`. -/
inductive CacheFileEngine where
  | CACHE_FILE_XBOX
  | CACHE_FILE_DEMO
  | CACHE_FILE_RETAIL
  | CACHE_FILE_CUSTOM_EDITION
  | CACHE_FILE_ANNIVERSARY
  | CACHE_FILE_DARK_CIRCLET
  deriving DecidableEq, Repr

/-- The members of `BuildWorkload` used by the hook. -/
structure BuildWorkload (R : Type) where
  disable_recursion : Bool
  build_cache_file_engine : CacheFileEngine
  structs : List (StructData R)
  tags : List BuildWorkloadTag
  deriving DecidableEq, Repr

/-- The enumerators and the macro used by the hook: three values of `TagFourCC`, the macro
`IS_OBJECT_TAG`, and two bits of `HEK::EffectFlagsFlag`. -/
structure EffectConstants where
  TAG_FOURCC_OBJECT : Nat
  TAG_FOURCC_DAMAGE_EFFECT : Nat
  TAG_FOURCC_LIGHT : Nat
  IS_OBJECT_TAG : Nat → Bool
  EFFECT_FLAGS_FLAG_MUST_BE_DETERMINISTIC : Nat
  EFFECT_FLAGS_FLAG_MUST_BE_DETERMINISTIC_XBOX : Nat

/-- The locals and the heap while the hook runs. -/
structure HookState (R : Type) where
  structs : List (StructData R)
  must_be_deterministic : Bool
  deriving DecidableEq, Repr

/-- The cast of `structs[i].data.data() + offset` to `Effect::struct_little`. -/
def getEffect {R : Type} (structs : List (StructData R)) (i offset : Nat) :
    Except HookFault (EffectData R) :=
  match structs[i]? with
  | none => .error .outOfBounds
  | some (.effect o e) => if o = offset then .ok e else .error .wrongStruct
  | some _ => .error .wrongStruct

/-- The cast of `structs[i].data.data()` to an array of `EffectEvent::struct_little`. -/
def getEvents {R : Type} (structs : List (StructData R)) (i : Nat) :
    Except HookFault (List EffectEvent) :=
  match structs[i]? with
  | none => .error .outOfBounds
  | some (.events l) => .ok l
  | some _ => .error .wrongStruct

/-- The cast of `structs[i].data.data()` to an array of `EffectPart::struct_little`. -/
def getParts {R : Type} (structs : List (StructData R)) (i : Nat) :
    Except HookFault (List EffectPart) :=
  match structs[i]? with
  | none => .error .outOfBounds
  | some (.parts l) => .ok l
  | some _ => .error .wrongStruct

/-- The member `radius.to` of `structs[i].data.data()` cast to `DamageEffect::struct_little`. -/
def getDamageRadius {R : Type} (structs : List (StructData R)) (i : Nat) :
    Except HookFault (FloatValue R) :=
  match structs[i]? with
  | none => .error .outOfBounds
  | some (.damage_effect r) => .ok r
  | some _ => .error .wrongStruct

/-- The dereference `*o` of a `std::optional`. -/
def derefOptional (o : Option Nat) : Except HookFault Nat :=
  match o with
  | some i => .ok i
  | none => .error .emptyOptional

/-- The struct index `*workload.tags[part_id.index].base_struct` of line 48. -/
def baseStructOf (tags : List BuildWorkloadTag) (part_id : TagID) : Except HookFault Nat :=
  match tags[part_id.index]? with
  | none => .error .outOfBounds
  | some tag => derefOptional tag.base_struct

/-- The store `part.type_class = value` into part `p` of the parts struct `i`. -/
def setTypeClass {R : Type} (structs : List (StructData R)) (i p : Nat) (parts : List EffectPart)
    (part : EffectPart) (value : Nat) : List (StructData R) :=
  structs.set i (.parts (parts.set p { part with type_class := value }))

/-- Lines 46-52: the radius of the damage effect the part refers to raises
`effect.maximum_damage_radius` when it is greater. -/
def raiseRadius {R : Type} [LinearOrder R] (tags : List BuildWorkloadTag)
    (struct_index struct_offset : Nat) (part_id : TagID) (st : HookState R) :
    Except HookFault (HookState R) :=
  match baseStructOf tags part_id with
  | .error e => .error e
  | .ok b =>
    match getDamageRadius st.structs b with
    | .error e => .error e
    | .ok max_radius =>
      match getEffect st.structs struct_index struct_offset with
      | .error e => .error e
      | .ok effect =>
        if max_radius.gt effect.maximum_damage_radius = true then
          let raised : EffectData R := { effect with maximum_damage_radius := max_radius }
          .ok { st with structs := st.structs.set struct_index (.effect struct_offset raised) }
        else .ok st

/-- The body of the loop over parts (lines 33-54) for part `p` of the parts struct
`parts_index`. -/
def processPart {R : Type} [LinearOrder R] (K : EffectConstants) (tags : List BuildWorkloadTag)
    (struct_index struct_offset parts_index p : Nat) (st : HookState R) :
    Except HookFault (HookState R) :=
  match getParts st.structs parts_index with
  | .error e => .error e
  | .ok parts =>
    match parts[p]? with
    | none => .error .outOfBounds
    | some part =>
      if part.type_tag_id.is_null = true then .ok st
      else if K.IS_OBJECT_TAG part.type_tag_fourcc = true then
        .ok { st with structs :=
          setTypeClass st.structs parts_index p parts part K.TAG_FOURCC_OBJECT }
      else
        let st1 : HookState R :=
          { structs := setTypeClass st.structs parts_index p parts part part.type_tag_fourcc,
            must_be_deterministic := st.must_be_deterministic ||
              (part.type_tag_fourcc == K.TAG_FOURCC_DAMAGE_EFFECT ||
                part.type_tag_fourcc == K.TAG_FOURCC_LIGHT) }
        if part.type_tag_fourcc = K.TAG_FOURCC_DAMAGE_EFFECT then
          raiseRadius tags struct_index struct_offset part.type_tag_id st1
        else .ok st1

/-- The loop `for(std::size_t p = 0; p < part_count; p++)` of line 32, with `remaining`
iterations left from part `p` on. -/
def partsLoop {R : Type} [LinearOrder R] (K : EffectConstants) (tags : List BuildWorkloadTag)
    (struct_index struct_offset parts_index : Nat) :
    Nat → Nat → HookState R → Except HookFault (HookState R)
  | 0, _, st => .ok st
  | remaining + 1, p, st =>
    match processPart K tags struct_index struct_offset parts_index p st with
    | .error e => .error e
    | .ok st1 => partsLoop K tags struct_index struct_offset parts_index remaining (p + 1) st1

/-- The body of the loop over events (lines 27-56) for event `e` of the events struct
`events_index`. -/
def processEvent {R : Type} [LinearOrder R] (K : EffectConstants) (tags : List BuildWorkloadTag)
    (struct_index struct_offset events_index e : Nat) (st : HookState R) :
    Except HookFault (HookState R) :=
  match getEvents st.structs events_index with
  | .error err => .error err
  | .ok events =>
    match events[e]? with
    | none => .error .outOfBounds
    | some event =>
      if event.parts_count ≠ 0 then
        match derefOptional event.parts_pointer with
        | .error err => .error err
        | .ok parts_index =>
          match getParts st.structs parts_index with
          | .error err => .error err
          | .ok _ =>
            partsLoop K tags struct_index struct_offset parts_index event.parts_count 0 st
      else .ok st

/-- The loop `for(std::size_t e = 0; e < event_count; e++)` of line 26, with `remaining`
iterations left from event `e` on. -/
def eventsLoop {R : Type} [LinearOrder R] (K : EffectConstants) (tags : List BuildWorkloadTag)
    (struct_index struct_offset events_index : Nat) :
    Nat → Nat → HookState R → Except HookFault (HookState R)
  | 0, _, st => .ok st
  | remaining + 1, e, st =>
    match processEvent K tags struct_index struct_offset events_index e st with
    | .error err => .error err
    | .ok st1 =>
      eventsLoop K tags struct_index struct_offset events_index remaining (e + 1) st1

/-- The complement `~mask` of a 32-bit value. -/
def complement32 (mask : Nat) : Nat := 0xFFFFFFFF ^^^ (mask % 2 ^ 32)

/-- The deterministic bit that line 67 chooses for the target engine. -/
def deterministicBit (K : EffectConstants) (engine : CacheFileEngine) : Nat :=
  if engine = .CACHE_FILE_XBOX then K.EFFECT_FLAGS_FLAG_MUST_BE_DETERMINISTIC_XBOX
  else K.EFFECT_FLAGS_FLAG_MUST_BE_DETERMINISTIC

/-- Lines 60-71: both deterministic bits are cleared, then the one for the target engine is set
when determinism is required. -/
def updateFlags (K : EffectConstants) (engine : CacheFileEngine) (must_be_deterministic : Bool)
    (flags : Nat) : Nat :=
  let cleared := flags &&& complement32 (K.EFFECT_FLAGS_FLAG_MUST_BE_DETERMINISTIC |||
    K.EFFECT_FLAGS_FLAG_MUST_BE_DETERMINISTIC_XBOX)
  if must_be_deterministic = true then cleared ||| deterministicBit K engine else cleared

/-- Lines 58-71: the flags of the effect are read, updated and stored back. -/
def storeFlags {R : Type} (K : EffectConstants) (workload : BuildWorkload R)
    (struct_index struct_offset : Nat) (st : HookState R) (effect : EffectData R) :
    BuildWorkload R :=
  let flags := updateFlags K workload.build_cache_file_engine st.must_be_deterministic
    effect.flags
  let stored : EffectData R := { effect with flags := flags }
  { workload with structs := st.structs.set struct_index (.effect struct_offset stored) }

/-- The function `Effect::post_compile` for the effect at `struct_offset` in the struct
`struct_index`; the result is the workload it leaves. -/
def post_compile {R : Type} [LinearOrder R] (K : EffectConstants) (workload : BuildWorkload R)
    (struct_index struct_offset : Nat) : Except HookFault (BuildWorkload R) :=
  if workload.disable_recursion = true then .ok workload
  else
    match getEffect workload.structs struct_index struct_offset with
    | .error e => .error e
    | .ok effect0 =>
      let st0 : HookState R := { structs := workload.structs, must_be_deterministic := false }
      let looped : Except HookFault (HookState R) :=
        if effect0.events_count ≠ 0 then
          match derefOptional effect0.events_pointer with
          | .error e => .error e
          | .ok events_index =>
            match getEvents workload.structs events_index with
            | .error e => .error e
            | .ok _ =>
              eventsLoop K workload.tags struct_index struct_offset events_index
                effect0.events_count 0 st0
        else .ok st0
      match looped with
      | .error e => .error e
      | .ok st =>
        match getEffect st.structs struct_index struct_offset with
        | .error e => .error e
        | .ok effect => .ok (storeFlags K workload struct_index struct_offset st effect)

/-- Values for the enumerators of the hook, used by the examples: the classes `obje`, `jpt!`
and `ligh`, a list of object classes for `IS_OBJECT_TAG`, and the flag bits 4 (deterministic)
and 2 (deterministic on Xbox). -/
def exampleEffectConstants : EffectConstants :=
  { TAG_FOURCC_OBJECT := 0x6F626A65,
    TAG_FOURCC_DAMAGE_EFFECT := 0x6A707421,
    TAG_FOURCC_LIGHT := 0x6C696768,
    IS_OBJECT_TAG := fun r =>
      [0x6F626A65, 0x756E6974, 0x62697064, 0x76656869, 0x6974656D, 0x77656170, 0x65716970,
       0x67617262, 0x70726F6A, 0x7363656E, 0x64657669, 0x6D616368, 0x6374726C, 0x6C696669,
       0x706C6163, 0x73736365].contains r,
    EFFECT_FLAGS_FLAG_MUST_BE_DETERMINISTIC := 4,
    EFFECT_FLAGS_FLAG_MUST_BE_DETERMINISTIC_XBOX := 2 }

/-- A part that refers to tag 0 as a damage effect (`jpt!`). -/
def exampleDamagePart : EffectPart :=
  { type_tag_fourcc := 0x6A707421, type_tag_id := { index := 0, generation := 0xE174 },
    type_class := 0 }

/-- A part that refers to tag 1 as a sound (`snd!`). -/
def exampleSoundPart : EffectPart :=
  { type_tag_fourcc := 0x736E6421, type_tag_id := { index := 1, generation := 0xE175 },
    type_class := 0 }

/-- A part with a null tag id. -/
def exampleNullPart : EffectPart :=
  { type_tag_fourcc := 0x6A707421, type_tag_id := TagID.null_tag_id, type_class := 7 }

/-- An effect with flags 1, radius 0 and one event in struct 1. -/
def exampleEffect : EffectData Int :=
  { flags := 1, maximum_damage_radius := .num 0, events_count := 1, events_pointer := some 1 }

/-- An event with two parts in struct 2. -/
def exampleEvent : EffectEvent := { parts_count := 2, parts_pointer := some 2 }

/-- The example of the specification: an effect (struct 0, flags 1, radius 0) with one event
(struct 1) of two parts (struct 2): a damage-effect part referring to tag 0, whose damage
effect (struct 3) has radius 10, and a sound part referring to tag 1, whose struct 4 holds a
radius of 50. -/
def exampleWorkload : BuildWorkload Int :=
  { disable_recursion := false,
    build_cache_file_engine := .CACHE_FILE_CUSTOM_EDITION,
    structs :=
      [.effect 0 exampleEffect,
       .events [exampleEvent],
       .parts [exampleDamagePart, exampleSoundPart],
       .damage_effect (.num 10),
       .damage_effect (.num 50)],
    tags := [{ base_struct := some 3 }, { base_struct := some 4 }] }

/-- The workload expected after the hook has run on `exampleWorkload`: the effect has flags 5
and radius 10, and each part has its class as `type_class`. -/
def exampleResult : BuildWorkload Int :=
  { disable_recursion := false,
    build_cache_file_engine := .CACHE_FILE_CUSTOM_EDITION,
    structs :=
      [.effect 0 { exampleEffect with flags := 5, maximum_damage_radius := .num 10 },
       .events [exampleEvent],
       .parts [{ exampleDamagePart with type_class := 0x6A707421 },
               { exampleSoundPart with type_class := 0x736E6421 }],
       .damage_effect (.num 10),
       .damage_effect (.num 50)],
    tags := [{ base_struct := some 3 }, { base_struct := some 4 }] }

/-- A workload whose pointers do not resolve: the heap and the tag array are empty, and
recursion is disabled. -/
def exampleBrokenWorkload : BuildWorkload Int :=
  { disable_recursion := true,
    build_cache_file_engine := .CACHE_FILE_XBOX,
    structs := [],
    tags := [] }

/-- A workload with an empty tag array: an effect (struct 0, with both
deterministic bits set) with one event (struct 1) of one part (struct 2) whose tag id is
null. -/
def exampleNullWorkload : BuildWorkload Int :=
  { disable_recursion := false,
    build_cache_file_engine := .CACHE_FILE_XBOX,
    structs :=
      [.effect 0 { flags := 6, maximum_damage_radius := .num 0, events_count := 1,
                   events_pointer := some 1 },
       .events [{ parts_count := 1, parts_pointer := some 2 }],
       .parts [exampleNullPart]],
    tags := [] }

/-- The workload expected after the hook has run on `exampleNullWorkload`: only the flags of
the effect have changed. -/
def exampleNullResult : BuildWorkload Int :=
  { disable_recursion := false,
    build_cache_file_engine := .CACHE_FILE_XBOX,
    structs :=
      [.effect 0 { flags := 0, maximum_damage_radius := .num 0, events_count := 1,
                   events_pointer := some 1 },
       .events [{ parts_count := 1, parts_pointer := some 2 }],
       .parts [exampleNullPart]],
    tags := [] }

/-- Part `p` of the parts struct `i` is `part`. -/
def PartIn {R : Type} (structs : List (StructData R)) (i p : Nat) (part : EffectPart) : Prop :=
  ∃ parts, getParts structs i = .ok parts ∧ parts[p]? = some part

/-- Event `e` of the effect at `struct_offset` in the struct `struct_index` exists and is
`event`: the effect has more than `e` events and its events block resolves to an events
struct holding `event` at place `e`. -/
def IsEvent {R : Type} (structs : List (StructData R)) (struct_index struct_offset e : Nat)
    (event : EffectEvent) : Prop :=
  ∃ effect events_index events,
    getEffect structs struct_index struct_offset = .ok effect ∧ e < effect.events_count ∧
    effect.events_pointer = some events_index ∧ getEvents structs events_index = .ok events ∧
    events[e]? = some event

/-- Part `p` of event `e` of the effect exists, lies in the parts struct `parts_index` and
is `part`. -/
def IsPart {R : Type} (structs : List (StructData R)) (struct_index struct_offset e p : Nat)
    (parts_index : Nat) (part : EffectPart) : Prop :=
  ∃ event, IsEvent structs struct_index struct_offset e event ∧ p < event.parts_count ∧
    event.parts_pointer = some parts_index ∧ PartIn structs parts_index p part

/-- The damage effect that `part` refers to has the radius upper bound `r`. -/
def HasRadius {R : Type} (structs : List (StructData R)) (tags : List BuildWorkloadTag)
    (part : EffectPart) (r : FloatValue R) : Prop :=
  ∃ b, baseStructOf tags part.type_tag_id = .ok b ∧ getDamageRadius structs b = .ok r

/-- A struct without what the loops of the hook may change: the `type_class` of parts and the
`maximum_damage_radius` of effects. -/
def eraseStruct {R : Type} : StructData R → StructData R
  | .effect o e => .effect o { e with maximum_damage_radius := .nan }
  | .parts l => .parts (l.map (fun part => { part with type_class := 0 }))
  | .events l => .events l
  | .damage_effect r => .damage_effect r
  | .other => .other

/-- Two heaps that differ at most in the `type_class` of parts and the
`maximum_damage_radius` of effects. -/
def Similar {R : Type} (a b : List (StructData R)) : Prop :=
  a.map eraseStruct = b.map eraseStruct

/-- The value line 49-51 leaves in `maximum_damage_radius`: `r` when `r > current`, else
`current`. -/
def raisedTo {R : Type} [LinearOrder R] (r current : FloatValue R) : FloatValue R :=
  if r.gt current = true then r else current

/-- A part that requires determinism: its tag id is not null and its class is damage effect
or light. -/
def NeedsDeterminism (K : EffectConstants) (part : EffectPart) : Prop :=
  part.type_tag_id.is_null = false ∧
    (part.type_tag_fourcc = K.TAG_FOURCC_DAMAGE_EFFECT ∨
      part.type_tag_fourcc = K.TAG_FOURCC_LIGHT)

/-- A part that refers to a damage effect: its tag id is not null and its class is damage
effect. -/
def IsDamagePart (K : EffectConstants) (part : EffectPart) : Prop :=
  part.type_tag_id.is_null = false ∧ part.type_tag_fourcc = K.TAG_FOURCC_DAMAGE_EFFECT

/-- Part `p1` of event `e1` is visited before the loops reach part `p` of event `e`. -/
def Before (e p e1 p1 : Nat) : Prop := e1 < e ∨ (e1 = e ∧ p1 < p)

/-- The invariant of the two loops when they stand at part `p` of event `e`, for the heap
`S0` the hook started from. The heap differs from `S0` only in what the loops change, and
not in any part with a null tag id. When damage effect and light are not object classes,
determinism is required exactly when a visited part requires it. When damage effect is not an
object class, the damage effect of every visited damage part resolves; and if moreover the
effect started with the number `m0` as its radius and no damage effect referred to has a NaN
radius, the effect's radius is a number, at least `m0`, at least the radius of every visited
damage part, and equal to `m0` or to the radius of a visited damage part. -/
structure LoopInv {R : Type} [LinearOrder R] (K : EffectConstants)
    (S0 : List (StructData R)) (tags : List BuildWorkloadTag) (si so : Nat)
    (e p : Nat) (st : HookState R) : Prop where
  similar : Similar S0 st.structs
  nulls : ∀ i q x, PartIn S0 i q x → x.type_tag_id.is_null = true → PartIn st.structs i q x
  det : K.IS_OBJECT_TAG K.TAG_FOURCC_DAMAGE_EFFECT = false →
    K.IS_OBJECT_TAG K.TAG_FOURCC_LIGHT = false →
    (st.must_be_deterministic = true ↔
      ∃ e1 p1 pi part, Before e p e1 p1 ∧ IsPart S0 si so e1 p1 pi part ∧
        NeedsDeterminism K part)
  resolved : K.IS_OBJECT_TAG K.TAG_FOURCC_DAMAGE_EFFECT = false →
    ∀ e1 p1 pi part, Before e p e1 p1 → IsPart S0 si so e1 p1 pi part →
      IsDamagePart K part → ∃ r, HasRadius S0 tags part r
  radius : K.IS_OBJECT_TAG K.TAG_FOURCC_DAMAGE_EFFECT = false →
    ∀ m0, (∃ eff0, getEffect S0 si so = .ok eff0 ∧ eff0.maximum_damage_radius = .num m0) →
    (∀ e1 p1 pi part r, IsPart S0 si so e1 p1 pi part → IsDamagePart K part →
      HasRadius S0 tags part r → ∃ x, r = .num x) →
    ∃ eff m, getEffect st.structs si so = .ok eff ∧ eff.maximum_damage_radius = .num m ∧
      m0 ≤ m ∧
      (∀ e1 p1 pi part x, Before e p e1 p1 → IsPart S0 si so e1 p1 pi part →
        IsDamagePart K part → HasRadius S0 tags part (.num x) → x ≤ m) ∧
      (m = m0 ∨ ∃ e1 p1 pi part, Before e p e1 p1 ∧ IsPart S0 si so e1 p1 pi part ∧
        IsDamagePart K part ∧ HasRadius S0 tags part (.num m))

/-- The parts struct `parts_index` resolves for `count` parts: it holds an array of at least
`count` parts, and every one of them that the hook takes for a damage effect (a tag id that
is not null, a class that is damage effect and not an object class) refers to a tag whose
base struct is a damage effect. -/
def PartsResolve {R : Type} (K : EffectConstants) (structs : List (StructData R))
    (tags : List BuildWorkloadTag) (parts_index count : Nat) : Prop :=
  ∃ parts, getParts structs parts_index = .ok parts ∧
    ∀ p, p < count → ∃ part, parts[p]? = some part ∧
      (part.type_tag_id.is_null = false → K.IS_OBJECT_TAG part.type_tag_fourcc = false →
        part.type_tag_fourcc = K.TAG_FOURCC_DAMAGE_EFFECT → ∃ r, HasRadius structs tags part r)

/-- The events struct `events_index` resolves for `count` events: it holds an array of at
least `count` events, and the parts block of each of them that has parts resolves. -/
def EventsResolve {R : Type} (K : EffectConstants) (structs : List (StructData R))
    (tags : List BuildWorkloadTag) (events_index count : Nat) : Prop :=
  ∃ events, getEvents structs events_index = .ok events ∧
    ∀ e, e < count → ∃ event, events[e]? = some event ∧
      (event.parts_count ≠ 0 → ∃ parts_index, event.parts_pointer = some parts_index ∧
        PartsResolve K structs tags parts_index event.parts_count)

/-- Every reference the hook follows from the effect at `struct_offset` in the struct
`struct_index` resolves: the effect is there, and its events block resolves if it has
events. -/
def Resolves {R : Type} (K : EffectConstants) (structs : List (StructData R))
    (tags : List BuildWorkloadTag) (struct_index struct_offset : Nat) : Prop :=
  ∃ effect, getEffect structs struct_index struct_offset = .ok effect ∧
    (effect.events_count ≠ 0 → ∃ events_index, effect.events_pointer = some events_index ∧
      EventsResolve K structs tags events_index effect.events_count)

/-! ## The cache file loader (map.hpp)

The header declares `Map::get_data_at_offset`; the file that implements it is not among the
sources at hand.
-/

/-- The enumeration `Map::DataMapType`. -/
inductive DataMapType where
  | DATA_MAP_CACHE
  | DATA_MAP_BITMAP
  | DATA_MAP_SOUND
  | DATA_MAP_LOC
  deriving DecidableEq, Repr

/-- The exception `OutOfBoundsException` that the accessors of `Map` are declared to throw. -/
inductive MapException where
  | OutOfBoundsException
  deriving DecidableEq, Repr

/-- The four regions of a loaded `Map`: the bytes that the members `data`, `bitmap_data`,
`loc_data` and `sound_data` point to; the members `data_length`, `bitmap_data_length`,
`loc_data_length` and `sound_data_length` are their lengths. -/
structure Map where
  data : List Nat
  bitmap_data : List Nat
  loc_data : List Nat
  sound_data : List Nat
  deriving DecidableEq, Repr

/-- The region that a `DataMapType` names. -/
def Map.region (map : Map) : DataMapType → List Nat
  | .DATA_MAP_CACHE => map.data
  | .DATA_MAP_BITMAP => map.bitmap_data
  | .DATA_MAP_SOUND => map.sound_data
  | .DATA_MAP_LOC => map.loc_data

/-- Modelled from the spec: `Map::get_data_at_offset`, whose implementation is missing, is
"bounds-checked against that region's length; fails with `OutOfBounds` if
`offset + min_size` exceeds the region", and otherwise yields the bytes of the region from
`offset` on. -/
def Map.get_data_at_offset (map : Map) (offset minimum_size : Nat) (map_type : DataMapType) :
    Except MapException (List Nat) :=
  if offset + minimum_size > (map.region map_type).length then .error .OutOfBoundsException
  else .ok ((map.region map_type).drop offset)

/-- A loaded map with a cache region of four bytes, a bitmap region of two bytes and empty
sound and loc regions. -/
def exampleMap : Map :=
  { data := [10, 20, 30, 40], bitmap_data := [1, 2], loc_data := [], sound_data := [] }

/-! ## The build command (build.cpp)

The program `invader-build` hands its command line to `CommandLineOption::parse_arguments`
together with a handler, reads the index file if one was given, and calls
`BuildWorkload::compile_map`. The handler and the body of `main` are embedded here; the
functions of other files that `main` calls are parameters. Strings are lists of characters,
exit statuses are numbers, and a run ends either with an exit status or with the arguments
handed to `compile_map`.
-/

/-- The exit status `EXIT_SUCCESS`. -/
def EXIT_SUCCESS : Nat := 0

/-- The exit status `EXIT_FAILURE`. -/
def EXIT_FAILURE : Nat := 1

/-- The enumerator `RETURN_FAILED_UNHANDLED_ARGUMENT`. -/
def RETURN_FAILED_UNHANDLED_ARGUMENT : Nat := 3

/-- The function `std::tolower` in the "C" locale, which the program never leaves: the
letters `A` to `Z` become `a` to `z`, every other character is returned as it is. -/
def tolower (c : Char) : Char :=
  if 'A' ≤ c ∧ c ≤ 'Z' then Char.ofNat (c.toNat + 32) else c

/-- The function `std::strlen`: the number of characters before the first NUL. -/
def strlen (s : List Char) : Nat := (cString s 0).length

/-- The value of a character as a digit in base 16, if it is one. -/
def hexDigitValue (c : Char) : Option Nat :=
  if '0' ≤ c ∧ c ≤ '9' then some (c.toNat - '0'.toNat)
  else if 'a' ≤ c ∧ c ≤ 'f' then some (c.toNat - 'a'.toNat + 10)
  else if 'A' ≤ c ∧ c ≤ 'F' then some (c.toNat - 'A'.toNat + 10)
  else none

/-- The value of a run of leading digits in base 16, with `acc` the value read so far. -/
def hexDigitsValue : List Char → Nat → Nat
  | [], acc => acc
  | c :: rest, acc =>
    match hexDigitValue c with
    | some d => hexDigitsValue rest (acc * 16 + d)
    | none => acc

/-- The prefix `0x` or `0X` that `strtoul` skips in base 16 when a digit follows it. -/
def hasHexPrefix : List Char → Bool
  | '0' :: x :: d :: _ => (x == 'x' || x == 'X') && (hexDigitValue d).isSome
  | _ => false

/-- The function `std::strtoul(s, nullptr, 16)` for an `unsigned long` of `ulongBits` bits:
leading white space, an optional sign, an optional prefix `0x`, then digits in base 16; a
value outside the range of `unsigned long` gives `ULONG_MAX`, and a value after a minus sign
is negated in the unsigned type. -/
def strtoul16 (ulongBits : Nat) (s : List Char) : Nat :=
  let body := s.dropWhile isSpace
  let negative := body.head? = some '-'
  let unsigned := if body.head? = some '-' ∨ body.head? = some '+' then body.drop 1 else body
  let digits := if hasHexPrefix unsigned = true then unsigned.drop 2 else unsigned
  let magnitude := hexDigitsValue digits 0
  if magnitude ≥ 2 ^ ulongBits then 2 ^ ulongBits - 1
  else if negative then (2 ^ ulongBits - magnitude) % 2 ^ ulongBits
  else magnitude

/-- The structure `BuildOptions` of `main`. -/
structure BuildOptions where
  maps : List Char
  tags : List (List Char)
  output : List Char
  last_argument : List Char
  index : List Char
  engine : Option CacheFileEngine
  no_external_tags : Bool
  handled : Bool
  quiet : Bool
  always_index_tags : Bool
  forged_crc : Option Nat
  use_filesystem_path : Bool
  rename_scenario : Option (List Char)
  compress : Bool
  optimize_space : Bool
  hide_pedantic_warnings : Bool
  deriving DecidableEq, Repr

/-- The initial value of `build_options` (lines 29-46). -/
def BuildOptions.initial : BuildOptions :=
  { maps := "maps".toList, tags := [], output := [], last_argument := [], index := [],
    engine := none, no_external_tags := false, handled := true, quiet := false,
    always_index_tags := false, forged_crc := none, use_filesystem_path := false,
    rename_scenario := none, compress := false, optimize_space := false,
    hide_pedantic_warnings := false }

/-- The test `std::strcmp(a, b) == 0` for a literal `b`. -/
def strcmpEq (a : List Char) (b : String) : Bool := cString a 0 == b.toList

/-- Case `'g'` of the handler (lines 93-118): the engine is recorded and `compress` is
assigned for it; an unknown engine ends the program. -/
def handleGameEngine (argument : List Char) (build_options : BuildOptions) :
    Except Nat BuildOptions :=
  if strcmpEq argument "custom" = true then
    .ok { build_options with engine := some .CACHE_FILE_CUSTOM_EDITION, compress := false }
  else if strcmpEq argument "retail" = true then
    .ok { build_options with engine := some .CACHE_FILE_RETAIL, compress := false }
  else if strcmpEq argument "demo" = true then
    .ok { build_options with engine := some .CACHE_FILE_DEMO, compress := false }
  else if strcmpEq argument "dark" = true then
    .ok { build_options with engine := some .CACHE_FILE_DARK_CIRCLET, compress := true }
  else if strcmpEq argument "mcc" = true then
    .ok { build_options with engine := some .CACHE_FILE_ANNIVERSARY, compress := true }
  else .error EXIT_FAILURE

/-- The test of line 127 on a character `c` that `tolower` returned: `c` is neither in
`'0'..'9'` nor in `'a'..'f'`. -/
def notHexadecimal (c : Char) : Bool :=
  !(decide (c ≥ '0') && decide (c ≤ '9')) && !(decide (c ≥ 'a') && decide (c ≤ 'f'))

/-- The loop of lines 125-131 over the characters of the argument: false as soon as a
character is not hexadecimal. -/
def hexadecimalCheck : List Char → Bool
  | [] => true
  | ch :: rest => if notHexadecimal (tolower ch) = true then false else hexadecimalCheck rest

/-- Case `'C'` of the handler (lines 119-134): the argument must have 1 to 8 characters, all
of them hexadecimal; its value is then stored as a 32-bit number. -/
def handleForgeCrc (ulongBits : Nat) (argument : List Char) (build_options : BuildOptions) :
    Except Nat BuildOptions :=
  let given_crc32_length := strlen argument
  if given_crc32_length > 8 ∨ given_crc32_length < 1 then .error EXIT_FAILURE
  else if hexadecimalCheck (cString argument 0) = false then .error EXIT_FAILURE
  else .ok { build_options with forged_crc := some (strtoul16 ulongBits argument % 2 ^ 32) }

/-- The handler given to `parse_arguments` (lines 69-158), called with an option letter and
the arguments of that option; `argument` is `arguments[0]`. The result is the updated
`build_options`, or the status with which `std::exit` ends the program. -/
def handler (ulongBits : Nat) (opt : Char) (arguments : List (List Char))
    (build_options : BuildOptions) : Except Nat BuildOptions :=
  let argument := arguments.headD []
  if opt = 'n' then .ok { build_options with no_external_tags := true }
  else if opt = 'q' then .ok { build_options with quiet := true }
  else if opt = 'w' then .ok { build_options with index := cString argument 0 }
  else if opt = 't' then
    .ok { build_options with tags := build_options.tags ++ [cString argument 0] }
  else if opt = 'o' then .ok { build_options with output := cString argument 0 }
  else if opt = 'm' then .ok { build_options with maps := cString argument 0 }
  else if opt = 'a' then .ok { build_options with always_index_tags := true }
  else if opt = 'g' then handleGameEngine argument build_options
  else if opt = 'C' then handleForgeCrc ulongBits argument build_options
  else if opt = 'c' then .ok { build_options with compress := true }
  else if opt = 'u' then .ok { build_options with compress := false }
  else if opt = 'P' then .ok { build_options with use_filesystem_path := true }
  else if opt = 'i' then .error EXIT_SUCCESS
  else if opt = 'N' then
    .ok { build_options with rename_scenario := some (cString argument 0) }
  else if opt = 'O' then .ok { build_options with optimize_space := true }
  else if opt = 'H' then .ok { build_options with hide_pedantic_warnings := true }
  else .ok build_options

/-- One call of the handler: an option of the command line with its arguments. -/
structure OptionUse where
  opt : Char
  arguments : List (List Char)
  deriving DecidableEq, Repr

/-- The calls of the handler that `parse_arguments` makes for a command line, one per option
and in the order in which the options stand there. A call of `std::exit` ends the run. -/
def handleOptions (ulongBits : Nat) : List OptionUse → BuildOptions → Except Nat BuildOptions
  | [], build_options => .ok build_options
  | use :: rest, build_options =>
    match handler ulongBits use.opt use.arguments build_options with
    | .error status => .error status
    | .ok build_options1 => handleOptions ulongBits rest build_options1

/-- The functions of other files that `main` calls before it compiles, for a type `C` of tag
classes. -/
structure Externals (C : Type) where
  file_path_to_tag_path_with_extension : List Char → List (List Char) → List Char →
    Option (List Char)
  halo_path_to_preferred_path : List Char → List Char
  preferred_path_to_halo_path_chars : List Char → List Char
  extension_to_tag_class : List Char → C

/-- The loop of lines 198-203: `extension` points behind the last `'.'` of the line; `i` is
the index of the character at hand. -/
def findExtension : List Char → Nat → Option Nat → Option Nat
  | [], _, extension => extension
  | c :: rest, i, extension =>
    findExtension rest (i + 1) (if c = '.' then some (i + 1) else extension)

/-- The locals at the end of one iteration of the loop over the lines of the index file: the
string `substr` and the pair added to `with_index`. -/
structure IndexLine (C : Type) where
  substr : List Char
  entry : C × List Char

/-- The body of the loop over the lines of the index file (lines 197-221) for the line
`tag`, which is not empty. A line without extension ends the program. -/
def indexLine {C : Type} (X : Externals C) (tag : List Char) : Except Nat (IndexLine C) :=
  match findExtension tag 0 none with
  | none => .error EXIT_FAILURE
  | some extension =>
    let substr := tag.take (extension - 1)
    let substr_v := X.preferred_path_to_halo_path_chars (substr ++ [NUL])
    let lowered := substr.map tolower
    .ok { substr := lowered,
          entry := (X.extension_to_tag_class (cString tag extension), cString substr_v 0) }

/-- The loop `while(std::getline(index_file, tag))` of lines 191-222 over the lines of the
index file; it ends at the first empty line. -/
def readIndex {C : Type} (X : Externals C) :
    List (List Char) → List (C × List Char) → Except Nat (List (C × List Char))
  | [], with_index => .ok with_index
  | tag :: rest, with_index =>
    if tag.length = 0 then .ok with_index
    else
      match indexLine X tag with
      | .error status => .error status
      | .ok line => readIndex X rest (with_index ++ [line.entry])

/-- The arguments of the call of `BuildWorkload::compile_map` (lines 232-247). -/
structure CompileArguments (C : Type) where
  scenario : List Char
  tags : List (List Char)
  engine : CacheFileEngine
  maps : List Char
  no_external_tags : Bool
  always_index_tags : Bool
  verbose : Bool
  with_index : List (C × List Char)
  forged_crc : Option Nat
  rename_scenario : Option (List Char)
  optimize_space : Bool
  compress : Bool
  hide_pedantic_warnings : Bool

/-- Lines 173-188: the scenario path, from the one remaining argument. -/
def scenarioPath {C : Type} (X : Externals C) (build_options : BuildOptions)
    (tags : List (List Char)) (remaining_argument : List Char) : Except Nat (List Char) :=
  if build_options.use_filesystem_path = true then
    match X.file_path_to_tag_path_with_extension remaining_argument tags ".scenario".toList with
    | some scenario => .ok scenario
    | none => .error RETURN_FAILED_UNHANDLED_ARGUMENT
  else .ok (X.halo_path_to_preferred_path remaining_argument)

/-- The function `main` up to its call of `compile_map` (lines 69-247), for the calls of the
handler that the command line causes, the one remaining argument, and the lines of the index
file. The result is the status with which the program ends before it compiles, or the
arguments with which it compiles. -/
def main {C : Type} (X : Externals C) (ulongBits : Nat) (options : List OptionUse)
    (remaining_argument : List Char) (index_file : List (List Char)) :
    Except Nat (CompileArguments C) :=
  match handleOptions ulongBits options BuildOptions.initial with
  | .error status => .error status
  | .ok build_options =>
    if build_options.always_index_tags = true ∧ build_options.no_external_tags = true then
      .error EXIT_FAILURE
    else
      let tags := if build_options.tags.length = 0 then ["tags".toList] else build_options.tags
      match scenarioPath X build_options tags remaining_argument with
      | .error status => .error status
      | .ok scenario =>
        match (if build_options.index.length ≠ 0 then readIndex X index_file [] else .ok []) with
        | .error status => .error status
        | .ok with_index =>
          match build_options.engine with
          | none => .error 1
          | some engine =>
            .ok { scenario := scenario, tags := tags, engine := engine,
                  maps := build_options.maps,
                  no_external_tags := build_options.no_external_tags,
                  always_index_tags := build_options.always_index_tags,
                  verbose := !build_options.quiet, with_index := with_index,
                  forged_crc := build_options.forged_crc,
                  rename_scenario := build_options.rename_scenario,
                  optimize_space := build_options.optimize_space,
                  compress := build_options.compress,
                  hide_pedantic_warnings := build_options.hide_pedantic_warnings }

/-- Stand-ins for the functions of other files, used by the examples: paths are taken as
they are except that `/` becomes `\` on the way to a Halo path, and the class of an
extension is the extension itself. -/
def exampleExternals : Externals (List Char) :=
  { file_path_to_tag_path_with_extension := fun path _ _ => some path,
    halo_path_to_preferred_path := fun path => path,
    preferred_path_to_halo_path_chars := fun path =>
      path.map (fun c => if c = '/' then '\\' else c),
    extension_to_tag_class := fun extension => extension }

/-- A hexadecimal digit: `0-9`, `a-f` or `A-F`. -/
def isHexDigit (c : Char) : Bool :=
  (decide ('0' ≤ c) && decide (c ≤ '9')) || (decide ('a' ≤ c) && decide (c ≤ 'f')) ||
    (decide ('A' ≤ c) && decide (c ≤ 'F'))

/-- A CRC32 in words: 1 to 8 characters, each a hexadecimal digit. -/
def isForgeCrc (argument : List Char) : Prop :=
  1 ≤ argument.length ∧ argument.length ≤ 8 ∧ ∀ c ∈ argument, isHexDigit c = true

instance (argument : List Char) : Decidable (isForgeCrc argument) := by
  unfold isForgeCrc
  infer_instance

/-- The value of a string of hexadecimal digits read as a number in base 16. -/
def hexValue (s : List Char) : Nat :=
  s.foldl (fun acc c => acc * 16 + (hexDigitValue c).getD 0) 0

/-- An uppercase letter `A` to `Z`. -/
def isUpper (c : Char) : Bool := decide ('A' ≤ c) && decide (c ≤ 'Z')

/-! ## Order of the returned tokens -/

/-- Token `a` stands before token `b` in the source: its (line, column) position is smaller
in lexicographic order. -/
def Token.before (a b : Token) : Prop :=
  a.line < b.line ∨ (a.line = b.line ∧ a.column < b.column)

instance (a b : Token) : Decidable (Token.before a b) := by
  unfold Token.before
  infer_instance

/-- The index up to which the input has been turned into tokens: the start of the open
token, or `c` when no token is open. -/
def frontier (st : State) : Nat :=
  match st.token_start with
  | some ts => ts
  | none => st.c

/-- The tokens held at `st` started at the indices `ks`, which increase and lie before the
frontier. -/
def StartedAt (s : List Char) (st : State) (ks : List Nat) : Prop :=
  ks.Pairwise (fun a b => a < b) ∧ (∀ k ∈ ks, k < frontier st) ∧
    positions st.tokens = ks.map (fun k => (lineOf s k, columnOf s k))

/-- The state of the loop on the input `a)` at its second character: the bare token `a` is
open. -/
def openTokenState : State :=
  { c := 1, token_start := some 0, token_start_line := 1, token_start_column := 1,
    escape := false, expected_end := ' ', tokens := [], line := 1, column := 2 }

/-! ## The effect hook: what the loops leave -/

/-- The value that lines 37-42 store in `type_class` of a part whose tag id is not null:
`TAG_FOURCC_OBJECT` for an object class, the class itself otherwise. -/
def classOf (K : EffectConstants) (part : EffectPart) : Nat :=
  if K.IS_OBJECT_TAG part.type_tag_fourcc = true then K.TAG_FOURCC_OBJECT
  else part.type_tag_fourcc

/-- The part as the loop body leaves it: unchanged when its tag id is null, with its class
stored in `type_class` otherwise. -/
def visitedPart (K : EffectConstants) (part : EffectPart) : EffectPart :=
  if part.type_tag_id.is_null = true then part else { part with type_class := classOf K part }

/-- A part that makes the hook set `must_be_deterministic` (lines 35-45): its tag id is not
null, its class is not an object class, and its class is damage effect or light. -/
def SetsDeterminism (K : EffectConstants) (part : EffectPart) : Prop :=
  part.type_tag_id.is_null = false ∧ K.IS_OBJECT_TAG part.type_tag_fourcc = false ∧
    (part.type_tag_fourcc = K.TAG_FOURCC_DAMAGE_EFFECT ∨
      part.type_tag_fourcc = K.TAG_FOURCC_LIGHT)

/-- A part for which the hook looks at the radius of a damage effect (lines 35-47): its tag
id is not null, and its class is damage effect and not an object class. -/
def RaisesRadius (K : EffectConstants) (part : EffectPart) : Prop :=
  part.type_tag_id.is_null = false ∧ K.IS_OBJECT_TAG part.type_tag_fourcc = false ∧
    part.type_tag_fourcc = K.TAG_FOURCC_DAMAGE_EFFECT

/-- The radius `after` of the effect when the loops stand at part `p` of event `e`, for the
radius `before` the effect started with: a NaN stays; a number `m0` has become a number `m`
that is at least `m0`, at least every radius that is a number among the visited parts whose
damage effect the hook looks at, and equal to `m0` or to such a radius. -/
def RadiusRaised {R : Type} [LinearOrder R] (K : EffectConstants) (S0 : List (StructData R))
    (tags : List BuildWorkloadTag) (si so e p : Nat) (before after : FloatValue R) : Prop :=
  match before with
  | .nan => after = .nan
  | .num m0 =>
    ∃ m, after = .num m ∧ m0 ≤ m ∧
      (∀ e1 p1 pi part x, Before e p e1 p1 → IsPart S0 si so e1 p1 pi part →
        RaisesRadius K part → HasRadius S0 tags part (.num x) → x ≤ m) ∧
      (m = m0 ∨ ∃ e1 p1 pi part, Before e p e1 p1 ∧ IsPart S0 si so e1 p1 pi part ∧
        RaisesRadius K part ∧ HasRadius S0 tags part (.num m))

/-- The invariant of the two loops when they stand at part `p` of event `e`, for the heap
`S0` the hook started from, without any assumption on the enumerators. The heap differs from
`S0` only in what the loops change; every part is as in `S0` or as the loop body leaves it,
and every visited part is as the loop body leaves it; determinism is required exactly when a
visited part sets it; every visited place holds an event and a part, with a damage effect
where the hook looks for one; and the radius of the effect has been raised. -/
structure HookInv {R : Type} [LinearOrder R] (K : EffectConstants)
    (S0 : List (StructData R)) (tags : List BuildWorkloadTag) (si so : Nat)
    (e p : Nat) (st : HookState R) : Prop where
  similar : Similar S0 st.structs
  kept : ∀ i q x, PartIn S0 i q x →
    PartIn st.structs i q x ∨ PartIn st.structs i q (visitedPart K x)
  visited : ∀ e1 p1 pi part, Before e p e1 p1 → IsPart S0 si so e1 p1 pi part →
    PartIn st.structs pi p1 (visitedPart K part)
  det : st.must_be_deterministic = true ↔
    ∃ e1 p1 pi part, Before e p e1 p1 ∧ IsPart S0 si so e1 p1 pi part ∧
      SetsDeterminism K part
  resolved : ∀ e1 p1, Before e p e1 p1 →
    ∃ event, IsEvent S0 si so e1 event ∧
      (p1 < event.parts_count → ∃ pi part, IsPart S0 si so e1 p1 pi part ∧
        (RaisesRadius K part → ∃ r, HasRadius S0 tags part r))
  radius : ∀ eff0, getEffect S0 si so = .ok eff0 →
    ∃ eff, getEffect st.structs si so = .ok eff ∧
      RadiusRaised K S0 tags si so e p eff0.maximum_damage_radius eff.maximum_damage_radius

/-- A part that refers to tag 2 as a weapon (`weap`), an object class. -/
def exampleWeaponPart : EffectPart :=
  { type_tag_fourcc := 0x77656170, type_tag_id := { index := 2, generation := 0xE176 },
    type_class := 0 }

/-- A workload with an effect (struct 0, flags 7, radius 3) of one event (struct 1) with
three parts (struct 2): a weapon part, a part with a null tag id and a sound part. The tag
array is empty. -/
def exampleObjectWorkload : BuildWorkload Int :=
  { disable_recursion := false,
    build_cache_file_engine := .CACHE_FILE_RETAIL,
    structs :=
      [.effect 0 { flags := 7, maximum_damage_radius := .num 3, events_count := 1,
                   events_pointer := some 1 },
       .events [{ parts_count := 3, parts_pointer := some 2 }],
       .parts [exampleWeaponPart, exampleNullPart, exampleSoundPart]],
    tags := [] }

/-- The workload expected after the hook has run on `exampleObjectWorkload`: the weapon part
has the class `obje`, the sound part its own class, the deterministic bits 2 and 4 are
cleared, and the radius is still 3. -/
def exampleObjectResult : BuildWorkload Int :=
  { disable_recursion := false,
    build_cache_file_engine := .CACHE_FILE_RETAIL,
    structs :=
      [.effect 0 { flags := 1, maximum_damage_radius := .num 3, events_count := 1,
                   events_pointer := some 1 },
       .events [{ parts_count := 3, parts_pointer := some 2 }],
       .parts [{ exampleWeaponPart with type_class := 0x6F626A65 }, exampleNullPart,
               { exampleSoundPart with type_class := 0x736E6421 }]],
    tags := [] }

/-- A struct without what a run of the hook may change: the `type_class` of parts, and the
`maximum_damage_radius` and the `flags` of effects. -/
def eraseShape {R : Type} : StructData R → StructData R
  | .effect o e => .effect o { e with maximum_damage_radius := .nan, flags := 0 }
  | .parts l => .parts (l.map (fun part => { part with type_class := 0 }))
  | .events l => .events l
  | .damage_effect r => .damage_effect r
  | .other => .other

/-- Two heaps that differ at most in the `type_class` of parts and in the
`maximum_damage_radius` and the `flags` of effects. -/
def Shape {R : Type} (a b : List (StructData R)) : Prop :=
  a.map eraseShape = b.map eraseShape

/-- The heap is settled for the effect: every part of every event of the effect is as the
loop body leaves it, and no damage effect that the hook looks at has a radius greater than
the radius of the effect. -/
def Settled {R : Type} [LinearOrder R] (K : EffectConstants) (S : List (StructData R))
    (tags : List BuildWorkloadTag) (si so : Nat) : Prop :=
  (∀ e p pi part, IsPart S si so e p pi part → visitedPart K part = part) ∧
  (∀ e p pi part r eff, IsPart S si so e p pi part → RaisesRadius K part →
    HasRadius S tags part r → getEffect S si so = .ok eff →
    r.gt eff.maximum_damage_radius = false)

/-- The example of the specification with recursion disabled. -/
def exampleDisabledWorkload : BuildWorkload Int :=
  { exampleWorkload with disable_recursion := true }

/-- The example of the specification with a NaN stored as the radius of the effect. -/
def exampleNanWorkload : BuildWorkload Int :=
  { disable_recursion := false,
    build_cache_file_engine := .CACHE_FILE_CUSTOM_EDITION,
    structs :=
      [.effect 0 { exampleEffect with maximum_damage_radius := .nan },
       .events [exampleEvent],
       .parts [exampleDamagePart, exampleSoundPart],
       .damage_effect (.num 10),
       .damage_effect (.num 50)],
    tags := [{ base_struct := some 3 }, { base_struct := some 4 }] }

/-! ## The decoding loop: flags -/

theorem scanChar_numeric_false (st : Scan) (c next : Char) (h : st.numeric = false) :
    (scanChar st c next).numeric = false := by
  unfold scanChar
  split_ifs <;> simp [h]

theorem scanChar_decimal_true (st : Scan) (c next : Char) (h : st.decimal = true) :
    (scanChar st c next).decimal = true := by
  unfold scanChar
  split_ifs <;> simp [h]

theorem scanRaw_numeric_false (raw : List Char) (st : Scan) (h : st.numeric = false) :
    (scanRaw raw st).numeric = false := by
  induction raw generalizing st with
  | nil => simpa [scanRaw] using h
  | cons c rest ih => exact ih _ (scanChar_numeric_false st c _ h)

theorem scanRaw_decimal_true (raw : List Char) (st : Scan) (h : st.decimal = true) :
    (scanRaw raw st).decimal = true := by
  induction raw generalizing st with
  | nil => simpa [scanRaw] using h
  | cons c rest ih => exact ih _ (scanChar_decimal_true st c _ h)

theorem scanChar_backslash (st : Scan) (next : Char) (hesc : st.t_escape = false) :
    scanChar st '\\' next = { st with t_escape := true, numeric := false } := by
  unfold scanChar
  rw [if_pos ⟨rfl, hesc⟩]

theorem scanChar_escaped (st : Scan) (c next : Char) (hesc : st.t_escape = true) :
    scanChar st c next = { st with s := st.s ++ [escapedChar c], t_escape := false } := by
  unfold scanChar
  rw [if_neg (by simp [hesc]), if_pos hesc]

theorem scanChar_dot (st : Scan) (next : Char) (hesc : st.t_escape = false)
    (hn : next ≠ NUL) (hd : st.decimal = false) :
    scanChar st '.' next = { st with decimal := true, s := st.s ++ ['.'], t_escape := false } := by
  unfold scanChar
  rw [if_neg (fun h => absurd h.1 (by decide)), if_neg (by simp [hesc]),
    if_pos ⟨by decide, Or.inl (by decide)⟩, if_pos ⟨rfl, hn, hd⟩]

theorem scanChar_reject (st : Scan) (c next : Char) (hesc : st.t_escape = false)
    (hb : c ≠ '\\') (h1 : isDigit c = false) (h2 : c ≠ '-' ∨ st.s.length > 0)
    (h3 : ¬ (c = '.' ∧ next ≠ NUL ∧ st.decimal = false)) :
    scanChar st c next = { st with numeric := false, s := st.s ++ [c], t_escape := false } := by
  unfold scanChar
  rw [if_neg (fun h => hb h.1), if_neg (by simp [hesc]), if_pos ⟨h1, h2⟩, if_neg h3]

theorem scanChar_keep (st : Scan) (c next : Char) (hesc : st.t_escape = false)
    (hb : c ≠ '\\') (h : ¬ (isDigit c = false ∧ (c ≠ '-' ∨ st.s.length > 0))) :
    scanChar st c next = { st with s := st.s ++ [c], t_escape := false } := by
  unfold scanChar
  rw [if_neg (fun h => hb h.1), if_neg (by simp [hesc]), if_neg h]

/-- A character is kept without touching the flags exactly when it is a digit, or a minus sign
met while the decoded text is still empty. -/
theorem keep_iff (st : Scan) (c : Char) :
    ¬ (isDigit c = false ∧ (c ≠ '-' ∨ st.s.length > 0)) ↔
      (isDigit c = true ∨ (c = '-' ∧ st.s = [])) := by
  cases hc : isDigit c
  · simp only [true_and, Bool.false_eq_true, false_or, not_or, not_not, gt_iff_lt, not_lt,
      Nat.le_zero, List.length_eq_zero]
  · simp

theorem intOk_false (raw : List Char) : intOk false raw = raw.all isDigit := by
  cases raw <;> simp [intOk]

theorem scanRaw_integer_iff (raw : List Char) (st : Scan) (hesc : st.t_escape = false) :
    ((scanRaw raw st).numeric = true ∧ (scanRaw raw st).decimal = false) ↔
      (st.numeric = true ∧ st.decimal = false ∧ intOk (decide (st.s = [])) raw = true) := by
  induction raw generalizing st with
  | nil => simp [scanRaw, intOk]
  | cons c rest ih =>
    simp only [scanRaw]
    generalize rest.headD NUL = next
    by_cases hb : c = '\\'
    · subst hb
      have h2 := scanRaw_numeric_false rest (scanChar st '\\' next)
        (by rw [scanChar_backslash st next hesc])
      have h3 : isDigit '\\' = false := by decide
      simp [h2, intOk, h3]
    · by_cases hk : isDigit c = false ∧ (c ≠ '-' ∨ st.s.length > 0)
      · have hno : (isDigit c || (decide (st.s = []) && c == '-')) = false := by
          have := (keep_iff st c).not.mp (not_not.mpr hk)
          simp only [not_or, not_and] at this
          rcases this with ⟨h1, h2⟩
          simp only [Bool.not_eq_true] at h1
          simp only [h1, Bool.false_or, Bool.and_eq_false_imp, decide_eq_true_eq, beq_eq_false_iff_ne]
          exact fun h0 hc => h2 hc h0
        have hrhs : ¬ (st.numeric = true ∧ st.decimal = false ∧
            intOk (decide (st.s = [])) (c :: rest) = true) := by
          simp [intOk, hno]
        by_cases hdot : c = '.' ∧ next ≠ NUL ∧ st.decimal = false
        · obtain ⟨rfl, hn, hdec⟩ := hdot
          have h2 := scanRaw_decimal_true rest (scanChar st '.' next)
            (by rw [scanChar_dot st next hesc hn hdec])
          constructor
          · intro h; rw [h2] at h; exact absurd h.2 (by simp)
          · intro h; exact absurd h hrhs
        · have h2 := scanRaw_numeric_false rest (scanChar st c next)
            (by rw [scanChar_reject st c next hesc hb hk.1 hk.2 hdot])
          constructor
          · intro h; rw [h2] at h; exact absurd h.1 (by simp)
          · intro h; exact absurd h hrhs
      · rw [scanChar_keep st c next hesc hb hk, ih _ rfl]
        have hyes : (isDigit c || (decide (st.s = []) && c == '-')) = true := by
          rcases (keep_iff st c).mp hk with h | ⟨h1, h2⟩
          · simp [h]
          · simp [h1, h2]
        have e : decide (st.s ++ [c] = []) = false := by simp
        simp only [e, intOk_false]
        simp [intOk, hyes]

/-- The classification yields an integer exactly for digits with an optional leading minus. -/
theorem tokenType_integer_iff (raw : List Char) :
    tokenType raw = .TOKEN_TYPE_INTEGER ↔ integerText raw = true := by
  have h := scanRaw_integer_iff raw scanInit rfl
  have e : intOk (decide (scanInit.s = [])) raw = integerText raw := by
    cases raw <;> simp [intOk, integerText, scanInit]
  rw [e] at h
  have h0 : scanInit.numeric = true ∧ scanInit.decimal = false := ⟨rfl, rfl⟩
  simp only [h0.1, h0.2, true_and] at h
  rw [← h]
  unfold tokenType
  cases hn : (scanRaw raw scanInit).numeric <;> cases hd : (scanRaw raw scanInit).decimal <;>
    simp [hn, hd]

theorem decOk_false (raw : List Char) :
    decOk false raw = raw.all (fun d => isDigit d || d == '.') := by
  cases raw <;> simp [decOk]

theorem getLast?_ne_of_count_zero (l : List Char) (h : l.count '.' = 0) :
    l.getLast? ≠ some '.' := by
  intro hl
  have hm : '.' ∈ l := List.mem_of_getLast?_eq_some hl
  have := List.count_pos_iff.mpr hm
  omega

theorem scanRaw_decimal_iff (raw : List Char) (st : Scan) (hesc : st.t_escape = false) :
    ((scanRaw raw st).numeric = true ∧ (scanRaw raw st).decimal = true) ↔
      (st.numeric = true ∧ decOk (decide (st.s = [])) raw = true ∧
        ((st.decimal = true ∧ raw.count '.' = 0) ∨
         (st.decimal = false ∧ raw.count '.' = 1 ∧ raw.getLast? ≠ some '.'))) := by
  induction raw generalizing st with
  | nil => cases hd : st.decimal <;> simp [scanRaw, decOk, hd]
  | cons c rest ih =>
    simp only [scanRaw]
    by_cases hb : c = '\\'
    · subst hb
      have h2 := scanRaw_numeric_false rest (scanChar st '\\' (rest.headD NUL))
        (by rw [scanChar_backslash st _ hesc])
      have h3 : isDigit '\\' = false := by decide
      constructor
      · intro h; rw [h2] at h; exact absurd h.1 (by simp)
      · intro h; simp [decOk, h3] at h
    · by_cases hk : isDigit c = false ∧ (c ≠ '-' ∨ st.s.length > 0)
      · have hminus : (decide (st.s = []) && c == '-') = false := by
          have := (keep_iff st c).not.mp (not_not.mpr hk)
          simp only [not_or, not_and] at this
          simp only [Bool.and_eq_false_imp, decide_eq_true_eq, beq_eq_false_iff_ne]
          exact fun h0 hc => this.2 hc h0
        by_cases hc : c = '.'
        · subst hc
          by_cases hdot : rest.headD NUL ≠ NUL ∧ st.decimal = false
          · obtain ⟨hn, hdec⟩ := hdot
            have hne : rest ≠ [] := by
              intro h0; simp [h0] at hn
            rw [scanChar_dot st _ hesc hn hdec, ih _ rfl]
            have e : decide (st.s ++ ['.'] = []) = false := by simp
            simp only [e, decOk_false, hdec]
            have hl : ('.' :: rest).getLast? = rest.getLast? := by
              cases rest with
              | nil => exact absurd rfl hne
              | cons d r => simp [List.getLast?_cons_cons]
            rw [hl]
            simp only [List.count_cons_self, decOk, hk.1, hminus]
            constructor
            · rintro ⟨h1, h2, h3⟩
              have h4 : rest.count '.' = 0 := by
                rcases h3 with h3 | h3
                · exact h3.2
                · exact absurd h3.1 (by simp)
              exact ⟨h1, by simpa using h2, Or.inr ⟨trivial, by omega,
                getLast?_ne_of_count_zero rest h4⟩⟩
            · rintro ⟨h1, h2, h3⟩
              refine ⟨h1, by simpa using h2, Or.inl ⟨trivial, ?_⟩⟩
              rcases h3 with h3 | h3
              · exact absurd h3.1 (by simp)
              · omega
          · have h2 := scanRaw_numeric_false rest (scanChar st '.' (rest.headD NUL))
              (by rw [scanChar_reject st '.' _ hesc hb hk.1 hk.2 (fun h => hdot ⟨h.2.1, h.2.2⟩)])
            constructor
            · intro h; rw [h2] at h; exact absurd h.1 (by simp)
            · rintro ⟨_, h2, h3⟩
              exfalso
              rcases h3 with h3 | h3
              · simp at h3
              · apply hdot
                refine ⟨?_, h3.1⟩
                cases rest with
                | nil => simp at h3
                | cons d r =>
                  simp only [List.headD_cons]
                  intro hd
                  subst hd
                  simp [decOk, NUL, isDigit] at h2
        · have h2 := scanRaw_numeric_false rest (scanChar st c (rest.headD NUL))
            (by rw [scanChar_reject st c _ hesc hb hk.1 hk.2 (fun h => hc h.1)])
          constructor
          · intro h; rw [h2] at h; exact absurd h.1 (by simp)
          · rintro ⟨_, h2, _⟩
            simp [decOk, hk.1, hminus, hc] at h2
      · rw [scanChar_keep st c _ hesc hb hk, ih _ rfl]
        have hyes : (isDigit c || c == '.' || (decide (st.s = []) && c == '-')) = true := by
          rcases (keep_iff st c).mp hk with h | ⟨h1, h2⟩
          · simp [h]
          · simp [h1, h2]
        have hc : c ≠ '.' := by
          rcases (keep_iff st c).mp hk with h | ⟨h1, _⟩
          · intro h0; subst h0; revert h; decide
          · intro h0; rw [h1] at h0; revert h0; decide
        have e : decide (st.s ++ [c] = []) = false := by simp
        have hcount : (c :: rest).count '.' = rest.count '.' := by
          rw [List.count_cons_of_ne (Ne.symm hc)]
        simp only [e, decOk_false, hcount]
        have hl : rest.count '.' = 1 →
            ((c :: rest).getLast? ≠ some '.' ↔ rest.getLast? ≠ some '.') := by
          intro h1
          cases rest with
          | nil => simp at h1
          | cons d r => simp [List.getLast?_cons_cons]
        simp only [decOk, hyes, Bool.true_and]
        constructor
        · rintro ⟨h1, h2, h3⟩
          refine ⟨h1, h2, ?_⟩
          rcases h3 with h3 | ⟨h3, h4, h5⟩
          · exact Or.inl h3
          · exact Or.inr ⟨h3, h4, (hl h4).mpr h5⟩
        · rintro ⟨h1, h2, h3⟩
          refine ⟨h1, h2, ?_⟩
          rcases h3 with h3 | ⟨h3, h4, h5⟩
          · exact Or.inl h3
          · exact Or.inr ⟨h3, h4, (hl h4).mp h5⟩

/-- The classification yields a decimal exactly for digits with an optional leading minus and
one `.` that is not the last character. -/
theorem tokenType_decimal_iff (raw : List Char) :
    tokenType raw = .TOKEN_TYPE_DECIMAL ↔ decimalText raw = true := by
  have h := scanRaw_decimal_iff raw scanInit rfl
  have h0 : scanInit.numeric = true ∧ scanInit.decimal = false ∧ scanInit.s = [] :=
    ⟨rfl, rfl, rfl⟩
  simp only [h0.1, h0.2.1, h0.2.2, true_and, Bool.false_eq_true, false_and, false_or,
    decide_True] at h
  have e : (decOk true raw = true ∧ raw.count '.' = 1 ∧ raw.getLast? ≠ some '.') ↔
      decimalText raw = true := by
    cases raw with
    | nil => simp [decimalText]
    | cons c rest =>
      simp only [decOk, decimalText, Bool.and_eq_true, Bool.or_eq_true, decide_eq_true_eq,
        bne_iff_ne, ne_eq, Bool.true_and]
      tauto
  rw [← e, ← h]
  unfold tokenType
  cases hn : (scanRaw raw scanInit).numeric <;> cases hd : (scanRaw raw scanInit).decimal <;>
    simp [hn, hd]

/-! ## Reading the input -/

theorem charAt_of_lt {s : List Char} {i : Nat} (h : i < s.length) :
    charAt s i = .ok (s.getD i NUL) := by
  unfold charAt
  rw [if_pos h]

theorem charAt_length (s : List Char) : charAt s s.length = .ok NUL := by
  unfold charAt
  rw [if_neg (Nat.lt_irrefl _), if_pos rfl]

theorem charAt_ok_lt {s : List Char} {i : Nat} {ch : Char} (h : charAt s i = .ok ch)
    (hn : ch ≠ NUL) : i < s.length ∧ s.getD i NUL = ch := by
  unfold charAt at h
  by_cases h1 : i < s.length
  · rw [if_pos h1] at h
    exact ⟨h1, by injection h⟩
  · rw [if_neg h1] at h
    by_cases h2 : i = s.length
    · rw [if_pos h2] at h
      injection h with h
      exact absurd h.symm hn
    · rw [if_neg h2] at h
      cases h

theorem take_succ_getD (s : List Char) (i : Nat) (h : i < s.length) :
    s.take (i + 1) = s.take i ++ [s.getD i NUL] := by
  rw [List.take_succ, List.getD_eq_getElem?_getD, List.getElem?_eq_getElem h]
  rfl

/-! ## Source positions -/

theorem lineOf_succ (s : List Char) (i : Nat) (h : i < s.length) :
    lineOf s (i + 1) = if s.getD i NUL = '\n' then lineOf s i + 1 else lineOf s i := by
  unfold lineOf
  rw [take_succ_getD s i h, List.count_append]
  generalize s.getD i NUL = x
  by_cases hc : x = '\n'
  · rw [if_pos hc, hc]
    simp
    omega
  · rw [if_neg hc, List.count_singleton]
    have : (x == '\n') = false := by simpa using hc
    simp [this]

theorem columnOf_succ (s : List Char) (i : Nat) (h : i < s.length) :
    columnOf s (i + 1) = if s.getD i NUL = '\n' then 1 else columnOf s i + 1 := by
  unfold columnOf
  rw [take_succ_getD s i h, List.reverse_append, List.reverse_singleton, List.singleton_append]
  generalize s.getD i NUL = x
  by_cases hc : x = '\n'
  · rw [if_pos hc, List.takeWhile_cons_of_neg (by simp [hc])]
    rfl
  · rw [if_neg hc, List.takeWhile_cons_of_pos (by simp [hc])]
    simp
    omega

/-! ## The comment loop -/

theorem skipComment_ok (l : List Char) (c j : Nat) (h : skipComment l c = .ok j) :
    ∃ pre rest, l = pre ++ '\n' :: rest ∧ '\n' ∉ pre ∧ j = c + pre.length := by
  induction l generalizing c with
  | nil => simp [skipComment] at h
  | cons ch rest ih =>
    unfold skipComment at h
    by_cases hc : ch = '\n'
    · rw [if_pos hc] at h
      injection h with h
      exact ⟨[], rest, by simp [hc], by simp, by simp [h]⟩
    · rw [if_neg hc] at h
      obtain ⟨pre, rest1, h1, h2, h3⟩ := ih (c + 1) h
      refine ⟨ch :: pre, rest1, by simp [h1], ?_, by simp [h3]; omega⟩
      simp only [List.mem_cons, not_or]
      exact ⟨fun h => hc h.symm, h2⟩

/-- Where the comment loop stops: on the first newline at or after `c`. -/
theorem skipComment_spec (s : List Char) (c j : Nat)
    (h : skipComment (s.drop c) c = .ok j) :
    c ≤ j ∧ j < s.length ∧ s.getD j NUL = '\n' ∧ lineOf s (j + 1) = lineOf s c + 1 ∧
      columnOf s (j + 1) = 1 := by
  obtain ⟨pre, rest, h1, h2, h3⟩ := skipComment_ok _ _ _ h
  have hc : c ≤ s.length := by
    by_contra hlt
    rw [List.drop_eq_nil_of_le (by omega)] at h1
    simp at h1
  have hs : s = s.take c ++ (pre ++ '\n' :: rest) := by
    rw [← h1, List.take_append_drop]
  have hlen : (s.take c).length = c := by simp [hc]
  have hjl : j < s.length := by
    have := congrArg List.length hs
    simp only [List.length_append, List.length_cons, hlen] at this
    omega
  have htj : s.take j = s.take c ++ pre := by
    conv_lhs => rw [hs, ← List.append_assoc]
    apply List.take_left'
    simp [h3, hc]
  have hgj : s.getD j NUL = '\n' := by
    conv_lhs => rw [hs, ← List.append_assoc]
    rw [List.getD_eq_getElem?_getD, List.getElem?_append_right (by simp [h3, hc])]
    simp [h3, hc]
  refine ⟨by omega, hjl, hgj, ?_, ?_⟩
  · rw [lineOf_succ s j hjl, if_pos hgj]
    unfold lineOf
    rw [htj, List.count_append, List.count_eq_zero_of_not_mem h2]
    omega
  · rw [columnOf_succ s j hjl, if_pos hgj]

/-! ## One iteration of the character loop -/

theorem parenthesisKilled_none {st : State} (ch : Char) (h : st.token_start = none) :
    parenthesisKilled st ch = false := by
  simp [parenthesisKilled, h]

theorem breaksToken_of_killed {st : State} {ch : Char} (h : parenthesisKilled st ch = true) :
    breaksToken st ch = true := by
  simp only [parenthesisKilled, Bool.and_eq_true, Bool.not_eq_true'] at h
  simp [breaksToken, h.1.1, h.2]

/-- The shapes an iteration can take, with the locals it leaves. -/
theorem step_ok_cases {w : Nat} {s : List Char} {st st1 : State} {ch : Char}
    (hch : charAt s st.c = .ok ch) (h : step w s st ch = .ok st1) :
    (∃ ts raw, st.token_start = some ts ∧ breaksToken st ch = true ∧
        stdString s st.c (st.c - ts) = .ok raw ∧
        ((parenthesisKilled st ch = true ∧ st1 = closeToken w st raw) ∨
         (parenthesisKilled st ch = false ∧ st1 = stepTail (closeToken w st raw) ch))) ∨
    (∃ ts, st.token_start = some ts ∧ breaksToken st ch = false ∧ st1 = stepTail st ch) ∨
    (st.token_start = none ∧ isWhitespace ch = true ∧ st1 = stepTail st ch) ∨
    (st.token_start = none ∧ isWhitespace ch = false ∧ isParenthesis st ch = true ∧
        st1 = stepTail (emitParenthesis st ch) ch) ∨
    (st.token_start = none ∧ isWhitespace ch = false ∧ isParenthesis st ch = false ∧
        ch = ';' ∧ ∃ j, skipComment (s.drop st.c) st.c = .ok j ∧
        st1 = stepTail { st with c := j } '\n') ∨
    (st.token_start = none ∧ isWhitespace ch = false ∧ isParenthesis st ch = false ∧
        ch ≠ ';' ∧ st1 = stepTail (startToken st ch) ch) := by
  unfold step stepBody at h
  cases hts : st.token_start with
  | some ts =>
    rw [hts] at h
    simp only at h
    by_cases hb : breaksToken st ch = true
    · rw [if_pos hb] at h
      cases hraw : stdString s st.c (st.c - ts) with
      | error e => rw [hraw] at h; cases h
      | ok raw =>
        rw [hraw] at h
        simp only at h
        left
        refine ⟨ts, raw, rfl, hb, hraw, ?_⟩
        by_cases hk : parenthesisKilled st ch = true
        · rw [if_pos hk] at h
          injection h with h
          exact Or.inl ⟨hk, h.symm⟩
        · rw [if_neg hk] at h
          have hc1 : (closeToken w st raw).c = st.c := rfl
          rw [hc1, hch] at h
          injection h with h
          exact Or.inr ⟨by simpa using hk, h.symm⟩
    · rw [if_neg hb] at h
      simp only at h
      have hk : ¬ parenthesisKilled st ch = true := fun hk => hb (breaksToken_of_killed hk)
      rw [if_neg hk, hch] at h
      injection h with h
      right; left
      exact ⟨ts, rfl, by simpa using hb, h.symm⟩
  | none =>
    rw [hts] at h
    simp only at h
    have hk : ¬ parenthesisKilled st ch = true := by
      rw [parenthesisKilled_none ch hts]; simp
    right; right
    by_cases hw : isWhitespace ch = true
    · rw [if_pos hw] at h
      simp only at h
      rw [if_neg hk, hch] at h
      injection h with h
      exact Or.inl ⟨rfl, hw, h.symm⟩
    · rw [if_neg hw] at h
      right
      have hw' : isWhitespace ch = false := by simpa using hw
      by_cases hp : isParenthesis st ch = true
      · rw [if_pos hp] at h
        simp only at h
        have hc1 : (emitParenthesis st ch).c = st.c := rfl
        rw [if_neg hk, hc1, hch] at h
        injection h with h
        exact Or.inl ⟨rfl, hw', hp, h.symm⟩
      · rw [if_neg hp] at h
        right
        have hp' : isParenthesis st ch = false := by simpa using hp
        by_cases hs : ch = ';'
        · rw [if_pos hs] at h
          cases hj : skipComment (s.drop st.c) st.c with
          | error e => rw [hj] at h; cases h
          | ok j =>
            rw [hj] at h
            simp only at h
            obtain ⟨_, hjl, hgj, _, _⟩ := skipComment_spec s st.c j hj
            rw [if_neg hk, charAt_of_lt hjl, hgj] at h
            injection h with h
            exact Or.inl ⟨rfl, hw', hp', hs, j, rfl, h.symm⟩
        · rw [if_neg hs] at h
          simp only at h
          have hc1 : (startToken st ch).c = st.c := rfl
          rw [if_neg hk, hc1, hch] at h
          injection h with h
          exact Or.inr ⟨rfl, hw', hp', hs, h.symm⟩

/-! ## The loop invariant -/

theorem inv_init (s : List Char) : Inv s initState where
  c_le := Nat.zero_le _
  line_eq := by simp [initState, lineOf]
  column_eq := by simp [initState, columnOf]
  opened := by intro ts h; cases h
  closed := by intro _; exact ⟨rfl, rfl⟩

/-- The end of an iteration re-establishes the invariant at the next character. -/
theorem inv_stepTail {s : List Char} {st : State} {ch : Char} (hlt : st.c < s.length)
    (hch : s.getD st.c NUL = ch) (hl : st.line = lineOf s st.c)
    (hcol : st.column = columnOf s st.c)
    (hopen : ∀ ts, st.token_start = some ts →
      ts ≤ st.c ∧ st.token_start_line = lineOf s ts ∧ st.token_start_column = columnOf s ts ∧
      st.expected_end = (if s.getD ts NUL = '"' then '"' else ' '))
    (hclosed : st.token_start = none → st.expected_end = NUL ∧ ch ≠ '\\') :
    Inv s (stepTail st ch) where
  c_le := hlt
  line_eq := by
    show (if ch = '\n' then st.line + 1 else st.line) = lineOf s (st.c + 1)
    rw [lineOf_succ s st.c hlt, hch, hl]
  column_eq := by
    show (if ch = '\n' then 1 else st.column + 1) = columnOf s (st.c + 1)
    rw [columnOf_succ s st.c hlt, hch, hcol]
  opened := by
    intro ts h
    obtain ⟨h1, h2, h3, h4⟩ := hopen ts h
    exact ⟨Nat.lt_succ_of_le h1, h2, h3, h4⟩
  closed := by
    intro h
    obtain ⟨h1, h2⟩ := hclosed h
    refine ⟨h1, ?_⟩
    show (decide (ch = '\\') && !st.escape) = false
    simp [h2]

theorem breaksToken_ne_backslash {st : State} {ch : Char} (h : breaksToken st ch = true)
    (he : st.expected_end = '"' ∨ st.expected_end = ' ') : ch ≠ '\\' := by
  intro hc
  subst hc
  rcases he with he | he <;>
    simp [breaksToken, isWhitespace, isParenthesis, he] at h

theorem expected_end_cases (s : List Char) (ts : Nat) :
    (if s.getD ts NUL = '"' then '"' else ' ') = '"' ∨
      (if s.getD ts NUL = '"' then '"' else ' ') = ' ' := by
  split_ifs
  · exact Or.inl rfl
  · exact Or.inr rfl

theorem isWhitespace_ne_backslash {ch : Char} (h : isWhitespace ch = true) : ch ≠ '\\' := by
  intro hc
  subst hc
  revert h
  decide

theorem isParenthesis_ne_backslash {st : State} {ch : Char} (h : isParenthesis st ch = true) :
    ch ≠ '\\' := by
  intro hc
  subst hc
  simp [isParenthesis] at h

/-- Every iteration preserves the invariant. -/
theorem inv_step {w : Nat} {s : List Char} {st st1 : State} {ch : Char} (hI : Inv s st)
    (hch : charAt s st.c = .ok ch) (hn : ch ≠ NUL) (h : step w s st ch = .ok st1) :
    Inv s st1 := by
  obtain ⟨hlt, hget⟩ := charAt_ok_lt hch hn
  rcases step_ok_cases hch h with
    ⟨ts, raw, hts, hb, _, hk | hk⟩ | ⟨ts, hts, hb, rfl⟩ | ⟨hts, hw, rfl⟩ | ⟨hts, hw, hp, rfl⟩ |
    ⟨hts, hw, hp, hs, j, hj, rfl⟩ | ⟨hts, hw, hp, hs, rfl⟩
  · obtain ⟨hk, rfl⟩ := hk
    refine ⟨hI.c_le, hI.line_eq, hI.column_eq, ?_, ?_⟩
    · intro ts' h'; cases h'
    · intro _
      refine ⟨rfl, ?_⟩
      simp only [parenthesisKilled, Bool.and_eq_true, Bool.not_eq_true'] at hk
      exact hk.2
  · obtain ⟨hk, rfl⟩ := hk
    obtain ⟨_, _, _, he⟩ := hI.opened ts hts
    apply @inv_stepTail s (closeToken w st raw) ch hlt hget hI.line_eq hI.column_eq
    · intro ts' h'; cases h'
    · intro _
      exact ⟨rfl, breaksToken_ne_backslash hb (he ▸ expected_end_cases s ts)⟩
  · apply inv_stepTail hlt hget hI.line_eq hI.column_eq
    · intro ts' h'
      obtain ⟨h1, h2, h3, h4⟩ := hI.opened ts' h'
      exact ⟨Nat.le_of_lt h1, h2, h3, h4⟩
    · intro h'; rw [hts] at h'; cases h'
  · apply inv_stepTail hlt hget hI.line_eq hI.column_eq
    · intro ts' h'; rw [hts] at h'; cases h'
    · intro _
      exact ⟨(hI.closed hts).1, isWhitespace_ne_backslash hw⟩
  · apply @inv_stepTail s (emitParenthesis st ch) ch hlt hget hI.line_eq hI.column_eq
    · intro ts' h'
      have : st.token_start = some ts' := h'
      rw [hts] at this; cases this
    · intro _
      exact ⟨(hI.closed hts).1, isParenthesis_ne_backslash hp⟩
  · obtain ⟨_, hjl, hgj, hline, hcolumn⟩ := skipComment_spec s st.c j hj
    refine ⟨hjl, ?_, ?_, ?_, ?_⟩
    · show (if ('\n' : Char) = '\n' then st.line + 1 else st.line) = lineOf s (j + 1)
      rw [if_pos rfl, hline, hI.line_eq]
    · show (if ('\n' : Char) = '\n' then 1 else st.column + 1) = columnOf s (j + 1)
      rw [if_pos rfl, hcolumn]
    · intro ts' h'
      have : st.token_start = some ts' := h'
      rw [hts] at this; cases this
    · intro _
      refine ⟨(hI.closed hts).1, ?_⟩
      show (decide (('\n' : Char) = '\\') && !st.escape) = false
      simp
  · apply @inv_stepTail s (startToken st ch) ch hlt hget hI.line_eq hI.column_eq
    · intro ts' h'
      have h'' : some st.c = some ts' := h'
      injection h'' with h''
      subst h''
      refine ⟨Nat.le_refl _, hI.line_eq, hI.column_eq, ?_⟩
      show (if ch = '"' then '"' else ' ') = _
      rw [hget]
    · intro h'
      cases h'

/-- Every reachable loop state satisfies the invariant. -/
theorem inv_of_reachable {w : Nat} {s : List Char} {st : State} (h : Reachable w s st) :
    Inv s st := by
  induction h with
  | start => exact inv_init s
  | next _ hch hn hstep ih => exact inv_step ih hch hn hstep

/-! ## From loop states to the returned tokens -/

theorem stepTail_tokens (st : State) (ch : Char) : (stepTail st ch).tokens = st.tokens := rfl

/-- An iteration only appends to the token vector. -/
theorem step_tokens_prefix {w : Nat} {s : List Char} {st st1 : State} {ch : Char}
    (hch : charAt s st.c = .ok ch) (h : step w s st ch = .ok st1) :
    ∃ extra, st1.tokens = st.tokens ++ extra := by
  rcases step_ok_cases hch h with
    ⟨ts, raw, _, _, _, ⟨_, rfl⟩ | ⟨_, rfl⟩⟩ | ⟨ts, _, _, rfl⟩ | ⟨_, _, rfl⟩ | ⟨_, _, _, rfl⟩ |
    ⟨_, _, _, _, j, _, rfl⟩ | ⟨_, _, _, _, rfl⟩
  · exact ⟨_, rfl⟩
  · exact ⟨_, rfl⟩
  · exact ⟨[], (List.append_nil _).symm⟩
  · exact ⟨[], (List.append_nil _).symm⟩
  · exact ⟨_, rfl⟩
  · exact ⟨[], (List.append_nil _).symm⟩
  · exact ⟨[], (List.append_nil _).symm⟩

theorem loop_succ_of_step {w : Nat} {s : List Char} {st st1 : State} {ch : Char} (f : Nat)
    (hch : charAt s st.c = .ok ch) (hn : ch ≠ NUL) (h : step w s st ch = .ok st1) :
    loop w s (f + 1) st = loop w s f st1 := by
  simp only [loop, hch, if_neg hn, h]

/-- A loop that ends well from a state took its next iteration well. -/
theorem loop_ok_step {w : Nat} {s : List Char} {st fin : State} {ch : Char} {f : Nat}
    (hch : charAt s st.c = .ok ch) (hn : ch ≠ NUL) (h : loop w s f st = .ok fin) :
    ∃ f1 st1, step w s st ch = .ok st1 ∧ loop w s f1 st1 = .ok fin := by
  cases f with
  | zero => simp [loop] at h
  | succ f1 =>
    cases hs : step w s st ch with
    | error e => simp [loop, hch, if_neg hn, hs] at h
    | ok st1 =>
      rw [loop_succ_of_step f1 hch hn hs] at h
      exact ⟨f1, st1, rfl, h⟩

theorem loop_tokens_prefix {w : Nat} {s : List Char} (f : Nat) {st fin : State}
    (h : loop w s f st = .ok fin) : ∃ extra, fin.tokens = st.tokens ++ extra := by
  induction f generalizing st with
  | zero => simp [loop] at h
  | succ f ih =>
    cases hch : charAt s st.c with
    | error e => simp [loop, hch] at h
    | ok ch =>
      by_cases hn : ch = NUL
      · simp only [loop, hch, if_pos hn] at h
        injection h with h
        exact ⟨[], by rw [← h, List.append_nil]⟩
      · obtain ⟨f1, st1, hs, _⟩ := loop_ok_step hch hn h
        rw [loop_succ_of_step f hch hn hs] at h
        obtain ⟨e1, h1⟩ := step_tokens_prefix hch hs
        obtain ⟨e2, h2⟩ := ih h
        exact ⟨e1 ++ e2, by rw [h2, h1, List.append_assoc]⟩

/-- The loop run that ends well passes through every reachable state. -/
theorem loop_of_reachable {w : Nat} {s : List Char} {st fin : State} {f0 : Nat}
    (hR : Reachable w s st) (h : loop w s f0 initState = .ok fin) :
    ∃ f, loop w s f st = .ok fin := by
  induction hR with
  | start => exact ⟨f0, h⟩
  | next _ hch hn hstep ih =>
    obtain ⟨f, hf⟩ := ih
    obtain ⟨f1, st1, hs, hl⟩ := loop_ok_step hch hn hf
    rw [hstep] at hs
    injection hs with hs
    exact ⟨f1, hs ▸ hl⟩

theorem finish_tokens (s : List Char) (st : State) : (finish s st).tokens = st.tokens := by
  unfold finish
  cases st.token_start <;> rfl

theorem tokenize_ok {w : Nat} {s : List Char} {r : TokenizeResult}
    (h : tokenize w s = .ok r) :
    ∃ fin, loop w s (fuelFor s) initState = .ok fin ∧ r = finish s fin := by
  unfold tokenize at h
  cases hl : loop w s (fuelFor s) initState with
  | error e => rw [hl] at h; cases h
  | ok fin =>
    rw [hl] at h
    injection h with h
    exact ⟨fin, rfl, h.symm⟩

/-- The tokens held at a reachable state are a prefix of the returned tokens, and the run
continues well from that state. -/
theorem tokenize_from_reachable {w : Nat} {s : List Char} {st : State} {r : TokenizeResult}
    (hR : Reachable w s st) (h : tokenize w s = .ok r) :
    ∃ f fin, loop w s f st = .ok fin ∧ r.tokens = fin.tokens := by
  obtain ⟨fin, hl, hr⟩ := tokenize_ok h
  obtain ⟨f, hf⟩ := loop_of_reachable hR hl
  exact ⟨f, fin, hf, by rw [hr, finish_tokens]⟩

/-! ## Parentheses -/

theorem parenthesis_ne_NUL {ch : Char} (hp : ch = '(' ∨ ch = ')') : ch ≠ NUL := by
  rcases hp with h | h <;> subst h <;> decide

theorem isWhitespace_parenthesis {ch : Char} (hp : ch = '(' ∨ ch = ')') :
    isWhitespace ch = false := by
  rcases hp with h | h <;> subst h <;> decide

theorem isParenthesis_of {st : State} {ch : Char} (hp : ch = '(' ∨ ch = ')')
    (hq : st.expected_end ≠ '"') : isParenthesis st ch = true := by
  rcases hp with h | h <;> subst h <;> simp [isParenthesis, hq]

/-- Outside a token a parenthesis is emitted at once, at the position of `c`. -/
theorem step_parenthesis_closed {w : Nat} {s : List Char} {st : State} {ch : Char}
    (hI : Inv s st) (hch : charAt s st.c = .ok ch) (hp : ch = '(' ∨ ch = ')')
    (hts : st.token_start = none) :
    step w s st ch = .ok (stepTail (emitParenthesis st ch) ch) ∧
      (stepTail (emitParenthesis st ch) ch).tokens =
        st.tokens ++ [parenthesisToken (lineOf s st.c) (columnOf s st.c) ch] := by
  have hq : st.expected_end ≠ '"' := by
    rw [(hI.closed hts).1]; decide
  constructor
  · unfold step stepBody
    rw [hts]
    simp only
    rw [if_neg (by rw [isWhitespace_parenthesis hp]; simp), if_pos (isParenthesis_of hp hq)]
    simp only
    rw [if_neg (by rw [parenthesisKilled_none ch hts]; simp)]
    have hc1 : (emitParenthesis st ch).c = st.c := rfl
    rw [hc1, hch]
  · show st.tokens ++ [parenthesisToken st.line st.column ch] = _
    rw [hI.line_eq, hI.column_eq]

/-- Inside a bare token an unescaped parenthesis closes the token and is looked at again. -/
theorem step_parenthesis_open {w : Nat} {s : List Char} {st : State} {ch : Char} {ts : Nat}
    {raw : List Char} (hp : ch = '(' ∨ ch = ')') (hq : st.expected_end ≠ '"')
    (he : st.escape = false) (hts : st.token_start = some ts)
    (hraw : stdString s st.c (st.c - ts) = .ok raw) :
    step w s st ch = .ok (closeToken w st raw) := by
  have hpar := @isParenthesis_of st ch hp hq
  have hb : breaksToken st ch = true := by simp [breaksToken, he, hpar]
  have hk : parenthesisKilled st ch = true := by simp [parenthesisKilled, he, hpar, hts]
  unfold step stepBody
  rw [hts]
  simp only
  rw [if_pos hb, hraw]
  simp only
  rw [if_pos hk]

/-! ## Termination of the character loop -/

theorem step_error_outOfBounds {w : Nat} {s : List Char} {st : State} {ch : Char} {e : Fault}
    (h : step w s st ch = .error e) : e = .outOfBounds := by
  unfold step at h
  cases hb : stepBody w s st ch with
  | error e1 =>
    rw [hb] at h
    injection h with h
    subst h
    unfold stepBody at hb
    cases hts : st.token_start with
    | some ts =>
      rw [hts] at hb
      simp only at hb
      split_ifs at hb
      cases hraw : stdString s st.c (st.c - ts) with
      | ok raw => rw [hraw] at hb; cases hb
      | error e2 =>
        rw [hraw] at hb
        injection hb with hb
        subst hb
        unfold stdString at hraw
        split_ifs at hraw
        injection hraw with hraw
        exact hraw.symm
    | none =>
      rw [hts] at hb
      simp only at hb
      split_ifs at hb
      cases hj : skipComment (s.drop st.c) st.c with
      | ok j => rw [hj] at hb; cases hb
      | error e2 =>
        rw [hj] at hb
        injection hb with hb
        subst hb
        clear hts
        generalize s.drop st.c = l at hj
        generalize st.c = c at hj
        induction l generalizing c with
        | nil =>
          unfold skipComment at hj
          injection hj with hj
          exact hj.symm
        | cons x rest ih =>
          unfold skipComment at hj
          split_ifs at hj
          exact ih _ hj
  | ok st1 =>
    rw [hb] at h
    simp only at h
    split_ifs at h
    cases hc1 : charAt s st1.c with
    | ok ch1 => rw [hc1] at h; cases h
    | error e2 =>
      rw [hc1] at h
      injection h with h
      subst h
      unfold charAt at hc1
      split_ifs at hc1
      injection hc1 with hc1
      exact hc1.symm

/-- Every iteration decreases twice the distance of `c` from the terminator, plus one while
a token is open. -/
theorem step_measure {w : Nat} {s : List Char} {st st1 : State} {ch : Char}
    (hch : charAt s st.c = .ok ch) (hn : ch ≠ NUL) (h : step w s st ch = .ok st1) :
    2 * (s.length - st1.c) + (if st1.token_start.isSome then 1 else 0) <
      2 * (s.length - st.c) + (if st.token_start.isSome then 1 else 0) := by
  obtain ⟨hlt, _⟩ := charAt_ok_lt hch hn
  rcases step_ok_cases hch h with
    ⟨ts, raw, hts, hb, _, hk | hk⟩ | ⟨ts, hts, hb, rfl⟩ | ⟨hts, hw, rfl⟩ | ⟨hts, hw, hp, rfl⟩ |
    ⟨hts, hw, hp, hs, j, hj, rfl⟩ | ⟨hts, hw, hp, hs, rfl⟩
  · obtain ⟨_, rfl⟩ := hk
    simp [closeToken, hts]
  · obtain ⟨_, rfl⟩ := hk
    simp only [stepTail, closeToken, hts, Option.isSome_none, Option.isSome_some]
    simp
    omega
  · simp only [stepTail, hts, Option.isSome_some]
    simp
    omega
  · simp only [stepTail, hts, Option.isSome_none]
    simp
    omega
  · simp only [stepTail, emitParenthesis, hts, Option.isSome_none]
    simp
    omega
  · obtain ⟨hcj, hjl, _⟩ := skipComment_spec s st.c j hj
    simp only [stepTail, hts, Option.isSome_none]
    simp
    omega
  · simp only [stepTail, startToken, hts, Option.isSome_none, Option.isSome_some]
    simp
    omega

/-- With fuel above the measure the loop never runs out of iterations. -/
theorem loop_ne_outOfFuel {w : Nat} {s : List Char} (f : Nat) (st : State) (hI : Inv s st)
    (hf : 2 * (s.length - st.c) + (if st.token_start.isSome then 1 else 0) < f) :
    loop w s f st ≠ .error .outOfFuel := by
  induction f generalizing st with
  | zero => omega
  | succ f ih =>
    have hc : charAt s st.c = .ok (if st.c < s.length then s.getD st.c NUL else NUL) := by
      unfold charAt
      have := hI.c_le
      split_ifs with h1 h2
      · rfl
      · rfl
      · omega
    generalize (if st.c < s.length then s.getD st.c NUL else NUL) = ch at hc
    unfold loop
    rw [hc]
    simp only
    by_cases hn : ch = NUL
    · rw [if_pos hn]; simp
    · rw [if_neg hn]
      cases hs : step w s st ch with
      | error e =>
        simp only
        rw [step_error_outOfBounds hs]
        simp
      | ok st1 =>
        simp only
        apply ih st1 (inv_step hI hc hn hs)
        have := step_measure hc hn hs
        omega

/-- The call `tokenize` always ends: it returns, or it faults on an out-of-bounds read. -/
theorem tokenize_ne_outOfFuel (w : Nat) (s : List Char) :
    tokenize w s ≠ .error .outOfFuel := by
  unfold tokenize
  have h := loop_ne_outOfFuel (w := w) (fuelFor s) initState (inv_init s)
    (by simp [initState, fuelFor])
  cases hl : loop w s (fuelFor s) initState with
  | ok st => simp
  | error e =>
    simp only
    intro he
    injection he with he
    rw [hl, he] at h
    exact h rfl

/-! ## Positions of the returned tokens -/

/-- The state in which the loop ends is reachable and stands on the terminator. -/
theorem loop_reachable {w : Nat} {s : List Char} (f : Nat) {st fin : State}
    (hR : Reachable w s st) (h : loop w s f st = .ok fin) :
    Reachable w s fin ∧ charAt s fin.c = .ok NUL := by
  induction f generalizing st with
  | zero => simp [loop] at h
  | succ f ih =>
    cases hch : charAt s st.c with
    | error e => simp [loop, hch] at h
    | ok ch =>
      by_cases hn : ch = NUL
      · simp only [loop, hch, if_pos hn] at h
        injection h with h
        subst h
        exact ⟨hR, hn ▸ hch⟩
      · obtain ⟨f1, st1, hs, _⟩ := loop_ok_step hch hn h
        rw [loop_succ_of_step f hch hn hs] at h
        exact ih (Reachable.next hR hch hn hs) h

/-- Every token held at a reachable state carries the line and column of an index before
`c`: the index at which the token started. -/
theorem reachable_tokens_positions {w : Nat} {s : List Char} {st : State}
    (hR : Reachable w s st) :
    ∀ t ∈ st.tokens, ∃ k, k < st.c ∧ t.line = lineOf s k ∧ t.column = columnOf s k := by
  induction hR with
  | start => intro t ht; cases ht
  | @next st st1 ch hR0 hch hn hstep ih =>
    have hI := inv_of_reachable hR0
    have hold : ∀ t ∈ st.tokens, ∀ c1, st.c ≤ c1 →
        ∃ k, k < c1 ∧ t.line = lineOf s k ∧ t.column = columnOf s k := by
      intro t ht c1 hc1
      obtain ⟨k, hk, h1, h2⟩ := ih t ht
      exact ⟨k, by omega, h1, h2⟩
    rcases step_ok_cases hch hstep with
      ⟨ts, raw, hts, _, _, ⟨_, rfl⟩ | ⟨_, rfl⟩⟩ | ⟨ts, _, _, rfl⟩ | ⟨_, _, rfl⟩ |
      ⟨_, _, _, rfl⟩ | ⟨_, _, _, _, j, hj, rfl⟩ | ⟨_, _, _, _, rfl⟩
    · intro t ht
      obtain ⟨h1, h2, h3, _⟩ := hI.opened ts hts
      rcases List.mem_append.mp ht with h | h
      · exact hold t h _ (Nat.le_refl _)
      · rw [List.mem_singleton.mp h]
        exact ⟨ts, h1, h2, h3⟩
    · intro t ht
      obtain ⟨h1, h2, h3, _⟩ := hI.opened ts hts
      rcases List.mem_append.mp ht with h | h
      · exact hold t h _ (Nat.le_succ _)
      · rw [List.mem_singleton.mp h]
        exact ⟨ts, Nat.lt_succ_of_lt h1, h2, h3⟩
    · intro t ht
      exact hold t ht _ (Nat.le_succ _)
    · intro t ht
      exact hold t ht _ (Nat.le_succ _)
    · intro t ht
      rcases List.mem_append.mp ht with h | h
      · exact hold t h _ (Nat.le_succ _)
      · rw [List.mem_singleton.mp h]
        exact ⟨st.c, Nat.lt_succ_self _, hI.line_eq, hI.column_eq⟩
    · intro t ht
      obtain ⟨hcj, _⟩ := skipComment_spec s st.c j hj
      exact hold t ht (j + 1) (by omega)
    · intro t ht
      exact hold t ht _ (Nat.le_succ _)

/-- Whenever `tokenize` returns, every returned token carries the 1-based line and column
of a character of the input, the one at which the lexer started the token. -/
theorem tokenize_positions {w : Nat} {s : List Char} {r : TokenizeResult}
    (h : tokenize w s = .ok r) :
    ∀ t ∈ r.tokens, ∃ k, k < s.length ∧ t.line = lineOf s k ∧ t.column = columnOf s k := by
  obtain ⟨fin, hl, hr⟩ := tokenize_ok h
  obtain ⟨hR, _⟩ := loop_reachable _ Reachable.start hl
  have hI := inv_of_reachable hR
  intro t ht
  rw [hr, finish_tokens] at ht
  obtain ⟨k, hk, h1, h2⟩ := reachable_tokens_positions hR t ht
  exact ⟨k, Nat.lt_of_lt_of_le hk hI.c_le, h1, h2⟩

/-- Whenever `tokenize` returns, it returns from a reachable state standing on the
terminator; the error flag is set exactly when a token is still open there, and the error
details are then the position of that token's first character and the input text from it. -/
theorem tokenize_error_report {w : Nat} {s : List Char} {r : TokenizeResult}
    (h : tokenize w s = .ok r) :
    ∃ fin, Reachable w s fin ∧ charAt s fin.c = .ok NUL ∧ r.tokens = fin.tokens ∧
      ((fin.token_start = none ∧ r.error = false) ∨
       (∃ ts, fin.token_start = some ts ∧ ts < fin.c ∧ r.error = true ∧
          r.error_line = some (lineOf s ts) ∧ r.error_column = some (columnOf s ts) ∧
          r.error_token = some (cString s ts))) := by
  obtain ⟨fin, hl, hr⟩ := tokenize_ok h
  obtain ⟨hR, hnul⟩ := loop_reachable _ Reachable.start hl
  have hI := inv_of_reachable hR
  refine ⟨fin, hR, hnul, by rw [hr, finish_tokens], ?_⟩
  cases hts : fin.token_start with
  | none =>
    left
    refine ⟨rfl, ?_⟩
    rw [hr]
    simp [finish, hts]
  | some ts =>
    right
    obtain ⟨h1, h2, h3, _⟩ := hI.opened ts hts
    refine ⟨ts, rfl, h1, ?_, ?_, ?_, ?_⟩ <;> rw [hr] <;> simp [finish, hts, h2, h3]

/-! ## Comments -/

theorem writeBytes_spec (buf : List Nat) (off : Nat) (bytes : List Nat)
    (h : off + bytes.length ≤ buf.length) :
    ∃ out, writeBytes buf off bytes = .ok out ∧ out.length = buf.length ∧
      ∀ k, out.getD k 0 =
        if off ≤ k ∧ k < off + bytes.length then bytes.getD (k - off) 0 else buf.getD k 0 := by
  refine ⟨buf.take off ++ bytes ++ buf.drop (off + bytes.length), ?_, ?_, ?_⟩
  · unfold writeBytes
    rw [if_pos h]
  · simp only [List.length_append, List.length_take, List.length_drop]
    omega
  · intro k
    have hto : (buf.take off).length = off := by
      rw [List.length_take]; omega
    simp only [List.getD_eq_getElem?_getD]
    by_cases h1 : k < off
    · rw [if_neg (by omega), List.append_assoc, List.getElem?_append_left (by omega),
        List.getElem?_take_of_lt h1]
    · by_cases h2 : k < off + bytes.length
      · rw [if_pos ⟨by omega, h2⟩, List.append_assoc, List.getElem?_append_right (by omega),
          hto, List.getElem?_append_left (by omega)]
      · rw [if_neg (by omega), List.getElem?_append_right
          (by simp only [List.length_append, hto]; omega)]
        simp only [List.length_append, hto, List.getElem?_drop]
        congr 2
        omega

theorem be16At_congr {a b : List Nat} {off : Nat} (h0 : a.getD off 0 = b.getD off 0)
    (h1 : a.getD (off + 1) 0 = b.getD (off + 1) 0) : be16At a off = be16At b off := by
  unfold be16At
  rw [h0, h1]

theorem be16At_lt (buf : List Nat) (off : Nat) : be16At buf off < 65536 := by
  unfold be16At
  omega

theorem readBE16_ok {buf : List Nat} {off : Nat} (h : off + 2 ≤ buf.length) :
    readBE16 buf off = .ok (be16At buf off) := by
  unfold readBE16
  rw [if_pos h]

theorem nodeOffset_succ (L : Layout) (m : Nat) :
    nodeOffset L (m + 1) = nodeOffset L m + L.nodeSize := by
  unfold nodeOffset
  rw [Nat.succ_mul]
  omega

theorem nodeOffset_mono (L : Layout) {m i : Nat} (h : m < i) :
    nodeOffset L m + L.nodeSize ≤ nodeOffset L i := by
  have h1 : (m + 1) * L.nodeSize ≤ i * L.nodeSize := Nat.mul_le_mul_right _ h
  unfold nodeOffset
  rw [Nat.succ_mul] at h1
  omega

theorem nodeOffset_ge (L : Layout) (m : Nat) : L.tableSize ≤ nodeOffset L m := by
  unfold nodeOffset
  omega

/-- The `data` members of different nodes do not overlap. -/
theorem inData_unique {L : Layout} (hL : L.WellFormed) {m i k : Nat} (h1 : inData L m k)
    (h2 : inData L i k) : m = i := by
  unfold inData at h1 h2
  have hd := hL.data_in
  rcases Nat.lt_trichotomy m i with h | h | h
  · have := nodeOffset_mono L h; omega
  · exact h
  · have := nodeOffset_mono L h; omega

/-- No `type` or `flags` member of any node overlaps a `data` member of any node. -/
theorem not_inData_of_field {L : Layout} (hL : L.WellFormed) (off : Nat)
    (hin : off + 2 ≤ L.nodeSize) (hdis : off + 2 ≤ L.dataOffset ∨ L.dataOffset + 4 ≤ off)
    (i m t : Nat) (ht : t < 2) : ¬ inData L m (nodeOffset L i + off + t) := by
  unfold inData
  have hd := hL.data_in
  rcases Nat.lt_trichotomy m i with h | h | h
  · have := nodeOffset_mono L h; omega
  · subst h; omega
  · have := nodeOffset_mono L h; omega

/-- Two buffers that differ at most inside `data` members have the same node types and
flags. -/
theorem fields_congr {L : Layout} (hL : L.WellFormed) {a b : List Nat}
    (h : ∀ k, (∀ m, ¬ inData L m k) → a.getD k 0 = b.getD k 0) (i : Nat) :
    nodeType L a i = nodeType L b i ∧ nodeFlags L a i = nodeFlags L b i := by
  constructor
  · apply be16At_congr
    · exact h _ (fun m => not_inData_of_field hL _ hL.type_in hL.type_data i m 0 (by omega))
    · exact h _ (fun m => not_inData_of_field hL _ hL.type_in hL.type_data i m 1 (by omega))
  · apply be16At_congr
    · exact h _ (fun m => not_inData_of_field hL _ hL.flags_in hL.flags_data i m 0 (by omega))
    · exact h _ (fun m => not_inData_of_field hL _ hL.flags_in hL.flags_data i m 1 (by omega))

theorem isNulled_congr {L : Layout} (hL : L.WellFormed) (K : Constants) {a b : List Nat}
    (h : ∀ k, (∀ m, ¬ inData L m k) → a.getD k 0 = b.getD k 0) (i : Nat) :
    isNulled L K a i ↔ isNulled L K b i := by
  obtain ⟨h1, h2⟩ := fields_congr hL h i
  unfold isNulled
  rw [h1, h2]

theorem tagClassOf_isSome (K : Constants) (type : Nat) :
    (tagClassOf K type ≠ none) ↔ type ∈ referenceTypes K := by
  unfold tagClassOf referenceTypes
  simp only [List.mem_cons, List.mem_singleton, List.not_mem_nil, or_false]
  split_ifs <;> simp_all

/-- The effect of the loop body on node `i`, byte by byte. -/
theorem processNode_spec {L : Layout} (hL : L.WellFormed) (K : Constants) (buf : List Nat)
    (i : Nat) (hfit : nodeOffset L i + L.nodeSize ≤ buf.length) :
    ∃ out, processNode L K buf i = .ok out ∧ out.length = buf.length ∧
      ∀ k, out.getD k 0 =
        if isNulled L K buf i ∧ inData L i k then 255 else buf.getD k 0 := by
  have ht := hL.type_in
  have hf := hL.flags_in
  have hd := hL.data_in
  unfold processNode
  rw [readBE16_ok (by omega)]
  simp only
  cases hcls : tagClassOf K (be16At buf (nodeOffset L i + L.typeOffset)) with
  | none =>
    refine ⟨buf, rfl, rfl, ?_⟩
    intro k
    have : ¬ isNulled L K buf i := by
      intro hn
      have := (tagClassOf_isSome K _).mpr hn.1
      exact this hcls
    rw [if_neg (fun h => this h.1)]
  | some cls =>
    simp only
    rw [readBE16_ok (by omega)]
    simp only
    have htype : nodeType L buf i ∈ referenceTypes K := by
      apply (tagClassOf_isSome K _).mp
      show tagClassOf K (be16At buf (nodeOffset L i + L.typeOffset)) ≠ none
      rw [hcls]; simp
    by_cases hflag : be16At buf (nodeOffset L i + L.flagsOffset) &&&
          K.SCENARIO_SCRIPT_NODE_FLAGS_FLAG_IS_GLOBAL ≠ 0 ∨
        be16At buf (nodeOffset L i + L.flagsOffset) &&&
          K.SCENARIO_SCRIPT_NODE_FLAGS_FLAG_IS_SCRIPT_CALL ≠ 0
    · rw [if_pos hflag]
      refine ⟨buf, rfl, rfl, ?_⟩
      intro k
      have : ¬ isNulled L K buf i := by
        rintro ⟨_, h1, h2⟩
        rcases hflag with h | h
        · exact h h1
        · exact h h2
      rw [if_neg (fun h => this h.1)]
    · rw [if_neg hflag]
      have hn : isNulled L K buf i := by
        simp only [not_or, not_not] at hflag
        exact ⟨htype, hflag.1, hflag.2⟩
      obtain ⟨out, ho, hlen, hget⟩ := writeBytes_spec buf (nodeOffset L i + L.dataOffset)
        nullTagId (by simp only [nullTagId, List.length_cons, List.length_nil]; omega)
      refine ⟨out, ho, hlen, ?_⟩
      intro k
      rw [hget k]
      have hl4 : nullTagId.length = 4 := rfl
      rw [hl4]
      by_cases hk : inData L i k
      · have hk' : nodeOffset L i + L.dataOffset ≤ k ∧
            k < nodeOffset L i + L.dataOffset + 4 := hk
        rw [if_pos hk', if_pos ⟨hn, hk⟩]
        have : k - (nodeOffset L i + L.dataOffset) < 4 := by omega
        interval_cases hx : k - (nodeOffset L i + L.dataOffset) <;> rfl
      · have hk' : ¬ (nodeOffset L i + L.dataOffset ≤ k ∧
            k < nodeOffset L i + L.dataOffset + 4) := hk
        rw [if_neg hk', if_neg (fun h => hk h.2)]

theorem after_agree {L : Layout} {K : Constants} {base cur : List Nat} {i : Nat}
    (h : After L K base i cur) :
    ∀ k, (∀ m, ¬ inData L m k) → cur.getD k 0 = base.getD k 0 := by
  intro k hk
  rw [h.2 k, if_neg]
  rintro ⟨m, _, _, hm⟩
  exact hk m hm

theorem after_step {L : Layout} (hL : L.WellFormed) {K : Constants} {base cur out : List Nat}
    {i : Nat} (h : After L K base i cur) (hlen : out.length = cur.length)
    (hget : ∀ k, out.getD k 0 =
      if isNulled L K cur i ∧ inData L i k then 255 else cur.getD k 0) :
    After L K base (i + 1) out := by
  refine ⟨hlen.trans h.1, ?_⟩
  intro k
  have hiff := isNulled_congr hL K (after_agree h) i
  rw [hget k, h.2 k]
  by_cases h1 : isNulled L K cur i ∧ inData L i k
  · rw [if_pos h1, if_pos ⟨i, Nat.lt_succ_self i, hiff.mp h1.1, h1.2⟩]
  · rw [if_neg h1]
    by_cases h2 : ∃ m, m < i ∧ isNulled L K base m ∧ inData L m k
    · obtain ⟨m, hm, hn, hd⟩ := h2
      rw [if_pos ⟨m, hm, hn, hd⟩, if_pos ⟨m, Nat.lt_succ_of_lt hm, hn, hd⟩]
    · rw [if_neg h2, if_neg]
      rintro ⟨m, hm, hn, hd⟩
      rcases Nat.lt_succ_iff_lt_or_eq.mp hm with hlt | heq
      · exact h2 ⟨m, hlt, hn, hd⟩
      · subst heq
        exact h1 ⟨hiff.mpr hn, hd⟩

/-- The loop handles the nodes from `i` up to `element_count` and then stops; it neither
faults nor runs out of iterations. -/
theorem nodeLoop_spec {L : Layout} (hL : L.WellFormed) (K : Constants) (base : List Nat)
    (count : Nat) (hcount : count ≤ 65535) (hfit : nodeOffset L count ≤ base.length)
    (fuel i : Nat) (cur : List Nat) (hi : i ≤ count) (hfuel : fuel = count + 1 - i)
    (h : After L K base i cur) :
    ∃ out, nodeLoop L K count fuel i cur = .ok out ∧ After L K base count out := by
  induction fuel generalizing i cur with
  | zero => omega
  | succ fuel ih =>
    unfold nodeLoop
    by_cases hlt : i < count
    · rw [if_pos hlt]
      have hnode : nodeOffset L i + L.nodeSize ≤ cur.length := by
        have := nodeOffset_mono L hlt
        rw [h.1]; omega
      obtain ⟨out1, ho, hlen, hget⟩ := processNode_spec hL K cur i hnode
      rw [ho]
      simp only
      have hwrap : (i + 1) % 65536 = i + 1 := Nat.mod_eq_of_lt (by omega)
      rw [hwrap]
      exact ih (i + 1) out1 (by omega) (by omega) (after_step hL h hlen hget)
    · rw [if_neg hlt]
      have : i = count := by omega
      subst this
      exact ⟨cur, rfl, h⟩

/-- The whole of `postprocess_hek_data` on a buffer that holds a table header, byte by byte:
the call succeeds, the length is kept, the `data` bytes of the processed nodes that meet the
nulling condition become `0xFF`, the four bytes of `first_element_ptr` become zero, and every
other byte is kept. -/
theorem postprocess_spec {L : Layout} (hL : L.WellFormed) (K : Constants) (buf : List Nat)
    (hlen : L.tableSize ≤ buf.length) :
    ∃ out, postprocess_hek_data L K buf = .ok out ∧ out.length = buf.length ∧
      ∀ k, out.getD k 0 =
        if ∃ m, m < elementCount L buf ∧ isNulled L K buf m ∧ inData L m k then 255
        else if L.firstElementPtrOffset ≤ k ∧ k < L.firstElementPtrOffset + 4 then 0
        else buf.getD k 0 := by
  have hp := hL.ptr_in
  have hs := hL.size_in
  have hsp := hL.size_ptr
  obtain ⟨buf1, hw, hlen1, hget1⟩ := writeBytes_spec buf L.firstElementPtrOffset [0, 0, 0, 0]
    (by simp only [List.length_cons, List.length_nil]; omega)
  simp only [List.length_cons, List.length_nil, Nat.zero_add, Nat.reduceAdd] at hget1
  have hget1' : ∀ k, buf1.getD k 0 =
      if L.firstElementPtrOffset ≤ k ∧ k < L.firstElementPtrOffset + 4 then 0
      else buf.getD k 0 := by
    intro k
    rw [hget1 k]
    by_cases hk : L.firstElementPtrOffset ≤ k ∧ k < L.firstElementPtrOffset + 4
    · rw [if_pos hk, if_pos hk]
      have : k - L.firstElementPtrOffset < 4 := by omega
      interval_cases hx : k - L.firstElementPtrOffset <;> rfl
    · rw [if_neg hk, if_neg hk]
  have hsize : be16At buf1 L.sizeOffset = be16At buf L.sizeOffset := by
    apply be16At_congr
    · rw [hget1', if_neg (by omega)]
    · rw [hget1', if_neg (by omega)]
  have hagree : ∀ k, L.tableSize ≤ k → buf1.getD k 0 = buf.getD k 0 := by
    intro k hk
    rw [hget1', if_neg (by omega)]
  have hnull : ∀ m, isNulled L K buf1 m ↔ isNulled L K buf m := by
    intro m
    have hto := nodeOffset_ge L m
    have h1 : nodeType L buf1 m = nodeType L buf m :=
      be16At_congr (hagree _ (by omega)) (hagree _ (by omega))
    have h2 : nodeFlags L buf1 m = nodeFlags L buf m :=
      be16At_congr (hagree _ (by omega)) (hagree _ (by omega))
    unfold isNulled
    rw [h1, h2]
  have hcount : elementCount L buf =
      min (be16At buf1 L.sizeOffset) ((buf1.length - L.tableSize) / L.nodeSize) := by
    unfold elementCount
    rw [hsize, hlen1]
  have hle : elementCount L buf ≤ 65535 := by
    have := be16At_lt buf L.sizeOffset
    unfold elementCount
    omega
  have hfit : nodeOffset L (elementCount L buf) ≤ buf1.length := by
    have h1 : elementCount L buf ≤ (buf.length - L.tableSize) / L.nodeSize := by
      unfold elementCount; omega
    have h2 := Nat.mul_le_mul_right L.nodeSize h1
    have h3 := Nat.div_mul_le_self (buf.length - L.tableSize) L.nodeSize
    unfold nodeOffset
    rw [hlen1]; omega
  have h0 : After L K buf1 0 buf1 := by
    refine ⟨rfl, fun k => ?_⟩
    rw [if_neg]
    rintro ⟨m, hm, _⟩
    omega
  obtain ⟨out, ho, hafter⟩ := nodeLoop_spec hL K buf1 (elementCount L buf) hle hfit
    (elementCount L buf + 1) 0 buf1 (Nat.zero_le _) (by omega) h0
  refine ⟨out, ?_, hafter.1.trans hlen1, ?_⟩
  · unfold postprocess_hek_data
    rw [if_pos hlen, hw]
    simp only
    rw [readBE16_ok (by omega)]
    simp only
    rw [← hcount]
    exact ho
  · intro k
    rw [hafter.2 k]
    by_cases h1 : ∃ m, m < elementCount L buf ∧ isNulled L K buf m ∧ inData L m k
    · obtain ⟨m, hm, hn, hd⟩ := h1
      rw [if_pos ⟨m, hm, (hnull m).mpr hn, hd⟩, if_pos ⟨m, hm, hn, hd⟩]
    · rw [if_neg h1, if_neg, hget1']
      rintro ⟨m, hm, hn, hd⟩
      exact h1 ⟨m, hm, (hnull m).mp hn, hd⟩

theorem postprocess_short (L : Layout) (K : Constants) (buf : List Nat)
    (hlen : buf.length < L.tableSize) : postprocess_hek_data L K buf = .ok buf := by
  unfold postprocess_hek_data
  rw [if_neg (by omega)]

theorem elementCount_short (L : Layout) (buf : List Nat) (hlen : buf.length ≤ L.tableSize) :
    elementCount L buf = 0 := by
  unfold elementCount
  rw [Nat.sub_eq_zero_of_le hlen, Nat.zero_div]
  exact Nat.min_zero _

/-! ## Settled claims: the tokenizer -/

/-- C1 (code defect): on the input `(foo 1 2.5 "a\nb")` the call reads past the terminating
NUL while closing the quoted token, because the raw text of a token is taken from the
character that terminated it instead of from the token's first character. On the same input
followed by three spaces, where every read stays in bounds, the tokens `foo`, `1`, `2.5` and
the quoted token are all stored as strings holding the text after them. -/
theorem tokenize_example_reads_wrong_text (w : Nat) :
    tokenize w "(foo 1 2.5 \"a\\nb\")".toList = .error .outOfBounds ∧
    tokenize w "(foo 1 2.5 \"a\\nb\")   ".toList = .ok
      { tokens :=
          [⟨1, 1, .string "(".toList, .TOKEN_TYPE_PARENTHESIS_BEGIN⟩,
           ⟨1, 2, .string " 1 ".toList, .TOKEN_TYPE_STRING⟩,
           ⟨1, 6, .string " ".toList, .TOKEN_TYPE_STRING⟩,
           ⟨1, 8, .string " \"a".toList, .TOKEN_TYPE_STRING⟩,
           ⟨1, 12, .string ")   ".toList, .TOKEN_TYPE_STRING⟩,
           ⟨1, 18, .string ")".toList, .TOKEN_TYPE_PARENTHESIS_END⟩],
        error := false, error_line := none, error_column := none, error_token := none } :=
  ⟨rfl, rfl⟩

/-- C2 (code defect): on the input `(foo 1 2.5 "a\nb")` the call returns no tokens at all: it
faults on a read past the terminating NUL. Were the two characters after the terminator
readable, whatever they hold, the six tokens would sit at line 1, columns 1, 2, 6, 8, 12 and
18. -/
theorem tokenize_example_positions (w : Nat) :
    (tokenize w "(foo 1 2.5 \"a\\nb\")".toList).map (fun r => positions r.tokens) =
      .error .outOfBounds ∧
    ∀ x y : Char,
      (tokenize w ("(foo 1 2.5 \"a\\nb\")".toList ++ [NUL, x, y])).map
          (fun r => positions r.tokens) =
        .ok [(1, 1), (1, 2), (1, 6), (1, 8), (1, 12), (1, 18)] :=
  ⟨rfl, fun _ _ => rfl⟩

/-- C3 (code defect): the input `abcd "` ends inside a quoted string, yet no error is
reported at the quote: closing the bare token `abcd` reads past the terminating NUL. On the
input `"abc` the error is reported at line 1, column 1 with the text `"abc`. -/
theorem tokenize_unterminated_quote (w : Nat) :
    tokenize w "abcd \"".toList = .error .outOfBounds ∧
    tokenize w "\"abc".toList = .ok
      { tokens := [], error := true, error_line := some 1, error_column := some 1,
        error_token := some "\"abc".toList } :=
  ⟨rfl, rfl⟩

/-- C4 (code defect): the quoted token of the input `"ab"` followed by two spaces is emitted
as a string, but its text is the two spaces after the closing quote, not `ab`. The empty
quoted token `""` does yield the empty string. -/
theorem tokenize_quoted_text (w : Nat) :
    tokenize w "\"ab\"  ".toList = .ok
      { tokens := [⟨1, 1, .string "  ".toList, .TOKEN_TYPE_STRING⟩],
        error := false, error_line := none, error_column := none, error_token := none } ∧
    tokenize w "\"\"".toList = .ok
      { tokens := [⟨1, 1, .string [], .TOKEN_TYPE_STRING⟩],
        error := false, error_line := none, error_column := none, error_token := none } :=
  ⟨rfl, rfl⟩

/-- C5 (counterexample): the rule of the specification and the code disagree on the minus
sign. The text `-5` has a leading minus, which the rule excludes, and is classified as an
integer; the text `5-3` meets the rule and is classified as a string; and `tokenize` on the
bare token `5-3` (followed by three spaces) emits a string. -/
theorem integer_rule_counterexample :
    (specIntegerRule "-5".toList = false ∧
      (finishToken 64 "-5".toList 1 1).type = .TOKEN_TYPE_INTEGER) ∧
    (specIntegerRule "5-3".toList = true ∧
      (finishToken 64 "5-3".toList 1 1).type = .TOKEN_TYPE_STRING) ∧
    (tokenize 64 "5-3   ".toList).map (fun r => r.tokens.map (fun t => t.type)) =
      .ok [.TOKEN_TYPE_STRING] :=
  ⟨⟨rfl, rfl⟩, ⟨rfl, rfl⟩, rfl⟩

/-- C5 (amended): the token built from a raw text is an integer exactly when every character
of that text is a decimal digit, except that the first character may be a minus sign. -/
theorem integer_classification (w : Nat) (raw : List Char) (line column : Nat) :
    (finishToken w raw line column).type = .TOKEN_TYPE_INTEGER ↔ integerText raw = true :=
  tokenType_integer_iff raw

/-- The classification of lines 74-106 taken alone accepts a leading `.`: from the raw text
`.5`, which the decimal rule of the specification excludes, it builds a decimal. -/
theorem decimal_rule_counterexample :
    specDecimalRule ".5".toList = false ∧
      (finishToken 64 ".5".toList 1 1).type = .TOKEN_TYPE_DECIMAL :=
  ⟨rfl, rfl⟩

theorem tokenType_cases (raw : List Char) :
    tokenType raw = .TOKEN_TYPE_STRING ∨ tokenType raw = .TOKEN_TYPE_DECIMAL ∨
      tokenType raw = .TOKEN_TYPE_INTEGER := by
  unfold tokenType
  simp only
  split_ifs
  · exact Or.inl rfl
  · exact Or.inr (Or.inl rfl)
  · exact Or.inr (Or.inr rfl)

theorem integerText_no_dot (raw : List Char) (h : integerText raw = true) : '.' ∉ raw := by
  have hd : isDigit '.' = false := by decide
  cases raw with
  | nil => simp
  | cons c rest =>
    simp only [integerText, Bool.and_eq_true, Bool.or_eq_true, beq_iff_eq, List.all_eq_true] at h
    intro hm
    rcases List.mem_cons.mp hm with h1 | h1
    · rcases h.1 with h2 | h2
      · rw [← h1, hd] at h2; cases h2
      · rw [← h1] at h2; revert h2; decide
    · have := h.2 _ h1
      rw [hd] at this; cases this

/-- The classification of lines 74-106 as a function of the raw text: the token built from
a raw text is a decimal exactly when every character of that text is a decimal digit or a
`.`, except that the first character may be a minus sign, there is exactly one `.`, and that
`.` is not the last character; a text with a trailing `.` or with two or more `.` is a
string. -/
theorem decimal_classification (w : Nat) (raw : List Char) (line column : Nat) :
    ((finishToken w raw line column).type = .TOKEN_TYPE_DECIMAL ↔ decimalText raw = true) ∧
    (raw.getLast? = some '.' ∨ 2 ≤ raw.count '.' →
      (finishToken w raw line column).type = .TOKEN_TYPE_STRING) := by
  refine ⟨tokenType_decimal_iff raw, ?_⟩
  intro h
  show tokenType raw = .TOKEN_TYPE_STRING
  have hmem : '.' ∈ raw := by
    rcases h with h | h
    · exact List.mem_of_getLast?_eq_some h
    · exact List.count_pos_iff.mp (by omega)
  have hnd : ¬ decimalText raw = true := by
    intro hd
    cases raw with
    | nil => simp [decimalText] at hd
    | cons c rest =>
      simp only [decimalText, Bool.and_eq_true, decide_eq_true_eq, bne_iff_ne, ne_eq] at hd
      rcases h with h | h
      · exact hd.2 h
      · omega
  have hni : ¬ integerText raw = true := fun hi => integerText_no_dot raw hi hmem
  rcases tokenType_cases raw with h1 | h1 | h1
  · exact h1
  · exact absurd ((tokenType_decimal_iff raw).mp h1) hnd
  · exact absurd ((tokenType_integer_iff raw).mp h1) hni

/-! ## The type of the returned tokens -/

/-- A raw text whose first character is not a digit, a minus sign or a `.` is not numeric:
the token built from it is a string. -/
theorem tokenType_of_head (c : Char) (rest : List Char) (hd : isDigit c = false)
    (hm : c ≠ '-') (hdot : c ≠ '.') : tokenType (c :: rest) = .TOKEN_TYPE_STRING := by
  have h1 : (scanChar scanInit c (rest.headD NUL)).numeric = false := by
    unfold scanChar
    by_cases hb : c = '\\' ∧ scanInit.t_escape = false
    · rw [if_pos hb]
    · rw [if_neg hb, if_neg (by decide), if_pos ⟨hd, Or.inl hm⟩, if_neg (fun h => hdot h.1)]
  have h2 : (scanRaw (c :: rest) scanInit).numeric = false :=
    scanRaw_numeric_false rest _ h1
  unfold tokenType
  simp only [h2, if_true]

/-- A character that breaks an open token is a white space, a quote or a parenthesis. -/
theorem breaksToken_char {st : State} {ch : Char} (h : breaksToken st ch = true)
    (he : st.expected_end = '"' ∨ st.expected_end = ' ') :
    ch ∈ [' ', '\t', '\r', '\n', '"', '(', ')'] := by
  simp only [breaksToken, isWhitespace, isParenthesis, Bool.and_eq_true, Bool.or_eq_true,
    Bool.not_eq_true', beq_iff_eq, bne_iff_ne] at h
  rcases h.2 with (⟨_, h1⟩ | h1) | ⟨h1, _⟩
  · rcases h1 with ((h1 | h1) | h1) | h1 <;> subst h1 <;> decide
  · rcases he with he | he <;> rw [he] at h1 <;> subst h1 <;> decide
  · rcases h1 with h1 | h1 <;> subst h1 <;> decide

/-- The text `std::string(c, n)` with `n` positive starts with the character `*c`. -/
theorem stdString_head {s : List Char} {i n : Nat} {raw : List Char} {ch : Char}
    (hraw : stdString s i n = .ok raw) (hn : 0 < n) (hch : charAt s i = .ok ch) :
    ∃ rest, raw = ch :: rest := by
  unfold stdString at hraw
  split_ifs at hraw with h
  injection hraw with hraw
  have hi : i < (s ++ [NUL]).length := by
    rw [List.length_append, List.length_singleton]
    omega
  have hget : (s ++ [NUL])[i] = ch := by
    unfold charAt at hch
    split_ifs at hch with h1 h2
    · injection hch with hch
      rw [List.getElem_append_left h1]
      rw [← hch, List.getD_eq_getElem _ _ h1]
    · injection hch with hch
      subst h2
      rw [← hch]
      simp
  rw [List.drop_eq_getElem_cons hi, hget] at hraw
  obtain ⟨m, rfl⟩ : ∃ m, n = m + 1 := ⟨n - 1, by omega⟩
  rw [List.take_succ_cons] at hraw
  exact ⟨_, hraw.symm⟩

/-- The token emitted when an open token is broken is a string, whatever the characters of
the token are: its raw text starts with the character that broke it. -/
theorem closed_token_is_string {w : Nat} {s : List Char} {st : State} {ch : Char} {ts : Nat}
    {raw : List Char} (hI : Inv s st) (hch : charAt s st.c = .ok ch)
    (hts : st.token_start = some ts) (hb : breaksToken st ch = true)
    (hraw : stdString s st.c (st.c - ts) = .ok raw) (line column : Nat) :
    (finishToken w raw line column).type = .TOKEN_TYPE_STRING := by
  obtain ⟨hlt, _, _, hexp⟩ := hI.opened ts hts
  have he : st.expected_end = '"' ∨ st.expected_end = ' ' := by
    rw [hexp]
    exact expected_end_cases s ts
  obtain ⟨rest, rfl⟩ := stdString_head hraw (by omega) hch
  have hmem := breaksToken_char hb he
  show tokenType (ch :: rest) = .TOKEN_TYPE_STRING
  apply tokenType_of_head
  · revert hmem
    generalize ch = x
    intro hx
    simp only [List.mem_cons, List.mem_singleton, List.not_mem_nil, or_false] at hx
    rcases hx with h | h | h | h | h | h | h <;> subst h <;> decide
  · intro h
    subst h
    revert hmem
    decide
  · intro h
    subst h
    revert hmem
    decide

/-- Every token held at a reachable state is a string or a parenthesis. -/
theorem reachable_token_types {w : Nat} {s : List Char} {st : State}
    (hR : Reachable w s st) :
    ∀ t ∈ st.tokens, t.type = .TOKEN_TYPE_STRING ∨ t.type = .TOKEN_TYPE_PARENTHESIS_BEGIN ∨
      t.type = .TOKEN_TYPE_PARENTHESIS_END := by
  induction hR with
  | start => intro t ht; cases ht
  | @next st st1 ch hR0 hch hn hstep ih =>
    have hI := inv_of_reachable hR0
    rcases step_ok_cases hch hstep with
      ⟨ts, raw, hts, hb, hraw, ⟨_, rfl⟩ | ⟨_, rfl⟩⟩ | ⟨ts, _, _, rfl⟩ | ⟨_, _, rfl⟩ |
      ⟨_, _, _, rfl⟩ | ⟨_, _, _, _, j, hj, rfl⟩ | ⟨_, _, _, _, rfl⟩
    · intro t ht
      rcases List.mem_append.mp ht with h | h
      · exact ih t h
      · rw [List.mem_singleton.mp h]
        exact Or.inl (closed_token_is_string hI hch hts hb hraw _ _)
    · intro t ht
      rcases List.mem_append.mp ht with h | h
      · exact ih t h
      · rw [List.mem_singleton.mp h]
        exact Or.inl (closed_token_is_string hI hch hts hb hraw _ _)
    · exact ih
    · exact ih
    · intro t ht
      rcases List.mem_append.mp ht with h | h
      · exact ih t h
      · rw [List.mem_singleton.mp h]
        show (parenthesisToken st.line st.column ch).type = _ ∨ _
        unfold parenthesisToken
        by_cases hc : ch = '('
        · exact Or.inr (Or.inl (if_pos hc))
        · exact Or.inr (Or.inr (if_neg hc))
    · exact ih
    · exact ih

/-- Whenever `tokenize` returns, every returned token is a string or a parenthesis: no token
is a decimal or an integer. -/
theorem tokenize_token_types {w : Nat} {s : List Char} {r : TokenizeResult}
    (h : tokenize w s = .ok r) :
    ∀ t ∈ r.tokens, t.type = .TOKEN_TYPE_STRING ∨ t.type = .TOKEN_TYPE_PARENTHESIS_BEGIN ∨
      t.type = .TOKEN_TYPE_PARENTHESIS_END := by
  obtain ⟨fin, hl, hr⟩ := tokenize_ok h
  obtain ⟨hR, _⟩ := loop_reachable _ Reachable.start hl
  intro t ht
  rw [hr, finish_tokens] at ht
  exact reachable_token_types hR t ht

/-! ## Settled claims: decimal tokens -/

/-- C6 (code defect): the bare token `2.5` has exactly one `.`, which is interior, and the
classification of lines 74-106 makes a decimal of the text `2.5`. The token of the input `2.5`
followed by three spaces is nevertheless returned as a string holding the three spaces: the
raw text is taken from the character that terminated the token instead of from the token's
first character, so it starts with a white space or a parenthesis and is never numeric. On
every input no returned token is a decimal. -/
theorem tokenize_decimal_token_is_string (w : Nat) :
    specDecimalRule "2.5".toList = true ∧
    (finishToken w "2.5".toList 1 1).type = .TOKEN_TYPE_DECIMAL ∧
    tokenize w "2.5   ".toList = .ok
      { tokens := [⟨1, 1, .string "   ".toList, .TOKEN_TYPE_STRING⟩],
        error := false, error_line := none, error_column := none, error_token := none } ∧
    (∀ s r, tokenize w s = .ok r → ∀ t ∈ r.tokens, t.type ≠ .TOKEN_TYPE_DECIMAL) := by
  refine ⟨rfl, rfl, rfl, ?_⟩
  intro s r h t ht hd
  rcases tokenize_token_types h t ht with h1 | h1 | h1 <;> rw [hd] at h1 <;> cases h1

/-- C7 (code defect): the bare token `a\nb` (with the two characters backslash, `n`) followed
by four spaces should decode to `a`, newline, `b`; the emitted text is the four spaces after
the token. -/
theorem tokenize_escape_text (w : Nat) :
    specUnescape "a\\nb".toList = "a\nb".toList ∧
    tokenize w "a\\nb    ".toList = .ok
      { tokens := [⟨1, 1, .string "    ".toList, .TOKEN_TYPE_STRING⟩],
        error := false, error_line := none, error_column := none, error_token := none } :=
  ⟨rfl, rfl⟩

/-- C8 (counterexample): in the input `a\(b` followed by four spaces the `(` stands outside
any quoted string and any comment, yet it does not end the bare token and no parenthesis
token is emitted: it is escaped by the backslash before it. -/
theorem escaped_parenthesis_counterexample :
    (tokenize 64 "a\\(b    ".toList).map
        (fun r => r.tokens.map (fun t => (t.line, t.column, t.type))) =
      .ok [(1, 1, .TOKEN_TYPE_STRING)] :=
  rfl

/-- Inside an open token an escaped character never breaks the token: the iteration only
moves on. -/
theorem step_escaped {w : Nat} {s : List Char} {st : State} {ch : Char} {ts : Nat}
    (hch : charAt s st.c = .ok ch) (hts : st.token_start = some ts)
    (he : st.escape = true) : step w s st ch = .ok (stepTail st ch) := by
  have hb : breaksToken st ch = false := by simp [breaksToken, he]
  have hk : parenthesisKilled st ch = false := by simp [parenthesisKilled, he]
  unfold step stepBody
  rw [hts]
  simp only [hb, hk, Bool.false_eq_true, if_false, hch]

/-- On `abcd(` the parenthesis meets the open bare token `abcd`; closing it reads four
characters from index 4 of a string whose terminator is at index 5. -/
theorem tokenize_parenthesis_out_of_bounds (w : Nat) :
    tokenize w "abcd(".toList = .error .outOfBounds ∧
      stdString "abcd(".toList 4 4 = .error .outOfBounds :=
  ⟨rfl, rfl⟩

/-- C8 (amended): on an input on which `tokenize` returns, take a `(` or `)` that the lexer
meets outside a quoted string (a reachable loop state whose character is the parenthesis,
with `expected_end` not a quote; comments are skipped and so never met). When it is not
escaped: with no token open the iteration emits a one-character ParenthesisBegin or
ParenthesisEnd token at the parenthesis's own line and column and moves on; with a bare token
open the iteration closes that token, emitted at the token's own start position, without
advancing, the next iteration emits the parenthesis token at the parenthesis's own line and
column, and the closed token is among the returned tokens; in both cases the parenthesis
token is among the returned tokens. When it is escaped, a token is open, stays open with the
same start, and the iteration emits nothing and moves past the parenthesis. -/
theorem parenthesis_ends_token_and_is_emitted (w : Nat) (s : List Char) (st : State)
    (ch : Char) (r : TokenizeResult) (hr : tokenize w s = .ok r) (hR : Reachable w s st)
    (hch : charAt s st.c = .ok ch) (hp : ch = '(' ∨ ch = ')') (hq : st.expected_end ≠ '"') :
    (st.escape = false →
      (st.token_start = none →
        ∃ st1, step w s st ch = .ok st1 ∧ st1.c = st.c + 1 ∧ st1.token_start = none ∧
          st1.tokens = st.tokens ++ [parenthesisToken (lineOf s st.c) (columnOf s st.c) ch]) ∧
      (∀ ts, st.token_start = some ts →
        ∃ raw st1 st2, stdString s st.c (st.c - ts) = .ok raw ∧
          step w s st ch = .ok st1 ∧ st1.c = st.c ∧ st1.token_start = none ∧
          st1.tokens = st.tokens ++ [finishToken w raw (lineOf s ts) (columnOf s ts)] ∧
          step w s st1 ch = .ok st2 ∧ st2.c = st.c + 1 ∧ st2.token_start = none ∧
          st2.tokens = st1.tokens ++
            [parenthesisToken (lineOf s st.c) (columnOf s st.c) ch] ∧
          finishToken w raw (lineOf s ts) (columnOf s ts) ∈ r.tokens) ∧
      parenthesisToken (lineOf s st.c) (columnOf s st.c) ch ∈ r.tokens) ∧
    (st.escape = true →
      ∃ ts, st.token_start = some ts ∧ step w s st ch = .ok (stepTail st ch) ∧
        (stepTail st ch).c = st.c + 1 ∧ (stepTail st ch).token_start = some ts ∧
        (stepTail st ch).tokens = st.tokens) := by
  have hI := inv_of_reachable hR
  have hn := parenthesis_ne_NUL hp
  obtain ⟨f, fin, hf, hrt⟩ := tokenize_from_reachable hR hr
  obtain ⟨f1, st1, hs1, hl1⟩ := loop_ok_step hch hn hf
  refine ⟨fun he => ?_, fun he => ?_⟩
  · have hopen : ∀ ts, st.token_start = some ts →
        ∃ raw st1 st2, stdString s st.c (st.c - ts) = .ok raw ∧
          step w s st ch = .ok st1 ∧ st1.c = st.c ∧ st1.token_start = none ∧
          st1.tokens = st.tokens ++ [finishToken w raw (lineOf s ts) (columnOf s ts)] ∧
          step w s st1 ch = .ok st2 ∧ st2.c = st.c + 1 ∧ st2.token_start = none ∧
          st2.tokens = st1.tokens ++
            [parenthesisToken (lineOf s st.c) (columnOf s st.c) ch] ∧
          finishToken w raw (lineOf s ts) (columnOf s ts) ∈ r.tokens ∧
          parenthesisToken (lineOf s st.c) (columnOf s st.c) ch ∈ r.tokens := by
      intro ts hts
      rcases step_ok_cases hch hs1 with
        ⟨ts', raw, hts', _, hraw, _⟩ | ⟨ts', _, hb, _⟩ | ⟨h0, _⟩ | ⟨h0, _⟩ | ⟨h0, _⟩ | ⟨h0, _⟩
      · have hts'' : ts' = ts := by
          rw [hts] at hts'
          injection hts' with hts'
          exact hts'.symm
        subst hts''
        have h1 := step_parenthesis_open (w := w) hp hq he hts hraw
        have hI1 : Inv s (closeToken w st raw) := inv_step hI hch hn h1
        have h2 := @step_parenthesis_closed w s (closeToken w st raw) ch hI1 hch hp rfl
        obtain ⟨_, hl, hc, _⟩ := hI.opened ts' hts
        have ht1 : (closeToken w st raw).tokens =
            st.tokens ++ [finishToken w raw (lineOf s ts') (columnOf s ts')] := by
          show st.tokens ++ [finishToken w raw st.token_start_line st.token_start_column] = _
          rw [hl, hc]
        rw [h1] at hs1
        injection hs1 with hs1
        subst hs1
        obtain ⟨f2, st2', hs2, hl2⟩ := @loop_ok_step w s (closeToken w st raw) fin ch f1 hch hn hl1
        rw [h2.1] at hs2
        injection hs2 with hs2
        subst hs2
        obtain ⟨extra, hx⟩ := loop_tokens_prefix f2 hl2
        refine ⟨raw, _, _, hraw, h1, rfl, rfl, ht1, h2.1, rfl, rfl, h2.2, ?_, ?_⟩
        · rw [hrt, hx, h2.2, ht1]
          simp
        · rw [hrt, hx, h2.2]
          exact List.mem_append_left _
            (List.mem_append_right _ (List.mem_singleton.mpr rfl))
      · exfalso
        have hpar := @isParenthesis_of st ch hp hq
        simp [breaksToken, he, hpar] at hb
      · rw [hts] at h0; cases h0
      · rw [hts] at h0; cases h0
      · rw [hts] at h0; cases h0
      · rw [hts] at h0; cases h0
    refine ⟨?_, ?_, ?_⟩
    · intro hts
      have h := step_parenthesis_closed (w := w) hI hch hp hts
      exact ⟨_, h.1, rfl, hts, h.2⟩
    · intro ts hts
      obtain ⟨raw, a, b, h1, h2, h3, h4, h5, h6, h7, h8, h9, h10, _⟩ := hopen ts hts
      exact ⟨raw, a, b, h1, h2, h3, h4, h5, h6, h7, h8, h9, h10⟩
    · cases hts : st.token_start with
      | none =>
        have h := step_parenthesis_closed (w := w) hI hch hp hts
        rw [h.1] at hs1
        injection hs1 with hs1
        obtain ⟨extra, hx⟩ := loop_tokens_prefix f1 hl1
        rw [hrt, hx, ← hs1, h.2]
        simp
      | some ts =>
        obtain ⟨_, _, _, _, _, _, _, _, _, _, _, _, _, h11⟩ := hopen ts hts
        exact h11
  · cases hts : st.token_start with
    | none =>
      rw [(hI.closed hts).2] at he
      cases he
    | some ts =>
      exact ⟨ts, rfl, step_escaped hch hts he, rfl, hts, rfl⟩

/-- The loop state of the input `a)` at its second character: the bare token `a` is open. -/
theorem reachable_open_token :
    Reachable 64 ['a', ')']
      { c := 1, token_start := some 0, token_start_line := 1, token_start_column := 1,
        escape := false, expected_end := ' ', tokens := [], line := 1, column := 2 } :=
  @Reachable.next 64 ['a', ')'] _ _ 'a' Reachable.start rfl (by decide) rfl

/-- C8 (witness): in the input `a)` the parenthesis closes the bare token and is returned as a
token of its own at line 1, column 2. -/
theorem parenthesis_ends_token_witness :
    tokenize 64 ['a', ')'] = .ok
      { tokens := [⟨1, 1, .string [')'], .TOKEN_TYPE_STRING⟩,
                   ⟨1, 2, .string [')'], .TOKEN_TYPE_PARENTHESIS_END⟩],
        error := false, error_line := none, error_column := none, error_token := none } ∧
    parenthesisToken (lineOf ['a', ')'] 1) (columnOf ['a', ')'] 1) ')' ∈
      [(⟨1, 1, .string [')'], .TOKEN_TYPE_STRING⟩ : Token),
       ⟨1, 2, .string [')'], .TOKEN_TYPE_PARENTHESIS_END⟩] :=
  ⟨rfl, ((parenthesis_ends_token_and_is_emitted 64 ['a', ')'] _ ')' _ rfl
    reachable_open_token rfl (Or.inr rfl) (by decide)).1 rfl).2.2⟩

/-- C10: for every node table and every node within the processed count, the node's data
member after `postprocess_hek_data` is the null tag id exactly when the node's type is one of
sound, effect, damage, looping sound, animation graph, actor variant, damage effect or
object definition and neither the is-global nor the is-script-call flag is set; the data
member of every other processed node is unchanged. The call itself always succeeds. -/
theorem postprocess_nulls_unflagged_references (L : Layout) (K : Constants) (buf : List Nat)
    (hL : L.WellFormed) :
    ∃ out, postprocess_hek_data L K buf = .ok out ∧
      ∀ i, i < elementCount L buf →
        nodeData L out i = if isNulled L K buf i then nullTagId else nodeData L buf i := by
  by_cases hlen : L.tableSize ≤ buf.length
  · obtain ⟨out, ho, _, hget⟩ := postprocess_spec hL K buf hlen
    refine ⟨out, ho, ?_⟩
    intro i hi
    have hp := hL.ptr_in
    have hto := nodeOffset_ge L i
    have hbytes : ∀ t, t < 4 → out.getD (nodeOffset L i + L.dataOffset + t) 0 =
        if isNulled L K buf i then 255 else buf.getD (nodeOffset L i + L.dataOffset + t) 0 := by
      intro t ht
      have hin : inData L i (nodeOffset L i + L.dataOffset + t) := by
        unfold inData; omega
      rw [hget]
      by_cases hn : isNulled L K buf i
      · rw [if_pos ⟨i, hi, hn, hin⟩, if_pos hn]
      · rw [if_neg, if_neg (by omega), if_neg hn]
        rintro ⟨m, _, hm, hd⟩
        have := inData_unique hL hd hin
        subst this
        exact hn hm
    unfold nodeData bytesAt
    by_cases hn : isNulled L K buf i
    · rw [if_pos hn]
      simp only [List.range_succ, List.range_zero, List.nil_append, List.map_append,
        List.map_cons, List.map_nil, List.cons_append, nullTagId]
      rw [hbytes 0 (by omega), hbytes 1 (by omega), hbytes 2 (by omega), hbytes 3 (by omega)]
      simp only [if_pos hn]
    · rw [if_neg hn]
      apply List.map_congr_left
      intro t ht
      rw [hbytes t (List.mem_range.mp ht), if_neg hn]
  · refine ⟨buf, postprocess_short L K buf (by omega), ?_⟩
    intro i hi
    rw [elementCount_short L buf (by omega)] at hi
    omega

theorem hekLayout_wellFormed : hekLayout.WellFormed := by
  constructor <;> decide

/-- C10 (witness): in the example table of three nodes (a sound node flagged global, an effect
node without flags, a node of an unrecognized type) only the data of the effect node becomes
the null tag id. -/
theorem postprocess_example_table :
    hekLayout.WellFormed ∧ elementCount hekLayout exampleTable = 3 ∧
    ∃ out, postprocess_hek_data hekLayout hekConstants exampleTable = .ok out ∧
      nodeData hekLayout out 0 = [0, 1, 0, 2] ∧ nodeData hekLayout out 1 = nullTagId ∧
      nodeData hekLayout out 2 = [0, 5, 0, 6] := by
  obtain ⟨out, ho, h⟩ := postprocess_nulls_unflagged_references hekLayout hekConstants
    exampleTable hekLayout_wellFormed
  refine ⟨hekLayout_wellFormed, by decide, out, ho, ?_, ?_, ?_⟩
  · rw [h 0 (by decide)]; decide
  · rw [h 1 (by decide)]; decide
  · rw [h 2 (by decide)]; decide

/-! ## Settled claims: the header of the node table -/

/-- C11: for every script syntax buffer at least as large as the node table header,
`postprocess_hek_data` succeeds and leaves a buffer in which the four bytes of the member
`first_element_ptr` are zero, every other byte of the header is unchanged, and so the member
`size` (the node count) reads as before. -/
theorem postprocess_zeroes_first_element_ptr (L : Layout) (K : Constants) (buf : List Nat)
    (hL : L.WellFormed) (hlen : L.tableSize ≤ buf.length) :
    ∃ out, postprocess_hek_data L K buf = .ok out ∧
      bytesAt out L.firstElementPtrOffset 4 = [0, 0, 0, 0] ∧
      (∀ k, k < L.tableSize →
        ¬ (L.firstElementPtrOffset ≤ k ∧ k < L.firstElementPtrOffset + 4) →
        out.getD k 0 = buf.getD k 0) ∧
      be16At out L.sizeOffset = be16At buf L.sizeOffset := by
  obtain ⟨out, ho, _, hget⟩ := postprocess_spec hL K buf hlen
  have hp := hL.ptr_in
  have hs := hL.size_in
  have hsp := hL.size_ptr
  have hhead : ∀ k, k < L.tableSize → ¬ ∃ m, m < elementCount L buf ∧ isNulled L K buf m ∧
      inData L m k := by
    rintro k hk ⟨m, _, _, hd⟩
    have := nodeOffset_ge L m
    unfold inData at hd
    omega
  have hkeep : ∀ k, k < L.tableSize →
      ¬ (L.firstElementPtrOffset ≤ k ∧ k < L.firstElementPtrOffset + 4) →
      out.getD k 0 = buf.getD k 0 := by
    intro k hk hnot
    rw [hget, if_neg (hhead k hk), if_neg hnot]
  refine ⟨out, ho, ?_, hkeep, ?_⟩
  · have hz : ∀ t, t < 4 → out.getD (L.firstElementPtrOffset + t) 0 = 0 := by
      intro t ht
      rw [hget, if_neg (hhead _ (by omega)), if_pos (by omega)]
    unfold bytesAt
    simp only [List.range_succ, List.range_zero, List.nil_append, List.map_append,
      List.map_cons, List.map_nil, List.cons_append]
    rw [hz 0 (by omega), hz 1 (by omega), hz 2 (by omega), hz 3 (by omega)]
  · exact be16At_congr (hkeep _ (by omega) (by omega)) (hkeep _ (by omega) (by omega))

/-- C11 (witness): in the example table the member `first_element_ptr` holds the bytes
64, 68, 11, 220 before the call and zeros after it, and the rest of the header is kept. -/
theorem postprocess_zeroes_first_element_ptr_witness :
    bytesAt exampleTable hekLayout.firstElementPtrOffset 4 = [64, 68, 11, 220] ∧
    ∃ out, postprocess_hek_data hekLayout hekConstants exampleTable = .ok out ∧
      bytesAt out hekLayout.firstElementPtrOffset 4 = [0, 0, 0, 0] ∧
      (∀ k, k < hekLayout.tableSize →
        ¬ (hekLayout.firstElementPtrOffset ≤ k ∧ k < hekLayout.firstElementPtrOffset + 4) →
        out.getD k 0 = exampleTable.getD k 0) ∧
      be16At out hekLayout.sizeOffset = be16At exampleTable hekLayout.sizeOffset :=
  ⟨by decide, postprocess_zeroes_first_element_ptr hekLayout hekConstants exampleTable
    hekLayout_wellFormed (by decide)⟩

/-! ## The effect hook: heaps that differ in what the loops change -/

theorem similar_refl {R : Type} (a : List (StructData R)) : Similar a a := rfl

theorem similar_symm {R : Type} {a b : List (StructData R)} (h : Similar a b) : Similar b a :=
  Eq.symm h

theorem similar_trans {R : Type} {a b c : List (StructData R)} (h1 : Similar a b)
    (h2 : Similar b c) : Similar a c :=
  Eq.trans h1 h2

theorem similar_getElem? {R : Type} {a b : List (StructData R)} (h : Similar a b) (i : Nat) :
    (a[i]?).map eraseStruct = (b[i]?).map eraseStruct := by
  have := congrArg (fun l => l[i]?) h
  simpa [List.getElem?_map] using this

theorem similar_set {R : Type} {a b : List (StructData R)} (h : Similar a b) (i : Nat)
    (x y : StructData R) (hy : b[i]? = some y) (hxy : eraseStruct x = eraseStruct y) :
    Similar a (b.set i x) := by
  unfold Similar at *
  rw [h, List.map_set, hxy]
  apply List.ext_getElem?
  intro n
  by_cases hn : i = n
  · subst hn
    have hlt : i < b.length := by
      rcases Nat.lt_or_ge i b.length with h1 | h1
      · exact h1
      · rw [List.getElem?_eq_none h1] at hy; cases hy
    rw [List.getElem?_set_self (by simpa using hlt), List.getElem?_map, hy]
    rfl
  · rw [List.getElem?_set_ne hn]

theorem eraseStruct_eq_effect {R : Type} {x : StructData R} {o : Nat} {e : EffectData R}
    (h : eraseStruct x = .effect o e) :
    ∃ e0, x = .effect o e0 ∧ e0.flags = e.flags ∧ e0.events_count = e.events_count ∧
      e0.events_pointer = e.events_pointer := by
  cases x with
  | effect o0 e0 =>
    simp only [eraseStruct, StructData.effect.injEq] at h
    obtain ⟨h1, h2⟩ := h
    subst h1
    refine ⟨e0, rfl, ?_, ?_, ?_⟩ <;> rw [← h2]
  | events l => simp [eraseStruct] at h
  | parts l => simp [eraseStruct] at h
  | damage_effect r => simp [eraseStruct] at h
  | other => simp [eraseStruct] at h

theorem eraseStruct_eq_parts {R : Type} {x : StructData R} {m : List EffectPart}
    (h : eraseStruct x = .parts m) :
    ∃ l, x = .parts l ∧ l.map (fun part => { part with type_class := 0 }) = m := by
  cases x with
  | effect o0 e0 => simp [eraseStruct] at h
  | events l => simp [eraseStruct] at h
  | parts l =>
    simp only [eraseStruct, StructData.parts.injEq] at h
    exact ⟨l, rfl, h⟩
  | damage_effect r => simp [eraseStruct] at h
  | other => simp [eraseStruct] at h

theorem eraseStruct_eq_events {R : Type} {x : StructData R} {l : List EffectEvent}
    (h : eraseStruct x = .events l) : x = .events l := by
  cases x <;> simp_all [eraseStruct]

theorem eraseStruct_eq_damage {R : Type} {x : StructData R} {r : FloatValue R}
    (h : eraseStruct x = .damage_effect r) : x = .damage_effect r := by
  cases x <;> simp_all [eraseStruct]

theorem getEvents_ok {R : Type} {a : List (StructData R)} {i : Nat} {l : List EffectEvent} :
    getEvents a i = .ok l ↔ a[i]? = some (.events l) := by
  unfold getEvents
  cases h : a[i]? with
  | none => simp
  | some x => cases x <;> simp

theorem getParts_ok {R : Type} {a : List (StructData R)} {i : Nat} {l : List EffectPart} :
    getParts a i = .ok l ↔ a[i]? = some (.parts l) := by
  unfold getParts
  cases h : a[i]? with
  | none => simp
  | some x => cases x <;> simp

theorem getDamageRadius_ok {R : Type} {a : List (StructData R)} {i : Nat} {r : FloatValue R} :
    getDamageRadius a i = .ok r ↔ a[i]? = some (.damage_effect r) := by
  unfold getDamageRadius
  cases h : a[i]? with
  | none => simp
  | some x => cases x <;> simp

theorem getEffect_ok {R : Type} {a : List (StructData R)} {i o : Nat} {e : EffectData R} :
    getEffect a i o = .ok e ↔ a[i]? = some (.effect o e) := by
  unfold getEffect
  cases h : a[i]? with
  | none => simp
  | some x =>
    cases x with
    | effect o0 e0 =>
      by_cases ho : o0 = o
      · subst ho; simp
      · simp [ho]
    | events l => simp
    | parts l => simp
    | damage_effect r => simp
    | other => simp

theorem similar_getEvents {R : Type} {a b : List (StructData R)} (h : Similar a b) {i : Nat}
    {l : List EffectEvent} (hl : getEvents a i = .ok l) : getEvents b i = .ok l := by
  rw [getEvents_ok] at *
  have hs := similar_getElem? h i
  rw [hl] at hs
  cases hb : b[i]? with
  | none => rw [hb] at hs; cases hs
  | some y =>
    rw [hb] at hs
    simp only [Option.map_some', Option.some.injEq, eraseStruct] at hs
    rw [eraseStruct_eq_events hs.symm]

theorem similar_getDamageRadius {R : Type} {a b : List (StructData R)} (h : Similar a b)
    {i : Nat} {r : FloatValue R} (hl : getDamageRadius a i = .ok r) :
    getDamageRadius b i = .ok r := by
  rw [getDamageRadius_ok] at *
  have hs := similar_getElem? h i
  rw [hl] at hs
  cases hb : b[i]? with
  | none => rw [hb] at hs; cases hs
  | some y =>
    rw [hb] at hs
    simp only [Option.map_some', Option.some.injEq, eraseStruct] at hs
    rw [eraseStruct_eq_damage hs.symm]

theorem similar_getEffect {R : Type} {a b : List (StructData R)} (h : Similar a b) {i o : Nat}
    {e : EffectData R} (hl : getEffect a i o = .ok e) :
    ∃ e1, getEffect b i o = .ok e1 ∧ e1.flags = e.flags ∧
      e1.events_count = e.events_count ∧ e1.events_pointer = e.events_pointer := by
  rw [getEffect_ok] at hl
  have hs := similar_getElem? h i
  rw [hl] at hs
  cases hb : b[i]? with
  | none => rw [hb] at hs; cases hs
  | some y =>
    rw [hb] at hs
    simp only [Option.map_some', Option.some.injEq, eraseStruct] at hs
    obtain ⟨e1, h1, h2, h3, h4⟩ := eraseStruct_eq_effect hs.symm
    refine ⟨e1, ?_, h2, h3, h4⟩
    rw [getEffect_ok, hb, h1]

theorem similar_partIn {R : Type} {a b : List (StructData R)} (h : Similar a b) {i p : Nat}
    {part : EffectPart} (hp : PartIn a i p part) :
    ∃ part1, PartIn b i p part1 ∧ part1.type_tag_fourcc = part.type_tag_fourcc ∧
      part1.type_tag_id = part.type_tag_id := by
  obtain ⟨parts, hl, hpart⟩ := hp
  rw [getParts_ok] at hl
  have hs := similar_getElem? h i
  rw [hl] at hs
  cases hb : b[i]? with
  | none => rw [hb] at hs; cases hs
  | some y =>
    rw [hb] at hs
    simp only [Option.map_some', Option.some.injEq, eraseStruct] at hs
    obtain ⟨l1, h1, h2⟩ := eraseStruct_eq_parts hs.symm
    have h3 := congrArg (fun l => l[p]?) h2
    simp only [List.getElem?_map, hpart, Option.map_some'] at h3
    cases hp1 : l1[p]? with
    | none => rw [hp1] at h3; cases h3
    | some part1 =>
      rw [hp1] at h3
      simp only [Option.map_some', Option.some.injEq, EffectPart.mk.injEq] at h3
      exact ⟨part1, ⟨l1, by rw [getParts_ok, hb, h1], hp1⟩, h3.1, h3.2.1⟩

/-! ## The effect hook: one part -/

theorem similar_setTypeClass {R : Type} (a : List (StructData R)) (i p : Nat)
    (parts : List EffectPart) (part : EffectPart) (v : Nat)
    (hl : getParts a i = .ok parts) (hp : parts[p]? = some part) :
    Similar a (setTypeClass a i p parts part v) := by
  rw [getParts_ok] at hl
  apply similar_set (similar_refl a) i _ _ hl
  simp only [eraseStruct, StructData.parts.injEq]
  apply List.ext_getElem?
  intro n
  simp only [List.getElem?_map]
  by_cases hn : p = n
  · subst hn
    have hlt : p < parts.length := by
      rcases Nat.lt_or_ge p parts.length with h1 | h1
      · exact h1
      · rw [List.getElem?_eq_none h1] at hp; cases hp
    rw [List.getElem?_set_self hlt, hp]
    rfl
  · rw [List.getElem?_set_ne hn]

theorem getEffect_set_of_not_effect {R : Type} (a : List (StructData R)) (i : Nat)
    (x y : StructData R) (ha : a[i]? = some y) (hx : ∀ o e, x ≠ .effect o e)
    (hy : ∀ o e, y ≠ .effect o e) (si so : Nat) :
    getEffect (a.set i x) si so = getEffect a si so := by
  have hlt : i < a.length := by
    rcases Nat.lt_or_ge i a.length with h1 | h1
    · exact h1
    · rw [List.getElem?_eq_none h1] at ha; cases ha
  unfold getEffect
  by_cases hi : i = si
  · subst hi
    rw [List.getElem?_set_self hlt, ha]
    cases x with
    | effect o e => exact absurd rfl (hx o e)
    | events l => cases y <;> first | rfl | exact absurd rfl (hy _ _)
    | parts l => cases y <;> first | rfl | exact absurd rfl (hy _ _)
    | damage_effect r => cases y <;> first | rfl | exact absurd rfl (hy _ _)
    | other => cases y <;> first | rfl | exact absurd rfl (hy _ _)
  · rw [List.getElem?_set_ne hi]

theorem getEffect_setTypeClass {R : Type} (a : List (StructData R)) (i p : Nat)
    (parts : List EffectPart) (part : EffectPart) (v : Nat)
    (hl : getParts a i = .ok parts) (si so : Nat) :
    getEffect (setTypeClass a i p parts part v) si so = getEffect a si so := by
  rw [getParts_ok] at hl
  exact getEffect_set_of_not_effect a i _ _ hl (by intro o e h; cases h)
    (by intro o e h; cases h) si so

theorem getEffect_set_self {R : Type} (a : List (StructData R)) (si so : Nat)
    (e e1 : EffectData R) (h : getEffect a si so = .ok e) :
    getEffect (a.set si (.effect so e1)) si so = .ok e1 := by
  rw [getEffect_ok] at h
  have hlt : si < a.length := by
    rcases Nat.lt_or_ge si a.length with h1 | h1
    · exact h1
    · rw [List.getElem?_eq_none h1] at h; cases h
  rw [getEffect_ok, List.getElem?_set_self hlt]

theorem hasRadius_similar {R : Type} {a b : List (StructData R)} (h : Similar a b)
    (tags : List BuildWorkloadTag) (part : EffectPart) (r : FloatValue R)
    (hr : HasRadius a tags part r) : HasRadius b tags part r := by
  obtain ⟨bs, h1, h2⟩ := hr
  exact ⟨bs, h1, similar_getDamageRadius h h2⟩

/-- What lines 46-52 do to the heap: the effect's radius becomes the greater of itself and
the radius of the damage effect, nothing else changes. -/
theorem raiseRadius_spec {R : Type} [LinearOrder R] {tags : List BuildWorkloadTag}
    {si so : Nat} {part_id : TagID} {st st1 : HookState R}
    (h : raiseRadius tags si so part_id st = .ok st1) :
    ∃ b r e, baseStructOf tags part_id = .ok b ∧ getDamageRadius st.structs b = .ok r ∧
      getEffect st.structs si so = .ok e ∧
      st1.must_be_deterministic = st.must_be_deterministic ∧
      Similar st.structs st1.structs ∧
      getEffect st1.structs si so =
        .ok { e with maximum_damage_radius := raisedTo r e.maximum_damage_radius } := by
  unfold raiseRadius at h
  cases hb : baseStructOf tags part_id with
  | error err => rw [hb] at h; cases h
  | ok b =>
    rw [hb] at h
    simp only at h
    cases hr : getDamageRadius st.structs b with
    | error err => rw [hr] at h; cases h
    | ok r =>
      rw [hr] at h
      simp only at h
      cases he : getEffect st.structs si so with
      | error err => rw [he] at h; cases h
      | ok e =>
        rw [he] at h
        simp only at h
        refine ⟨b, r, e, rfl, hr, rfl, ?_⟩
        by_cases hgt : r.gt e.maximum_damage_radius = true
        · rw [if_pos hgt] at h
          injection h with h
          subst h
          unfold raisedTo
          rw [if_pos hgt]
          refine ⟨rfl, ?_, getEffect_set_self _ _ _ _ _ he⟩
          exact similar_set (similar_refl _) si _ _ (getEffect_ok.mp he) rfl
        · rw [if_neg hgt] at h
          injection h with h
          subst h
          unfold raisedTo
          rw [if_neg hgt]
          exact ⟨rfl, similar_refl _, he⟩

/-- What the loop body does for one part. -/
theorem processPart_spec {R : Type} [LinearOrder R] {K : EffectConstants}
    {tags : List BuildWorkloadTag} {si so pi p : Nat} {st st1 : HookState R}
    (h : processPart K tags si so pi p st = .ok st1) :
    ∃ part, PartIn st.structs pi p part ∧ Similar st.structs st1.structs ∧
      st1.must_be_deterministic = (st.must_be_deterministic ||
        (!part.type_tag_id.is_null && !K.IS_OBJECT_TAG part.type_tag_fourcc &&
          (part.type_tag_fourcc == K.TAG_FOURCC_DAMAGE_EFFECT ||
            part.type_tag_fourcc == K.TAG_FOURCC_LIGHT))) ∧
      (part.type_tag_id.is_null = true → st1 = st) ∧
      (part.type_tag_id.is_null = true ∨ K.IS_OBJECT_TAG part.type_tag_fourcc = true ∨
          part.type_tag_fourcc ≠ K.TAG_FOURCC_DAMAGE_EFFECT →
        getEffect st1.structs si so = getEffect st.structs si so) ∧
      (part.type_tag_id.is_null = false → K.IS_OBJECT_TAG part.type_tag_fourcc = false →
          part.type_tag_fourcc = K.TAG_FOURCC_DAMAGE_EFFECT →
        ∃ r e, HasRadius st.structs tags part r ∧ getEffect st.structs si so = .ok e ∧
          getEffect st1.structs si so =
            .ok { e with maximum_damage_radius := raisedTo r e.maximum_damage_radius }) := by
  unfold processPart at h
  cases hl : getParts st.structs pi with
  | error err => rw [hl] at h; cases h
  | ok parts =>
    rw [hl] at h
    simp only at h
    cases hp : parts[p]? with
    | none => rw [hp] at h; cases h
    | some part =>
      rw [hp] at h
      simp only at h
      refine ⟨part, ⟨parts, hl, hp⟩, ?_⟩
      by_cases hnull : part.type_tag_id.is_null = true
      · rw [if_pos hnull] at h
        injection h with h
        subst h
        refine ⟨similar_refl _, by simp [hnull], fun _ => rfl, fun _ => rfl, ?_⟩
        intro h0; rw [hnull] at h0; cases h0
      · rw [if_neg hnull] at h
        have hnull' : part.type_tag_id.is_null = false := by simpa using hnull
        by_cases hobj : K.IS_OBJECT_TAG part.type_tag_fourcc = true
        · rw [if_pos hobj] at h
          injection h with h
          subst h
          refine ⟨similar_setTypeClass _ _ _ _ _ _ hl hp, by simp [hobj],
            fun h0 => absurd h0 hnull, fun _ => getEffect_setTypeClass _ _ _ _ _ _ hl _ _, ?_⟩
          intro _ h0; rw [hobj] at h0; cases h0
        · rw [if_neg hobj] at h
          have hobj' : K.IS_OBJECT_TAG part.type_tag_fourcc = false := by simpa using hobj
          have hsim := similar_setTypeClass st.structs pi p parts part part.type_tag_fourcc hl hp
          have heff := getEffect_setTypeClass st.structs pi p parts part part.type_tag_fourcc
            hl si so
          by_cases hde : part.type_tag_fourcc = K.TAG_FOURCC_DAMAGE_EFFECT
          · simp only [if_pos hde] at h
            obtain ⟨b, r, e, h1, h2, h3, h4, h5, h6⟩ := raiseRadius_spec h
            simp only at h2 h3 h4 h5 h6
            rw [heff] at h3
            refine ⟨similar_trans hsim h5, ?_, fun h0 => absurd h0 hnull, ?_, ?_⟩
            · rw [h4]; simp [hnull', hobj']
            · rintro (h0 | h0 | h0)
              · exact absurd h0 hnull
              · exact absurd h0 hobj
              · exact absurd hde h0
            · intro _ _ _
              exact ⟨r, e, ⟨b, h1, similar_getDamageRadius (similar_symm hsim) h2⟩, h3, h6⟩
          · simp only [if_neg hde] at h
            injection h with h
            subst h
            refine ⟨hsim, by simp [hnull', hobj'], fun h0 => absurd h0 hnull, fun _ => heff, ?_⟩
            intro _ _ h0
            exact absurd h0 hde

/-! ## The effect hook: the loops -/

theorem partIn_unique {R : Type} {a : List (StructData R)} {i p : Nat} {x y : EffectPart}
    (hx : PartIn a i p x) (hy : PartIn a i p y) : x = y := by
  obtain ⟨l1, h1, h2⟩ := hx
  obtain ⟨l2, h3, h4⟩ := hy
  rw [h1] at h3
  injection h3 with h3
  subst h3
  rw [h2] at h4
  injection h4

theorem isEvent_unique {R : Type} {a : List (StructData R)} {si so e : Nat}
    {x y : EffectEvent} (hx : IsEvent a si so e x) (hy : IsEvent a si so e y) : x = y := by
  obtain ⟨f1, i1, l1, h1, _, h2, h3, h4⟩ := hx
  obtain ⟨f2, i2, l2, h5, _, h6, h7, h8⟩ := hy
  rw [h1] at h5
  injection h5 with h5
  subst h5
  rw [h2] at h6
  injection h6 with h6
  subst h6
  rw [h3] at h7
  injection h7 with h7
  subst h7
  rw [h4] at h8
  injection h8

theorem isPart_unique {R : Type} {a : List (StructData R)} {si so e p i j : Nat}
    {x y : EffectPart} (hx : IsPart a si so e p i x) (hy : IsPart a si so e p j y) :
    i = j ∧ x = y := by
  obtain ⟨v1, h1, _, h2, h3⟩ := hx
  obtain ⟨v2, h4, _, h5, h6⟩ := hy
  have := isEvent_unique h1 h4
  subst this
  rw [h2] at h5
  injection h5 with h5
  subst h5
  exact ⟨rfl, partIn_unique h3 h6⟩

theorem before_succ (e p e1 p1 : Nat) :
    Before e (p + 1) e1 p1 ↔ Before e p e1 p1 ∨ (e1 = e ∧ p1 = p) := by
  unfold Before
  omega

theorem before_next_event (e n e1 p1 : Nat) (h : e1 = e → p1 < n) :
    Before (e + 1) 0 e1 p1 ↔ Before e n e1 p1 := by
  unfold Before
  omega

/-- The rule of the loop over parts: what holds before the loop and is carried by each
iteration holds after it. -/
theorem partsLoop_rule {R : Type} [LinearOrder R] {K : EffectConstants}
    {tags : List BuildWorkloadTag} {si so pi : Nat} (I : Nat → HookState R → Prop)
    (n p0 : Nat) (st st1 : HookState R) (h0 : I p0 st)
    (hstep : ∀ p s s1, p0 ≤ p → p < p0 + n → I p s →
      processPart K tags si so pi p s = .ok s1 → I (p + 1) s1)
    (h : partsLoop K tags si so pi n p0 st = .ok st1) : I (p0 + n) st1 := by
  induction n generalizing p0 st with
  | zero =>
    simp only [partsLoop] at h
    injection h with h
    subst h
    exact h0
  | succ n ih =>
    simp only [partsLoop] at h
    cases hs : processPart K tags si so pi p0 st with
    | error err => rw [hs] at h; cases h
    | ok s1 =>
      rw [hs] at h
      simp only at h
      have h1 := hstep p0 st s1 (Nat.le_refl _) (by omega) h0 hs
      have := ih (p0 + 1) s1 h1 (fun p s s2 hp1 hp2 => hstep p s s2 (by omega) (by omega)) h
      rw [show p0 + (n + 1) = p0 + 1 + n by omega]
      exact this

/-- The rule of the loop over events. -/
theorem eventsLoop_rule {R : Type} [LinearOrder R] {K : EffectConstants}
    {tags : List BuildWorkloadTag} {si so ei : Nat} (I : Nat → HookState R → Prop)
    (n e0 : Nat) (st st1 : HookState R) (h0 : I e0 st)
    (hstep : ∀ e s s1, e0 ≤ e → e < e0 + n → I e s →
      processEvent K tags si so ei e s = .ok s1 → I (e + 1) s1)
    (h : eventsLoop K tags si so ei n e0 st = .ok st1) : I (e0 + n) st1 := by
  induction n generalizing e0 st with
  | zero =>
    simp only [eventsLoop] at h
    injection h with h
    subst h
    exact h0
  | succ n ih =>
    simp only [eventsLoop] at h
    cases hs : processEvent K tags si so ei e0 st with
    | error err => rw [hs] at h; cases h
    | ok s1 =>
      rw [hs] at h
      simp only at h
      have h1 := hstep e0 st s1 (Nat.le_refl _) (by omega) h0 hs
      have := ih (e0 + 1) s1 h1 (fun e s s2 hp1 hp2 => hstep e s s2 (by omega) (by omega)) h
      rw [show e0 + (n + 1) = e0 + 1 + n by omega]
      exact this

theorem hasRadius_of_id {R : Type} {a : List (StructData R)} {tags : List BuildWorkloadTag}
    {x y : EffectPart} {r : FloatValue R} (hid : x.type_tag_id = y.type_tag_id)
    (h : HasRadius a tags x r) : HasRadius a tags y r := by
  obtain ⟨b, h1, h2⟩ := h
  exact ⟨b, hid ▸ h1, h2⟩

theorem hasRadius_unique {R : Type} {a : List (StructData R)} {tags : List BuildWorkloadTag}
    {x : EffectPart} {r1 r2 : FloatValue R} (h1 : HasRadius a tags x r1)
    (h2 : HasRadius a tags x r2) : r1 = r2 := by
  obtain ⟨b1, h3, h4⟩ := h1
  obtain ⟨b2, h5, h6⟩ := h2
  rw [h3] at h5
  injection h5 with h5
  subst h5
  rw [h4] at h6
  injection h6

theorem raisedTo_num {R : Type} [LinearOrder R] (x m : R) :
    raisedTo (FloatValue.num x) (FloatValue.num m) = FloatValue.num (max m x) := by
  unfold raisedTo FloatValue.gt
  by_cases h : m < x
  · simp [h, max_eq_right (le_of_lt h)]
  · simp [h, max_eq_left (not_lt.mp h)]

/-! ## The effect hook: parts with a null tag id are left alone -/

theorem partIn_set_effect {R : Type} {a : List (StructData R)} {si so i q : Nat}
    {e e1 : EffectData R} {x : EffectPart} (he : getEffect a si so = .ok e)
    (hx : PartIn a i q x) : PartIn (a.set si (.effect so e1)) i q x := by
  obtain ⟨l, hl, hq⟩ := hx
  rw [getParts_ok] at hl
  rw [getEffect_ok] at he
  have hne : si ≠ i := by
    intro h0
    subst h0
    rw [he] at hl
    cases hl
  exact ⟨l, by rw [getParts_ok, List.getElem?_set_ne hne]; exact hl, hq⟩

theorem partIn_setTypeClass {R : Type} {a : List (StructData R)} {pi p i q : Nat}
    {parts : List EffectPart} {part x : EffectPart} (v : Nat)
    (hl : getParts a pi = .ok parts) (hp : parts[p]? = some part)
    (hnn : part.type_tag_id.is_null = false) (hx : PartIn a i q x)
    (hnull : x.type_tag_id.is_null = true) : PartIn (setTypeClass a pi p parts part v) i q x := by
  obtain ⟨l, hxl, hq⟩ := hx
  unfold setTypeClass
  by_cases hi : pi = i
  · subst hi
    rw [hl] at hxl
    injection hxl with hxl
    subst hxl
    have hqp : p ≠ q := by
      intro h0
      subst h0
      rw [hp] at hq
      injection hq with hq
      subst hq
      rw [hnull] at hnn
      cases hnn
    rw [getParts_ok] at hl
    have hlt : pi < a.length := by
      rcases Nat.lt_or_ge pi a.length with h1 | h1
      · exact h1
      · rw [List.getElem?_eq_none h1] at hl; cases hl
    refine ⟨_, by rw [getParts_ok, List.getElem?_set_self hlt], ?_⟩
    rw [List.getElem?_set_ne hqp]
    exact hq
  · rw [getParts_ok] at hxl
    exact ⟨l, by rw [getParts_ok, List.getElem?_set_ne hi]; exact hxl, hq⟩

theorem raiseRadius_keeps_parts {R : Type} [LinearOrder R] {tags : List BuildWorkloadTag}
    {si so i q : Nat} {part_id : TagID} {st st1 : HookState R} {x : EffectPart}
    (h : raiseRadius tags si so part_id st = .ok st1) (hx : PartIn st.structs i q x) :
    PartIn st1.structs i q x := by
  unfold raiseRadius at h
  cases hb : baseStructOf tags part_id with
  | error err => rw [hb] at h; cases h
  | ok b =>
    rw [hb] at h
    simp only at h
    cases hr : getDamageRadius st.structs b with
    | error err => rw [hr] at h; cases h
    | ok r =>
      rw [hr] at h
      simp only at h
      cases he : getEffect st.structs si so with
      | error err => rw [he] at h; cases h
      | ok e =>
        rw [he] at h
        simp only at h
        by_cases hgt : r.gt e.maximum_damage_radius = true
        · rw [if_pos hgt] at h
          injection h with h
          subst h
          exact partIn_set_effect he hx
        · rw [if_neg hgt] at h
          injection h with h
          subst h
          exact hx

/-- The loop body leaves every part with a null tag id as it is. -/
theorem processPart_keeps_null {R : Type} [LinearOrder R] {K : EffectConstants}
    {tags : List BuildWorkloadTag} {si so pi p i q : Nat} {st st1 : HookState R}
    {x : EffectPart} (h : processPart K tags si so pi p st = .ok st1)
    (hx : PartIn st.structs i q x) (hnull : x.type_tag_id.is_null = true) :
    PartIn st1.structs i q x := by
  unfold processPart at h
  cases hl : getParts st.structs pi with
  | error err => rw [hl] at h; cases h
  | ok parts =>
    rw [hl] at h
    simp only at h
    cases hp : parts[p]? with
    | none => rw [hp] at h; cases h
    | some part =>
      rw [hp] at h
      simp only at h
      by_cases hn : part.type_tag_id.is_null = true
      · rw [if_pos hn] at h
        injection h with h
        subst h
        exact hx
      · rw [if_neg hn] at h
        have hn1 : part.type_tag_id.is_null = false := by simpa using hn
        by_cases hobj : K.IS_OBJECT_TAG part.type_tag_fourcc = true
        · rw [if_pos hobj] at h
          injection h with h
          subst h
          exact partIn_setTypeClass _ hl hp hn1 hx hnull
        · rw [if_neg hobj] at h
          have hx1 := partIn_setTypeClass part.type_tag_fourcc hl hp hn1 hx hnull
          by_cases hde : part.type_tag_fourcc = K.TAG_FOURCC_DAMAGE_EFFECT
          · simp only [if_pos hde] at h
            exact raiseRadius_keeps_parts h hx1
          · simp only [if_neg hde] at h
            injection h with h
            subst h
            exact hx1

/-! ## The effect hook: the invariant is kept -/

/-- The invariant only depends on which parts count as visited. -/
theorem loopInv_congr {R : Type} [LinearOrder R] {K : EffectConstants}
    {S0 : List (StructData R)} {tags : List BuildWorkloadTag} {si so e p e2 p2 : Nat}
    {st : HookState R}
    (hb : ∀ e1 p1 pi part, IsPart S0 si so e1 p1 pi part →
      (Before e p e1 p1 ↔ Before e2 p2 e1 p1))
    (hI : LoopInv K S0 tags si so e p st) : LoopInv K S0 tags si so e2 p2 st := by
  refine ⟨hI.similar, hI.nulls, ?_, ?_, ?_⟩
  · intro hD hL
    rw [hI.det hD hL]
    constructor
    · rintro ⟨e1, p1, pi, part, h1, h2, h3⟩
      exact ⟨e1, p1, pi, part, (hb _ _ _ _ h2).mp h1, h2, h3⟩
    · rintro ⟨e1, p1, pi, part, h1, h2, h3⟩
      exact ⟨e1, p1, pi, part, (hb _ _ _ _ h2).mpr h1, h2, h3⟩
  · intro hD e1 p1 pi part h1 h2 h3
    exact hI.resolved hD e1 p1 pi part ((hb _ _ _ _ h2).mpr h1) h2 h3
  · intro hD m0 h0 hnum
    obtain ⟨eff, m, h1, h2, h3, h4, h5⟩ := hI.radius hD m0 h0 hnum
    refine ⟨eff, m, h1, h2, h3, ?_, ?_⟩
    · intro e1 p1 pi part x hbe hpart
      exact h4 e1 p1 pi part x ((hb _ _ _ _ hpart).mpr hbe) hpart
    · rcases h5 with h5 | ⟨e1, p1, pi, part, h6, h7, h8⟩
      · exact Or.inl h5
      · exact Or.inr ⟨e1, p1, pi, part, (hb _ _ _ _ h7).mp h6, h7, h8⟩

/-- The loop body for part `p` of event `e` carries the invariant to part `p + 1`. -/
theorem loopInv_part {R : Type} [LinearOrder R] {K : EffectConstants}
    {S0 : List (StructData R)} {tags : List BuildWorkloadTag} {si so e p pi : Nat}
    {event : EffectEvent} {st st1 : HookState R}
    (hev : IsEvent S0 si so e event) (hpi : event.parts_pointer = some pi)
    (hp : p < event.parts_count) (hI : LoopInv K S0 tags si so e p st)
    (h : processPart K tags si so pi p st = .ok st1) :
    LoopInv K S0 tags si so e (p + 1) st1 := by
  obtain ⟨part, hin, hsim, hmbd, _, hsame, hde⟩ := processPart_spec h
  obtain ⟨part0, hin0, hfc, hid⟩ := similar_partIn (similar_symm hI.similar) hin
  have hpart0 : IsPart S0 si so e p pi part0 := ⟨event, hev, hp, hpi, hin0⟩
  have hweak : ∀ e1 p1, Before e p e1 p1 → Before e (p + 1) e1 p1 :=
    fun e1 p1 hb => (before_succ e p e1 p1).mpr (Or.inl hb)
  have hhere : Before e (p + 1) e p := (before_succ e p e p).mpr (Or.inr ⟨rfl, rfl⟩)
  refine ⟨similar_trans hI.similar hsim, ?_, ?_, ?_, ?_⟩
  · intro i q x hx hnull
    exact processPart_keeps_null h (hI.nulls i q x hx hnull) hnull
  · intro hD hL
    rw [hmbd, Bool.or_eq_true, hI.det hD hL]
    constructor
    · rintro (⟨e1, p1, pi1, part1, h1, h2, h3⟩ | h1)
      · exact ⟨e1, p1, pi1, part1, hweak _ _ h1, h2, h3⟩
      · simp only [Bool.and_eq_true, Bool.not_eq_true', Bool.or_eq_true, beq_iff_eq] at h1
        refine ⟨e, p, pi, part0, hhere, hpart0, ?_, ?_⟩
        · rw [hid]; exact h1.1.1
        · rw [hfc]; exact h1.2
    · rintro ⟨e1, p1, pi1, part1, h1, h2, h3⟩
      rcases (before_succ e p e1 p1).mp h1 with h4 | ⟨h4, h5⟩
      · exact Or.inl ⟨e1, p1, pi1, part1, h4, h2, h3⟩
      · subst h4
        subst h5
        obtain ⟨h6, h7⟩ := isPart_unique h2 hpart0
        subst h6
        subst h7
        right
        simp only [Bool.and_eq_true, Bool.not_eq_true', Bool.or_eq_true, beq_iff_eq]
        rw [← hid, ← hfc]
        refine ⟨⟨h3.1, ?_⟩, h3.2⟩
        rcases h3.2 with h8 | h8
        · rw [h8]; exact hD
        · rw [h8]; exact hL
  · intro hD e1 p1 pi1 part1 h1 h2 h3
    rcases (before_succ e p e1 p1).mp h1 with h4 | ⟨h4, h5⟩
    · exact hI.resolved hD e1 p1 pi1 part1 h4 h2 h3
    · subst h4
      subst h5
      obtain ⟨h6, h7⟩ := isPart_unique h2 hpart0
      subst h6
      subst h7
      have hobj : K.IS_OBJECT_TAG part.type_tag_fourcc = false := by
        rw [← hfc, h3.2]; exact hD
      obtain ⟨r, e0, hr, _, _⟩ := hde (by rw [← hid]; exact h3.1) hobj (by rw [← hfc]; exact h3.2)
      exact ⟨r, hasRadius_of_id hid.symm
        (hasRadius_similar (similar_symm hI.similar) tags part r hr)⟩
  · intro hD m0 h0 hnum
    obtain ⟨eff, m, hget, hmax, hm0, hbound, hatt⟩ := hI.radius hD m0 h0 hnum
    by_cases hdp : IsDamagePart K part0
    · have hobj : K.IS_OBJECT_TAG part.type_tag_fourcc = false := by
        rw [← hfc, hdp.2]; exact hD
      obtain ⟨r, e0, hr, hget0, hget1⟩ :=
        hde (by rw [← hid]; exact hdp.1) hobj (by rw [← hfc]; exact hdp.2)
      rw [hget] at hget0
      injection hget0 with hget0
      subst hget0
      have hr0 : HasRadius S0 tags part0 r :=
        hasRadius_of_id hid.symm (hasRadius_similar (similar_symm hI.similar) tags part r hr)
      obtain ⟨x, hx⟩ := hnum e p pi part0 r hpart0 hdp hr0
      subst hx
      rw [hmax, raisedTo_num] at hget1
      refine ⟨_, max m x, hget1, rfl, le_trans hm0 (le_max_left m x), ?_, ?_⟩
      · intro e1 p1 pi1 part1 y h1 h2 h3 h4
        rcases (before_succ e p e1 p1).mp h1 with h5 | ⟨h5, h6⟩
        · exact le_trans (hbound e1 p1 pi1 part1 y h5 h2 h3 h4) (le_max_left m x)
        · subst h5
          subst h6
          obtain ⟨h7, h8⟩ := isPart_unique h2 hpart0
          subst h7
          subst h8
          have := hasRadius_unique h4 hr0
          injection this with this
          subst this
          exact le_max_right m y
      · rcases le_total m x with hle | hle
        · rw [max_eq_right hle]
          exact Or.inr ⟨e, p, pi, part0, hhere, hpart0, hdp, hr0⟩
        · rw [max_eq_left hle]
          rcases hatt with h1 | ⟨e1, p1, pi1, part1, h1, h2, h3, h4⟩
          · exact Or.inl h1
          · exact Or.inr ⟨e1, p1, pi1, part1, hweak _ _ h1, h2, h3, h4⟩
    · have hget1 : getEffect st1.structs si so = getEffect st.structs si so := by
        apply hsame
        by_cases hn : part.type_tag_id.is_null = true
        · exact Or.inl hn
        · right; right
          intro hfour
          apply hdp
          refine ⟨?_, ?_⟩
          · rw [hid]; simpa using hn
          · rw [hfc]; exact hfour
      refine ⟨eff, m, by rw [hget1]; exact hget, hmax, hm0, ?_, ?_⟩
      · intro e1 p1 pi1 part1 y h1 h2 h3 h4
        rcases (before_succ e p e1 p1).mp h1 with h5 | ⟨h5, h6⟩
        · exact hbound e1 p1 pi1 part1 y h5 h2 h3 h4
        · subst h5
          subst h6
          obtain ⟨h7, h8⟩ := isPart_unique h2 hpart0
          subst h7
          subst h8
          exact absurd h3 hdp
      · rcases hatt with h1 | ⟨e1, p1, pi1, part1, h1, h2, h3, h4⟩
        · exact Or.inl h1
        · exact Or.inr ⟨e1, p1, pi1, part1, hweak _ _ h1, h2, h3, h4⟩

/-- The loop body for event `e` carries the invariant to event `e + 1`. -/
theorem loopInv_event {R : Type} [LinearOrder R] {K : EffectConstants}
    {S0 : List (StructData R)} {tags : List BuildWorkloadTag} {si so e ei : Nat}
    {effect0 : EffectData R} {events : List EffectEvent} {st st1 : HookState R}
    (heff : getEffect S0 si so = .ok effect0) (hptr : effect0.events_pointer = some ei)
    (hevs : getEvents S0 ei = .ok events) (he : e < effect0.events_count)
    (hI : LoopInv K S0 tags si so e 0 st)
    (h : processEvent K tags si so ei e st = .ok st1) :
    LoopInv K S0 tags si so (e + 1) 0 st1 := by
  unfold processEvent at h
  rw [similar_getEvents hI.similar hevs] at h
  simp only at h
  cases hev : events[e]? with
  | none => rw [hev] at h; cases h
  | some event =>
    rw [hev] at h
    simp only at h
    have hevent : IsEvent S0 si so e event := ⟨effect0, ei, events, heff, he, hptr, hevs, hev⟩
    have hend : ∀ {s : HookState R}, LoopInv K S0 tags si so e event.parts_count s →
        LoopInv K S0 tags si so (e + 1) 0 s := by
      intro s hs
      refine loopInv_congr ?_ hs
      intro e1 p1 pi part hpart
      refine (before_next_event e event.parts_count e1 p1 ?_).symm
      intro h1
      subst h1
      obtain ⟨event1, h2, h3, _, _⟩ := hpart
      rw [isEvent_unique hevent h2]
      exact h3
    by_cases hc : event.parts_count ≠ 0
    · rw [if_pos hc] at h
      cases hpp : event.parts_pointer with
      | none => rw [hpp] at h; cases h
      | some pi =>
        rw [hpp] at h
        simp only [derefOptional] at h
        cases hgp : getParts st.structs pi with
        | error err => rw [hgp] at h; cases h
        | ok parts =>
          rw [hgp] at h
          simp only at h
          have := partsLoop_rule (fun p s => LoopInv K S0 tags si so e p s)
            event.parts_count 0 st st1 hI
            (fun p s s1 _ hlt hs hstep => loopInv_part hevent hpp (by omega) hs hstep) h
          rw [Nat.zero_add] at this
          exact hend this
    · rw [if_neg hc] at h
      injection h with h
      subst h
      have h0 : event.parts_count = 0 := by simpa using hc
      apply hend
      rw [h0]
      exact hI

/-- Before the loops start the invariant holds with no part visited. -/
theorem loopInv_init {R : Type} [LinearOrder R] (K : EffectConstants)
    (S0 : List (StructData R)) (tags : List BuildWorkloadTag) (si so : Nat) :
    LoopInv K S0 tags si so 0 0 { structs := S0, must_be_deterministic := false } := by
  have hno : ∀ e1 p1, ¬ Before 0 0 e1 p1 := by
    intro e1 p1 hb
    unfold Before at hb
    omega
  refine ⟨similar_refl _, fun _ _ _ hx _ => hx, ?_, ?_, ?_⟩
  · intro _ _
    constructor
    · intro h0; cases h0
    · rintro ⟨e1, p1, _, _, hb, _⟩
      exact absurd hb (hno e1 p1)
  · intro _ e1 p1 _ _ hb
    exact absurd hb (hno e1 p1)
  · rintro _ m0 ⟨eff0, h1, h2⟩ _
    refine ⟨eff0, m0, h1, h2, le_refl _, ?_, Or.inl rfl⟩
    intro e1 p1 _ _ _ hb
    exact absurd hb (hno e1 p1)

/-- What the two loops establish. For the workload `wl1` that `Effect::post_compile` leaves:
the loops ended in a state `st` that satisfies the invariant with every part visited, and
`wl1` is the workload with the heap of `st` in which the flags of the effect `eff` have been
updated. -/
theorem post_compile_spec {R : Type} [LinearOrder R] {K : EffectConstants}
    {wl wl1 : BuildWorkload R} {si so : Nat} (hrec : wl.disable_recursion = false)
    (h : post_compile K wl si so = .ok wl1) :
    ∃ n st eff, LoopInv K wl.structs wl.tags si so n 0 st ∧
      (∀ e p pi part, IsPart wl.structs si so e p pi part → Before n 0 e p) ∧
      getEffect st.structs si so = .ok eff ∧
      wl1 = storeFlags K wl si so st eff := by
  unfold post_compile at h
  rw [hrec] at h
  simp only [Bool.false_eq_true, if_false] at h
  cases heff : getEffect wl.structs si so with
  | error err => rw [heff] at h; cases h
  | ok effect0 =>
    rw [heff] at h
    simp only at h
    have hinit := loopInv_init K wl.structs wl.tags si so
    have hall : ∀ e p pi part, IsPart wl.structs si so e p pi part →
        Before effect0.events_count 0 e p := by
      rintro e p pi part ⟨event, ⟨eff1, _, _, h1, h2, _⟩, _⟩
      rw [heff] at h1
      injection h1 with h1
      subst h1
      exact Or.inl h2
    have hloop : ∃ st, LoopInv K wl.structs wl.tags si so effect0.events_count 0 st ∧
        (match getEffect st.structs si so with
          | .error e => (.error e : Except HookFault (BuildWorkload R))
          | .ok effect => .ok (storeFlags K wl si so st effect)) = .ok wl1 := by
      by_cases hc : effect0.events_count ≠ 0
      · rw [if_pos hc] at h
        cases hptr : effect0.events_pointer with
        | none => rw [hptr] at h; cases h
        | some ei =>
          rw [hptr] at h
          simp only [derefOptional] at h
          cases hevs : getEvents wl.structs ei with
          | error err => rw [hevs] at h; cases h
          | ok events =>
            rw [hevs] at h
            simp only at h
            cases hl : eventsLoop K wl.tags si so ei effect0.events_count 0
                { structs := wl.structs, must_be_deterministic := false } with
            | error err => rw [hl] at h; cases h
            | ok st =>
              rw [hl] at h
              simp only at h
              have := eventsLoop_rule (fun e s => LoopInv K wl.structs wl.tags si so e 0 s)
                effect0.events_count 0 _ st hinit
                (fun e s s1 _ hlt hs hstep =>
                  loopInv_event heff hptr hevs (by omega) hs hstep) hl
              rw [Nat.zero_add] at this
              exact ⟨st, this, h⟩
      · rw [if_neg hc] at h
        simp only at h
        have h0 : effect0.events_count = 0 := by simpa using hc
        rw [h0]
        exact ⟨_, hinit, h⟩
    obtain ⟨st, hI, hfin⟩ := hloop
    cases hget : getEffect st.structs si so with
    | error err => rw [hget] at hfin; cases hfin
    | ok eff =>
      rw [hget] at hfin
      simp only at hfin
      injection hfin with hfin
      exact ⟨effect0.events_count, st, eff, hI, hall, hget, hfin.symm⟩

/-! ## The effect hook: the flags -/

theorem testBit_complement32 (mask i : Nat) :
    (complement32 mask).testBit i = (decide (i < 32) && !mask.testBit i) := by
  unfold complement32
  rw [show (0xFFFFFFFF : Nat) = 2 ^ 32 - 1 by norm_num, Nat.testBit_xor,
    Nat.testBit_two_pow_sub_one, Nat.testBit_mod_two_pow]
  cases decide (i < 32) <;> cases mask.testBit i <;> rfl

/-- After the update of lines 60-71 the deterministic bit of the target engine is set exactly
when determinism is required. -/
theorem updateFlags_bit (K : EffectConstants) (engine : CacheFileEngine)
    (must_be_deterministic : Bool) (flags : Nat)
    (hbit : deterministicBit K engine ≠ 0) :
    updateFlags K engine must_be_deterministic flags &&& deterministicBit K engine ≠ 0 ↔
      must_be_deterministic = true := by
  have hsub : ∀ i, (deterministicBit K engine).testBit i = true →
      (K.EFFECT_FLAGS_FLAG_MUST_BE_DETERMINISTIC |||
        K.EFFECT_FLAGS_FLAG_MUST_BE_DETERMINISTIC_XBOX).testBit i = true := by
    intro i hi
    rw [Nat.testBit_or, Bool.or_eq_true]
    unfold deterministicBit at hi
    split at hi
    · exact Or.inr hi
    · exact Or.inl hi
  unfold updateFlags
  cases must_be_deterministic with
  | true =>
    simp only [if_true, iff_true]
    have : (flags &&& complement32 (K.EFFECT_FLAGS_FLAG_MUST_BE_DETERMINISTIC |||
        K.EFFECT_FLAGS_FLAG_MUST_BE_DETERMINISTIC_XBOX) ||| deterministicBit K engine) &&&
        deterministicBit K engine = deterministicBit K engine := by
      apply Nat.eq_of_testBit_eq
      intro i
      rw [Nat.testBit_and, Nat.testBit_or]
      cases (deterministicBit K engine).testBit i <;> simp
    rw [this]
    exact hbit
  | false =>
    simp only [Bool.false_eq_true, if_false, iff_false, ne_eq, not_not]
    apply Nat.eq_of_testBit_eq
    intro i
    rw [Nat.testBit_and, Nat.testBit_and, testBit_complement32, Nat.zero_testBit]
    cases hb : (deterministicBit K engine).testBit i with
    | false => simp
    | true => rw [hsub i hb]; simp

/-! ## The effect hook: the examples -/

theorem exampleWorkload_parts {e p pi : Nat} {part : EffectPart}
    (h : IsPart exampleWorkload.structs 0 0 e p pi part) :
    e = 0 ∧ pi = 2 ∧ ((p = 0 ∧ part = exampleDamagePart) ∨ (p = 1 ∧ part = exampleSoundPart)) := by
  obtain ⟨event, ⟨eff, ei, events, h1, h2, h3, h4, h5⟩, h6, h7, parts, h8, h9⟩ := h
  have e1 : getEffect exampleWorkload.structs 0 0 = .ok exampleEffect := rfl
  rw [e1] at h1
  injection h1 with h1
  subst h1
  have h3 : 1 = ei := by simpa [exampleEffect] using h3
  subst h3
  have e2 : getEvents exampleWorkload.structs 1 = .ok [exampleEvent] := rfl
  rw [e2] at h4
  injection h4 with h4
  subst h4
  have he : e = 0 := by
    have : e < 1 := h2
    omega
  subst he
  simp only [List.getElem?_cons_zero, Option.some.injEq] at h5
  subst h5
  have h7 : 2 = pi := by simpa [exampleEvent] using h7
  subst h7
  have e3 : getParts exampleWorkload.structs 2 =
      .ok [exampleDamagePart, exampleSoundPart] := rfl
  rw [e3] at h8
  injection h8 with h8
  subst h8
  refine ⟨rfl, rfl, ?_⟩
  have hp : p = 0 ∨ p = 1 := by
    have : p < 2 := h6
    omega
  rcases hp with hp | hp
  · subst hp
    simp only [List.getElem?_cons_zero, Option.some.injEq] at h9
    exact Or.inl ⟨rfl, h9.symm⟩
  · subst hp
    simp only [List.getElem?_cons_succ, List.getElem?_cons_zero, Option.some.injEq] at h9
    exact Or.inr ⟨rfl, h9.symm⟩

theorem exampleWorkload_radius {part : EffectPart} {r : FloatValue Int}
    (h1 : IsDamagePart exampleEffectConstants part)
    (h2 : part = exampleDamagePart ∨ part = exampleSoundPart)
    (h3 : HasRadius exampleWorkload.structs exampleWorkload.tags part r) : r = .num 10 := by
  rcases h2 with h2 | h2
  · subst h2
    obtain ⟨b, h4, h5⟩ := h3
    have e1 : baseStructOf exampleWorkload.tags exampleDamagePart.type_tag_id = .ok 3 := rfl
    rw [e1] at h4
    injection h4 with h4
    subst h4
    have e2 : getDamageRadius exampleWorkload.structs 3 = .ok (.num 10) := rfl
    rw [e2] at h5
    injection h5 with h5
    exact h5.symm
  · subst h2
    exact absurd h1.2 (by decide)

theorem exampleWorkload_nonneg (e p pi : Nat) (part : EffectPart) (r : FloatValue Int)
    (h1 : IsPart exampleWorkload.structs 0 0 e p pi part)
    (h2 : IsDamagePart exampleEffectConstants part)
    (h3 : HasRadius exampleWorkload.structs exampleWorkload.tags part r) :
    ∃ x, r = .num x ∧ 0 ≤ x := by
  refine ⟨10, exampleWorkload_radius h2 ?_ h3, by decide⟩
  obtain ⟨_, _, h4⟩ := exampleWorkload_parts h1
  rcases h4 with h4 | h4
  · exact Or.inl h4.2
  · exact Or.inr h4.2

theorem exampleWorkload_resolves :
    Resolves exampleEffectConstants exampleWorkload.structs exampleWorkload.tags 0 0 := by
  refine ⟨exampleEffect, rfl, fun _ => ⟨1, rfl, [exampleEvent], rfl, fun e he => ?_⟩⟩
  have he0 : e = 0 := by
    have : e < 1 := he
    omega
  subst he0
  refine ⟨exampleEvent, rfl, fun _ =>
    ⟨2, rfl, [exampleDamagePart, exampleSoundPart], rfl, fun p hp => ?_⟩⟩
  have hp01 : p = 0 ∨ p = 1 := by
    have : p < 2 := hp
    omega
  rcases hp01 with h | h
  · subst h
    exact ⟨exampleDamagePart, rfl, fun _ _ _ => ⟨.num 10, 3, rfl, rfl⟩⟩
  · subst h
    exact ⟨exampleSoundPart, rfl, fun _ _ h => absurd h (by decide)⟩

/-! ## The effect hook: which entries of the tag array are read -/

theorem processPart_tags_congr {R : Type} [LinearOrder R] {K : EffectConstants}
    (tags tags1 : List BuildWorkloadTag) {si so pi p : Nat} {st : HookState R}
    (h : ∀ part, PartIn st.structs pi p part → part.type_tag_id.is_null = false →
      tags1[part.type_tag_id.index]? = tags[part.type_tag_id.index]?) :
    processPart K tags1 si so pi p st = processPart K tags si so pi p st := by
  unfold processPart
  cases hl : getParts st.structs pi with
  | error err => rfl
  | ok parts =>
    simp only
    cases hp : parts[p]? with
    | none => rfl
    | some part =>
      simp only
      by_cases hn : part.type_tag_id.is_null = true
      · rw [if_pos hn, if_pos hn]
      · rw [if_neg hn, if_neg hn]
        by_cases hobj : K.IS_OBJECT_TAG part.type_tag_fourcc = true
        · rw [if_pos hobj, if_pos hobj]
        · rw [if_neg hobj, if_neg hobj]
          by_cases hde : part.type_tag_fourcc = K.TAG_FOURCC_DAMAGE_EFFECT
          · simp only [if_pos hde]
            unfold raiseRadius baseStructOf
            rw [h part ⟨parts, hl, hp⟩ (by simpa using hn)]
          · simp only [if_neg hde]

theorem partsLoop_tags_congr {R : Type} [LinearOrder R] {K : EffectConstants}
    {S0 : List (StructData R)} (tags tags1 : List BuildWorkloadTag) {si so pi : Nat}
    (n p0 : Nat) (st : HookState R) (hsim : Similar S0 st.structs)
    (h : ∀ p part, p0 ≤ p → p < p0 + n → PartIn S0 pi p part →
      part.type_tag_id.is_null = false →
      tags1[part.type_tag_id.index]? = tags[part.type_tag_id.index]?) :
    partsLoop K tags1 si so pi n p0 st = partsLoop K tags si so pi n p0 st := by
  induction n generalizing p0 st with
  | zero => rfl
  | succ n ih =>
    simp only [partsLoop]
    have hstep : processPart K tags1 si so pi p0 st = processPart K tags si so pi p0 st := by
      apply processPart_tags_congr
      intro part hin hnn
      obtain ⟨part0, h0, _, hid⟩ := similar_partIn (similar_symm hsim) hin
      rw [← hid]
      exact h p0 part0 (Nat.le_refl _) (by omega) h0 (by rw [hid]; exact hnn)
    rw [hstep]
    cases hs : processPart K tags si so pi p0 st with
    | error err => rfl
    | ok st1 =>
      simp only
      obtain ⟨_, _, hsim1, _⟩ := processPart_spec hs
      exact ih (p0 + 1) st1 (similar_trans hsim hsim1)
        (fun p part h1 h2 => h p part (by omega) (by omega))

theorem processEvent_tags_congr {R : Type} [LinearOrder R] {K : EffectConstants}
    {S0 : List (StructData R)} (tags tags1 : List BuildWorkloadTag) {si so e ei : Nat}
    {effect0 : EffectData R} {events : List EffectEvent} {st : HookState R}
    (heff : getEffect S0 si so = .ok effect0) (hptr : effect0.events_pointer = some ei)
    (hevs : getEvents S0 ei = .ok events) (he : e < effect0.events_count)
    (hsim : Similar S0 st.structs)
    (h : ∀ p pi part, IsPart S0 si so e p pi part → part.type_tag_id.is_null = false →
      tags1[part.type_tag_id.index]? = tags[part.type_tag_id.index]?) :
    processEvent K tags1 si so ei e st = processEvent K tags si so ei e st := by
  unfold processEvent
  rw [similar_getEvents hsim hevs]
  simp only
  cases hev : events[e]? with
  | none => rfl
  | some event =>
    simp only
    by_cases hc : event.parts_count ≠ 0
    · rw [if_pos hc, if_pos hc]
      cases hpp : event.parts_pointer with
      | none => rfl
      | some pi =>
        simp only [derefOptional]
        cases hgp : getParts st.structs pi with
        | error err => rfl
        | ok parts =>
          simp only
          apply partsLoop_tags_congr tags tags1 _ _ _ hsim
          intro p part _ hlt hin hnn
          exact h p pi part
            ⟨event, ⟨effect0, ei, events, heff, he, hptr, hevs, hev⟩, by omega, hpp, hin⟩ hnn
    · rw [if_neg hc, if_neg hc]

theorem eventsLoop_tags_congr {R : Type} [LinearOrder R] {K : EffectConstants}
    {S0 : List (StructData R)} (tags tags1 : List BuildWorkloadTag) {si so ei : Nat}
    {effect0 : EffectData R} {events : List EffectEvent}
    (heff : getEffect S0 si so = .ok effect0) (hptr : effect0.events_pointer = some ei)
    (hevs : getEvents S0 ei = .ok events)
    (n e0 : Nat) (st : HookState R) (hn : e0 + n ≤ effect0.events_count)
    (hI : LoopInv K S0 tags si so e0 0 st)
    (h : ∀ e p pi part, IsPart S0 si so e p pi part → part.type_tag_id.is_null = false →
      tags1[part.type_tag_id.index]? = tags[part.type_tag_id.index]?) :
    eventsLoop K tags1 si so ei n e0 st = eventsLoop K tags si so ei n e0 st := by
  induction n generalizing e0 st with
  | zero => rfl
  | succ n ih =>
    simp only [eventsLoop]
    rw [processEvent_tags_congr tags tags1 heff hptr hevs (by omega) hI.similar (h e0)]
    cases hs : processEvent K tags si so ei e0 st with
    | error err => rfl
    | ok st1 =>
      simp only
      exact ih (e0 + 1) st1 (by omega) (loopInv_event heff hptr hevs (by omega) hI hs)

/-- The hook reads the tag array only at the indices of parts whose tag id is not null: a
tag array that agrees with the workload's at those indices gives the same run. -/
theorem post_compile_tags_congr {R : Type} [LinearOrder R] {K : EffectConstants}
    {wl wl1 : BuildWorkload R} {si so : Nat} (tags1 : List BuildWorkloadTag)
    (h : post_compile K wl si so = .ok wl1)
    (hagree : ∀ e p pi part, IsPart wl.structs si so e p pi part →
      part.type_tag_id.is_null = false →
      tags1[part.type_tag_id.index]? = wl.tags[part.type_tag_id.index]?) :
    post_compile K { wl with tags := tags1 } si so = .ok { wl1 with tags := tags1 } := by
  unfold post_compile at h ⊢
  simp only at h ⊢
  by_cases hrec : wl.disable_recursion = true
  · rw [if_pos hrec] at h ⊢
    injection h with h
    subst h
    rfl
  · rw [if_neg hrec] at h ⊢
    cases heff : getEffect wl.structs si so with
    | error err => rw [heff] at h; cases h
    | ok effect0 =>
      rw [heff] at h
      simp only at h ⊢
      have hinit := loopInv_init K wl.structs wl.tags si so
      by_cases hc : effect0.events_count ≠ 0
      · rw [if_pos hc] at h ⊢
        cases hptr : effect0.events_pointer with
        | none => rw [hptr] at h; cases h
        | some ei =>
          rw [hptr] at h
          simp only [derefOptional] at h ⊢
          cases hevs : getEvents wl.structs ei with
          | error err => rw [hevs] at h; cases h
          | ok events =>
            rw [hevs] at h
            simp only at h ⊢
            rw [eventsLoop_tags_congr wl.tags tags1 heff hptr hevs _ 0 _ (by omega) hinit
              hagree]
            cases hl : eventsLoop K wl.tags si so ei effect0.events_count 0
                { structs := wl.structs, must_be_deterministic := false } with
            | error err => rw [hl] at h; cases h
            | ok st =>
              rw [hl] at h
              simp only at h ⊢
              cases hget : getEffect st.structs si so with
              | error err => rw [hget] at h; cases h
              | ok eff =>
                rw [hget] at h
                simp only at h ⊢
                injection h with h
                subst h
                rfl
      · rw [if_neg hc] at h ⊢
        simp only at h ⊢
        rw [heff] at h ⊢
        simp only at h ⊢
        injection h with h
        subst h
        rfl

/-! ## The effect hook: the hook returns when every reference resolves -/

theorem processPart_returns {R : Type} [LinearOrder R] {K : EffectConstants}
    {S0 : List (StructData R)} {tags : List BuildWorkloadTag} {si so pi p count : Nat}
    {eff0 : EffectData R} {st : HookState R} (heff : getEffect S0 si so = .ok eff0)
    (hres : PartsResolve K S0 tags pi count) (hp : p < count)
    (hsim : Similar S0 st.structs) :
    ∃ st1, processPart K tags si so pi p st = .ok st1 ∧ Similar S0 st1.structs := by
  obtain ⟨parts0, hgp, hall⟩ := hres
  obtain ⟨part0, hp0, hrad⟩ := hall p hp
  obtain ⟨part, ⟨parts, hl, hpart⟩, hfc, hid⟩ := similar_partIn hsim ⟨parts0, hgp, hp0⟩
  cases hrun : processPart K tags si so pi p st with
  | ok st1 =>
    obtain ⟨_, _, hsim1, _⟩ := processPart_spec hrun
    exact ⟨st1, rfl, similar_trans hsim hsim1⟩
  | error err =>
    exfalso
    unfold processPart at hrun
    rw [hl] at hrun
    simp only at hrun
    rw [hpart] at hrun
    simp only at hrun
    by_cases hn : part.type_tag_id.is_null = true
    · rw [if_pos hn] at hrun
      cases hrun
    · rw [if_neg hn] at hrun
      by_cases hobj : K.IS_OBJECT_TAG part.type_tag_fourcc = true
      · rw [if_pos hobj] at hrun
        cases hrun
      · rw [if_neg hobj] at hrun
        by_cases hde : part.type_tag_fourcc = K.TAG_FOURCC_DAMAGE_EFFECT
        · simp only [if_pos hde] at hrun
          have hsim1 := similar_trans hsim
            (similar_setTypeClass st.structs pi p parts part part.type_tag_fourcc hl hpart)
          obtain ⟨r, b, hb, hr⟩ := hrad (by rw [← hid]; simpa using hn)
            (by rw [← hfc]; simpa using hobj) (by rw [← hfc]; exact hde)
          obtain ⟨e1, he1, _⟩ := similar_getEffect hsim1 heff
          unfold raiseRadius at hrun
          rw [hid, hb] at hrun
          simp only at hrun
          rw [similar_getDamageRadius hsim1 hr] at hrun
          simp only at hrun
          rw [he1] at hrun
          simp only at hrun
          split at hrun <;> cases hrun
        · simp only [if_neg hde] at hrun
          cases hrun

theorem partsLoop_returns {R : Type} [LinearOrder R] {K : EffectConstants}
    {S0 : List (StructData R)} {tags : List BuildWorkloadTag} {si so pi count : Nat}
    {eff0 : EffectData R} (heff : getEffect S0 si so = .ok eff0)
    (hres : PartsResolve K S0 tags pi count) (n p0 : Nat) (st : HookState R)
    (hn : p0 + n ≤ count) (hsim : Similar S0 st.structs) :
    ∃ st1, partsLoop K tags si so pi n p0 st = .ok st1 ∧ Similar S0 st1.structs := by
  induction n generalizing p0 st with
  | zero => exact ⟨st, rfl, hsim⟩
  | succ n ih =>
    obtain ⟨s1, hs1, hsim1⟩ := @processPart_returns R _ K S0 tags si so pi p0 count eff0 st
      heff hres (by omega) hsim
    simp only [partsLoop, hs1]
    exact ih (p0 + 1) s1 (by omega) hsim1

theorem processEvent_returns {R : Type} [LinearOrder R] {K : EffectConstants}
    {S0 : List (StructData R)} {tags : List BuildWorkloadTag} {si so ei e count : Nat}
    {eff0 : EffectData R} {st : HookState R} (heff : getEffect S0 si so = .ok eff0)
    (hres : EventsResolve K S0 tags ei count) (he : e < count)
    (hsim : Similar S0 st.structs) :
    ∃ st1, processEvent K tags si so ei e st = .ok st1 ∧ Similar S0 st1.structs := by
  obtain ⟨events, hevs, hall⟩ := hres
  obtain ⟨event, hev, hparts⟩ := hall e he
  unfold processEvent
  rw [similar_getEvents hsim hevs]
  simp only
  rw [hev]
  simp only
  by_cases hc : event.parts_count ≠ 0
  · rw [if_pos hc]
    obtain ⟨pi, hpp, hpr⟩ := hparts hc
    obtain ⟨parts0, hgp, hall0⟩ := hpr
    obtain ⟨part0, hp0, _⟩ := hall0 0 (by omega)
    obtain ⟨_, ⟨parts, hl, _⟩, _⟩ := similar_partIn hsim ⟨parts0, hgp, hp0⟩
    rw [hpp]
    simp only [derefOptional]
    rw [hl]
    simp only
    exact partsLoop_returns heff ⟨parts0, hgp, hall0⟩ event.parts_count 0 st (by omega) hsim
  · rw [if_neg hc]
    exact ⟨st, rfl, hsim⟩

theorem eventsLoop_returns {R : Type} [LinearOrder R] {K : EffectConstants}
    {S0 : List (StructData R)} {tags : List BuildWorkloadTag} {si so ei count : Nat}
    {eff0 : EffectData R} (heff : getEffect S0 si so = .ok eff0)
    (hres : EventsResolve K S0 tags ei count) (n e0 : Nat) (st : HookState R)
    (hn : e0 + n ≤ count) (hsim : Similar S0 st.structs) :
    ∃ st1, eventsLoop K tags si so ei n e0 st = .ok st1 ∧ Similar S0 st1.structs := by
  induction n generalizing e0 st with
  | zero => exact ⟨st, rfl, hsim⟩
  | succ n ih =>
    obtain ⟨s1, hs1, hsim1⟩ := @processEvent_returns R _ K S0 tags si so ei e0 count eff0 st
      heff hres (by omega) hsim
    simp only [eventsLoop, hs1]
    exact ih (e0 + 1) s1 (by omega) hsim1

/-- The hook returns a workload whenever every reference it follows resolves. -/
theorem post_compile_returns {R : Type} [LinearOrder R] (K : EffectConstants)
    (wl : BuildWorkload R) (si so : Nat)
    (hres : Resolves K wl.structs wl.tags si so) :
    ∃ wl1, post_compile K wl si so = .ok wl1 := by
  obtain ⟨eff0, heff, hevents⟩ := hres
  unfold post_compile
  by_cases hrec : wl.disable_recursion = true
  · rw [if_pos hrec]
    exact ⟨wl, rfl⟩
  · rw [if_neg hrec, heff]
    simp only
    have hfin : ∀ st : HookState R, Similar wl.structs st.structs →
        ∃ wl1, (match getEffect st.structs si so with
          | .error e => (.error e : Except HookFault (BuildWorkload R))
          | .ok effect => .ok (storeFlags K wl si so st effect)) = .ok wl1 := by
      intro st hsim
      obtain ⟨e1, he1, _⟩ := similar_getEffect hsim heff
      rw [he1]
      exact ⟨_, rfl⟩
    by_cases hc : eff0.events_count ≠ 0
    · rw [if_pos hc]
      obtain ⟨ei, hptr, hev⟩ := hevents hc
      obtain ⟨st1, hs1, hsim1⟩ := eventsLoop_returns heff hev eff0.events_count 0
        { structs := wl.structs, must_be_deterministic := false } (by omega) (similar_refl _)
      obtain ⟨events, hevs, _⟩ := hev
      rw [hptr]
      simp only [derefOptional]
      rw [hevs]
      simp only
      rw [hs1]
      exact hfin st1 hsim1
    · rw [if_neg hc]
      exact hfin _ (similar_refl _)

/-! ## The effect hook: the claims -/

/-- C12: with recursion enabled, when damage effect and light are not object classes and the
deterministic bits are not zero, `Effect::post_compile` returns whenever every reference it
follows resolves, and in the workload it returns the effect has the deterministic bit of the
target engine set if and only if some part of some event of the effect has a tag id that is
not null and the class damage effect or light. -/
theorem effect_deterministic_iff_damage_or_light {R : Type} [LinearOrder R]
    (K : EffectConstants) (wl : BuildWorkload R) (si so : Nat)
    (hrec : wl.disable_recursion = false)
    (hD : K.IS_OBJECT_TAG K.TAG_FOURCC_DAMAGE_EFFECT = false)
    (hL : K.IS_OBJECT_TAG K.TAG_FOURCC_LIGHT = false)
    (hbit : K.EFFECT_FLAGS_FLAG_MUST_BE_DETERMINISTIC ≠ 0)
    (hbitx : K.EFFECT_FLAGS_FLAG_MUST_BE_DETERMINISTIC_XBOX ≠ 0) :
    (Resolves K wl.structs wl.tags si so → ∃ wl1, post_compile K wl si so = .ok wl1) ∧
    ∀ wl1, post_compile K wl si so = .ok wl1 →
      ∃ eff1, getEffect wl1.structs si so = .ok eff1 ∧
        (eff1.flags &&& deterministicBit K wl.build_cache_file_engine ≠ 0 ↔
          ∃ e p pi part, IsPart wl.structs si so e p pi part ∧
            part.type_tag_id.is_null = false ∧
            (part.type_tag_fourcc = K.TAG_FOURCC_DAMAGE_EFFECT ∨
              part.type_tag_fourcc = K.TAG_FOURCC_LIGHT)) := by
  refine ⟨post_compile_returns K wl si so, fun wl1 h => ?_⟩
  obtain ⟨n, st, eff, hI, hall, hget, hwl⟩ := post_compile_spec hrec h
  subst hwl
  refine ⟨_, getEffect_set_self _ _ _ _ _ hget, ?_⟩
  have hb : deterministicBit K wl.build_cache_file_engine ≠ 0 := by
    unfold deterministicBit
    split
    · exact hbitx
    · exact hbit
  simp only
  rw [updateFlags_bit K _ _ _ hb, hI.det hD hL]
  constructor
  · rintro ⟨e, p, pi, part, _, h2, h3⟩
    exact ⟨e, p, pi, part, h2, h3⟩
  · rintro ⟨e, p, pi, part, h2, h3⟩
    exact ⟨e, p, pi, part, hall e p pi part h2, h2, h3⟩

/-- C12 (witness): the example of the specification, an effect with a damage-effect part and
a sound part, built for Custom Edition (deterministic bit 4). -/
theorem effect_deterministic_iff_damage_or_light_witness :
    (∃ wl1, post_compile exampleEffectConstants exampleWorkload 0 0 = .ok wl1) ∧
    ∃ eff1, getEffect exampleResult.structs 0 0 = .ok eff1 ∧
      (eff1.flags &&& 4 ≠ 0 ↔
        ∃ e p pi part, IsPart exampleWorkload.structs 0 0 e p pi part ∧
          part.type_tag_id.is_null = false ∧
          (part.type_tag_fourcc = 0x6A707421 ∨ part.type_tag_fourcc = 0x6C696768)) :=
  ⟨(effect_deterministic_iff_damage_or_light exampleEffectConstants exampleWorkload 0 0
      rfl rfl rfl (by decide) (by decide)).1 exampleWorkload_resolves,
   (effect_deterministic_iff_damage_or_light exampleEffectConstants exampleWorkload 0 0
      rfl rfl rfl (by decide) (by decide)).2 exampleResult rfl⟩

/-- C13: with recursion enabled and damage effect not an object class, for an effect whose
`maximum_damage_radius` is initially 0 and whose parts refer only to damage effects with a
radius upper bound that is a number and not negative, `Effect::post_compile` returns whenever
every reference it follows resolves, and in the workload it returns the effect has as
`maximum_damage_radius` a number `m` that is at least the radius upper bound of every part
with a tag id that is not null and the class damage effect, and that is the radius upper
bound of such a part, or is 0 when there is no such part. -/
theorem effect_radius_is_maximum_over_damage_parts {R : Type} [LinearOrder R] [Zero R]
    (K : EffectConstants) (wl : BuildWorkload R) (si so : Nat) (eff0 : EffectData R)
    (hrec : wl.disable_recursion = false)
    (hD : K.IS_OBJECT_TAG K.TAG_FOURCC_DAMAGE_EFFECT = false)
    (heff0 : getEffect wl.structs si so = .ok eff0)
    (hzero : eff0.maximum_damage_radius = .num 0)
    (hnonneg : ∀ e p pi part r, IsPart wl.structs si so e p pi part → IsDamagePart K part →
      HasRadius wl.structs wl.tags part r → ∃ x, r = .num x ∧ 0 ≤ x) :
    (Resolves K wl.structs wl.tags si so → ∃ wl1, post_compile K wl si so = .ok wl1) ∧
    ∀ wl1, post_compile K wl si so = .ok wl1 →
      ∃ eff1 m, getEffect wl1.structs si so = .ok eff1 ∧
        eff1.maximum_damage_radius = .num m ∧
        (∀ e p pi part x, IsPart wl.structs si so e p pi part → IsDamagePart K part →
          HasRadius wl.structs wl.tags part (.num x) → x ≤ m) ∧
        ((∃ e p pi part, IsPart wl.structs si so e p pi part ∧ IsDamagePart K part ∧
            HasRadius wl.structs wl.tags part (.num m)) ∨
          (m = 0 ∧ ¬ ∃ e p pi part, IsPart wl.structs si so e p pi part ∧
            IsDamagePart K part)) := by
  refine ⟨post_compile_returns K wl si so, fun wl1 h => ?_⟩
  obtain ⟨n, st, eff, hI, hall, hget, hwl⟩ := post_compile_spec hrec h
  subst hwl
  obtain ⟨eff2, m, hget2, hmax, _, hbound, hatt⟩ := hI.radius hD 0 ⟨eff0, heff0, hzero⟩
    (fun e p pi part r h1 h2 h3 => by
      obtain ⟨x, hx, _⟩ := hnonneg e p pi part r h1 h2 h3
      exact ⟨x, hx⟩)
  rw [hget] at hget2
  injection hget2 with hget2
  subst hget2
  refine ⟨_, m, getEffect_set_self _ _ _ _ _ hget, hmax, ?_, ?_⟩
  · intro e p pi part x h1 h2 h3
    exact hbound e p pi part x (hall e p pi part h1) h1 h2 h3
  · rcases hatt with hm | ⟨e, p, pi, part, _, h2, h3, h4⟩
    · by_cases hex : ∃ e p pi part, IsPart wl.structs si so e p pi part ∧ IsDamagePart K part
      · obtain ⟨e, p, pi, part, h1, h2⟩ := hex
        obtain ⟨r, hr⟩ := hI.resolved hD e p pi part (hall e p pi part h1) h1 h2
        obtain ⟨x, hx, hx0⟩ := hnonneg e p pi part r h1 h2 hr
        subst hx
        have hxm := hbound e p pi part x (hall e p pi part h1) h1 h2 hr
        have : x = m := le_antisymm hxm (by rw [hm]; exact hx0)
        subst this
        exact Or.inl ⟨e, p, pi, part, h1, h2, hr⟩
      · exact Or.inr ⟨hm, hex⟩
    · exact Or.inl ⟨e, p, pi, part, h2, h3, h4⟩

/-- C13 (witness): in the example of the specification the damage effect has radius 10 and
the struct of the sound part holds 50; the radius of the effect becomes 10. -/
theorem effect_radius_is_maximum_over_damage_parts_witness :
    (∃ wl1, post_compile exampleEffectConstants exampleWorkload 0 0 = .ok wl1) ∧
    (getEffect exampleResult.structs 0 0).map (fun eff => eff.maximum_damage_radius) =
        .ok (.num 10) ∧
      ∃ eff1 m, getEffect exampleResult.structs 0 0 = .ok eff1 ∧
        eff1.maximum_damage_radius = .num m ∧
        (∀ e p pi part x, IsPart exampleWorkload.structs 0 0 e p pi part →
          IsDamagePart exampleEffectConstants part →
          HasRadius exampleWorkload.structs exampleWorkload.tags part (.num x) → x ≤ m) ∧
        ((∃ e p pi part, IsPart exampleWorkload.structs 0 0 e p pi part ∧
            IsDamagePart exampleEffectConstants part ∧
            HasRadius exampleWorkload.structs exampleWorkload.tags part (.num m)) ∨
          (m = 0 ∧ ¬ ∃ e p pi part, IsPart exampleWorkload.structs 0 0 e p pi part ∧
            IsDamagePart exampleEffectConstants part)) :=
  ⟨(effect_radius_is_maximum_over_damage_parts exampleEffectConstants exampleWorkload 0 0
      exampleEffect rfl rfl rfl rfl exampleWorkload_nonneg).1 exampleWorkload_resolves,
   rfl,
   (effect_radius_is_maximum_over_damage_parts exampleEffectConstants exampleWorkload 0 0
      exampleEffect rfl rfl rfl rfl exampleWorkload_nonneg).2 exampleResult rfl⟩

/-- C14: when `workload.disable_recursion` is true, `Effect::post_compile` returns at once
for every workload, struct index and offset: it does not fail and the workload it leaves is
the workload it was given. -/
theorem effect_hook_disabled_is_no_op {R : Type} [LinearOrder R] (K : EffectConstants)
    (wl : BuildWorkload R) (si so : Nat) (hrec : wl.disable_recursion = true) :
    post_compile K wl si so = .ok wl := by
  unfold post_compile
  rw [if_pos hrec]

/-- C14 (witness): with recursion disabled the hook returns the workload it was given even
when the heap is empty, so that not even the effect can be resolved. -/
theorem effect_hook_disabled_is_no_op_witness :
    post_compile exampleEffectConstants exampleBrokenWorkload 7 3 = .ok exampleBrokenWorkload ∧
      getEffect exampleBrokenWorkload.structs 7 3 = .error .outOfBounds :=
  ⟨effect_hook_disabled_is_no_op exampleEffectConstants exampleBrokenWorkload 7 3 rfl, rfl⟩

/-- C16: in a run of `Effect::post_compile`, a part of the effect whose tag id is null is
left as it is; the loop body for such a part returns the state unchanged whatever the tag
array holds (even nothing); and the run is the same for every tag array that agrees with
the workload's at the indices of the parts whose tag id is not null. -/
theorem effect_null_part_not_dereferenced {R : Type} [LinearOrder R] (K : EffectConstants)
    (wl wl1 : BuildWorkload R) (si so e p pi : Nat) (part : EffectPart)
    (h : post_compile K wl si so = .ok wl1)
    (hpart : IsPart wl.structs si so e p pi part)
    (hnull : part.type_tag_id.is_null = true) :
    PartIn wl1.structs pi p part ∧
      (∀ tags (st : HookState R), PartIn st.structs pi p part →
        processPart K tags si so pi p st = .ok st) ∧
      (∀ tags1 : List BuildWorkloadTag,
        (∀ e1 p1 pi1 part1, IsPart wl.structs si so e1 p1 pi1 part1 →
          part1.type_tag_id.is_null = false →
          tags1[part1.type_tag_id.index]? = wl.tags[part1.type_tag_id.index]?) →
        post_compile K { wl with tags := tags1 } si so = .ok { wl1 with tags := tags1 }) := by
  refine ⟨?_, ?_, fun tags1 hagree => post_compile_tags_congr tags1 h hagree⟩
  · obtain ⟨_, _, _, _, hin⟩ := hpart
    by_cases hrec : wl.disable_recursion = true
    · unfold post_compile at h
      rw [if_pos hrec] at h
      injection h with h
      subst h
      exact hin
    · obtain ⟨n, st, eff, hI, _, hget, hwl⟩ := post_compile_spec (by simpa using hrec) h
      subst hwl
      exact partIn_set_effect hget (hI.nulls pi p part hin hnull)
  · rintro tags st ⟨parts, hl, hp⟩
    unfold processPart
    rw [hl]
    simp only
    rw [hp]
    simp only
    rw [if_pos hnull]

/-- C16 (witness): an effect whose only part has a null tag id, in a workload with an empty
tag array. -/
theorem effect_null_part_not_dereferenced_witness :
    PartIn exampleNullResult.structs 2 0 exampleNullPart ∧
      (∀ tags (st : HookState Int), PartIn st.structs 2 0 exampleNullPart →
        processPart exampleEffectConstants tags 0 0 2 0 st = .ok st) ∧
      (∀ tags1 : List BuildWorkloadTag,
        (∀ e1 p1 pi1 part1, IsPart exampleNullWorkload.structs 0 0 e1 p1 pi1 part1 →
          part1.type_tag_id.is_null = false →
          tags1[part1.type_tag_id.index]? =
            exampleNullWorkload.tags[part1.type_tag_id.index]?) →
        post_compile exampleEffectConstants { exampleNullWorkload with tags := tags1 } 0 0 =
          .ok { exampleNullResult with tags := tags1 }) :=
  effect_null_part_not_dereferenced exampleEffectConstants exampleNullWorkload
    exampleNullResult 0 0 0 0 2 exampleNullPart rfl
    ⟨_, ⟨_, 1, _, rfl, by decide, rfl, rfl, rfl⟩, by decide, rfl, _, rfl, rfl⟩ rfl

/-! ## The build command: characters and numbers -/

theorem char_le_iff (a b : Char) : a ≤ b ↔ a.toNat ≤ b.toNat := Iff.rfl

theorem toNat_ofNat_small (n : Nat) (h : n < 0xD800) : (Char.ofNat n).toNat = n := by
  have hv : n.isValidChar := Or.inl h
  unfold Char.ofNat
  rw [dif_pos hv]
  unfold Char.ofNatAux Char.toNat
  simp [UInt32.toNat]

theorem tolower_toNat (c : Char) :
    (tolower c).toNat = if 65 ≤ c.toNat ∧ c.toNat ≤ 90 then c.toNat + 32 else c.toNat := by
  unfold tolower
  by_cases h : 'A' ≤ c ∧ c ≤ 'Z'
  · have h1 : 65 ≤ c.toNat ∧ c.toNat ≤ 90 := h
    rw [if_pos h, if_pos h1]
    exact toNat_ofNat_small _ (by omega)
  · have h1 : ¬ (65 ≤ c.toNat ∧ c.toNat ≤ 90) := h
    rw [if_neg h, if_neg h1]

theorem notHexadecimal_iff (d : Char) :
    notHexadecimal d = false ↔
      (48 ≤ d.toNat ∧ d.toNat ≤ 57) ∨ (97 ≤ d.toNat ∧ d.toNat ≤ 102) := by
  have h1 : (d ≥ '0') ↔ 48 ≤ d.toNat := Iff.rfl
  have h2 : (d ≤ '9') ↔ d.toNat ≤ 57 := Iff.rfl
  have h3 : (d ≥ 'a') ↔ 97 ≤ d.toNat := Iff.rfl
  have h4 : (d ≤ 'f') ↔ d.toNat ≤ 102 := Iff.rfl
  unfold notHexadecimal
  simp only [Bool.and_eq_false_imp, Bool.not_eq_true', Bool.and_eq_false_imp,
    Bool.not_eq_false', Bool.and_eq_true, decide_eq_true_eq, h1, h2, h3, h4,
    Bool.and_eq_false_iff, decide_eq_false_iff_not, Bool.not_eq_eq_eq_not, Bool.not_true,
    Bool.not_false]
  omega

theorem isHexDigit_iff (c : Char) :
    isHexDigit c = true ↔
      (48 ≤ c.toNat ∧ c.toNat ≤ 57) ∨ (97 ≤ c.toNat ∧ c.toNat ≤ 102) ∨
        (65 ≤ c.toNat ∧ c.toNat ≤ 70) := by
  have h1 : ('0' ≤ c) ↔ 48 ≤ c.toNat := Iff.rfl
  have h2 : (c ≤ '9') ↔ c.toNat ≤ 57 := Iff.rfl
  have h3 : ('a' ≤ c) ↔ 97 ≤ c.toNat := Iff.rfl
  have h4 : (c ≤ 'f') ↔ c.toNat ≤ 102 := Iff.rfl
  have h5 : ('A' ≤ c) ↔ 65 ≤ c.toNat := Iff.rfl
  have h6 : (c ≤ 'F') ↔ c.toNat ≤ 70 := Iff.rfl
  unfold isHexDigit
  simp only [Bool.or_eq_true, Bool.and_eq_true, decide_eq_true_eq, h1, h2, h3, h4, h5, h6]
  omega

/-- The test of the handler on a character accepts exactly the hexadecimal digits. -/
theorem notHexadecimal_tolower (c : Char) :
    notHexadecimal (tolower c) = false ↔ isHexDigit c = true := by
  rw [notHexadecimal_iff, isHexDigit_iff, tolower_toNat]
  split <;> omega

theorem hexadecimalCheck_iff (s : List Char) :
    hexadecimalCheck s = true ↔ ∀ c ∈ s, isHexDigit c = true := by
  induction s with
  | nil => simp [hexadecimalCheck]
  | cons ch rest ih =>
    simp only [hexadecimalCheck, List.mem_cons, forall_eq_or_imp]
    rw [← notHexadecimal_tolower, ← ih]
    cases notHexadecimal (tolower ch) <;> simp

theorem cString_of_no_nul (s : List Char) (h : NUL ∉ s) : cString s 0 = s := by
  unfold cString
  rw [List.drop_zero, List.takeWhile_eq_self_iff]
  intro x hx
  simp only [ne_eq, decide_not, Bool.not_eq_true', decide_eq_false_iff_not]
  intro h0
  exact h (h0 ▸ hx)

theorem hexDigitValue_of_isHexDigit (c : Char) (h : isHexDigit c = true) :
    ∃ d, hexDigitValue c = some d ∧ d < 16 := by
  rw [isHexDigit_iff] at h
  have h1 : ('0' ≤ c) ↔ 48 ≤ c.toNat := Iff.rfl
  have h2 : (c ≤ '9') ↔ c.toNat ≤ 57 := Iff.rfl
  have h3 : ('a' ≤ c) ↔ 97 ≤ c.toNat := Iff.rfl
  have h4 : (c ≤ 'f') ↔ c.toNat ≤ 102 := Iff.rfl
  have h5 : ('A' ≤ c) ↔ 65 ≤ c.toNat := Iff.rfl
  have h6 : (c ≤ 'F') ↔ c.toNat ≤ 70 := Iff.rfl
  have e0 : '0'.toNat = 48 := rfl
  have ea : 'a'.toNat = 97 := rfl
  have eA : 'A'.toNat = 65 := rfl
  unfold hexDigitValue
  simp only [h1, h2, h3, h4, h5, h6, e0, ea, eA]
  split
  · exact ⟨_, rfl, by omega⟩
  · split
    · exact ⟨_, rfl, by omega⟩
    · split
      · exact ⟨_, rfl, by omega⟩
      · omega

theorem isSpace_of_isHexDigit (c : Char) (h : isHexDigit c = true) : isSpace c = false := by
  rw [isHexDigit_iff] at h
  unfold isSpace
  have hne : ∀ d : Char, d.toNat < 48 → (c == d) = false := by
    intro d hd
    rw [beq_eq_false_iff_ne]
    intro h0
    subst h0
    omega
  rw [hne ' ' (by decide), hne '\t' (by decide), hne '\n' (by decide),
    hne (Char.ofNat 11) (by decide), hne (Char.ofNat 12) (by decide), hne '\r' (by decide)]
  rfl

theorem ne_of_isHexDigit (c d : Char) (h : isHexDigit c = true) (hd : isHexDigit d = false) :
    c ≠ d := by
  intro h0
  subst h0
  rw [h] at hd
  cases hd

theorem hexDigitsValue_eq_foldl (s : List Char) (acc : Nat)
    (h : ∀ c ∈ s, isHexDigit c = true) :
    hexDigitsValue s acc = s.foldl (fun a c => a * 16 + (hexDigitValue c).getD 0) acc := by
  induction s generalizing acc with
  | nil => rfl
  | cons c rest ih =>
    obtain ⟨d, hd, _⟩ := hexDigitValue_of_isHexDigit c (h c (List.mem_cons_self _ _))
    simp only [hexDigitsValue, hd, List.foldl_cons, Option.getD_some]
    exact ih _ (fun x hx => h x (List.mem_cons_of_mem _ hx))

theorem foldl_hex_lt (s : List Char) (acc : Nat) (h : ∀ c ∈ s, isHexDigit c = true) :
    s.foldl (fun a c => a * 16 + (hexDigitValue c).getD 0) acc < (acc + 1) * 16 ^ s.length := by
  induction s generalizing acc with
  | nil => simp
  | cons c rest ih =>
    obtain ⟨d, hd, hlt⟩ := hexDigitValue_of_isHexDigit c (h c (List.mem_cons_self _ _))
    simp only [List.foldl_cons, hd, Option.getD_some, List.length_cons]
    have := ih (acc * 16 + d) (fun x hx => h x (List.mem_cons_of_mem _ hx))
    calc _ < (acc * 16 + d + 1) * 16 ^ rest.length := this
      _ ≤ ((acc + 1) * 16) * 16 ^ rest.length := Nat.mul_le_mul_right _ (by omega)
      _ = (acc + 1) * 16 ^ (rest.length + 1) := by ring

/-- A string of 1 to 8 hexadecimal digits denotes a number below `2 ^ 32`. -/
theorem hexValue_lt (s : List Char) (h : ∀ c ∈ s, isHexDigit c = true) (hlen : s.length ≤ 8) :
    hexValue s < 2 ^ 32 := by
  have h1 := foldl_hex_lt s 0 h
  have h2 : 16 ^ s.length ≤ 16 ^ 8 := Nat.pow_le_pow_right (by omega) hlen
  unfold hexValue
  calc _ < (0 + 1) * 16 ^ s.length := h1
    _ ≤ 16 ^ 8 := by omega
    _ = 2 ^ 32 := by norm_num

/-- On a string of hexadecimal digits `strtoul` finds no white space, sign or prefix to skip
and returns the number the digits denote, when that number fits an `unsigned long`. -/
theorem strtoul16_of_hex (ulongBits : Nat) (s : List Char)
    (h : ∀ c ∈ s, isHexDigit c = true) (hfit : hexValue s < 2 ^ ulongBits) :
    strtoul16 ulongBits s = hexValue s := by
  have hbody : s.dropWhile isSpace = s := by
    cases s with
    | nil => rfl
    | cons c rest =>
      rw [List.dropWhile_cons_of_neg]
      rw [isSpace_of_isHexDigit c (h c (List.mem_cons_self _ _))]
      simp
  have hminus : s.head? ≠ some '-' := by
    cases s with
    | nil => simp
    | cons c rest =>
      simp only [List.head?_cons, ne_eq, Option.some.injEq]
      exact ne_of_isHexDigit c '-' (h c (List.mem_cons_self _ _)) (by decide)
  have hplus : s.head? ≠ some '+' := by
    cases s with
    | nil => simp
    | cons c rest =>
      simp only [List.head?_cons, ne_eq, Option.some.injEq]
      exact ne_of_isHexDigit c '+' (h c (List.mem_cons_self _ _)) (by decide)
  have hprefix : hasHexPrefix s = false := by
    match s, h with
    | [], _ => rfl
    | [_], _ => simp [hasHexPrefix]
    | [_, _], _ => simp [hasHexPrefix]
    | a :: x :: d :: rest, h =>
      have hx : isHexDigit x = true := h x (by simp)
      have h1 : (x == 'x') = false := by
        rw [beq_eq_false_iff_ne]
        exact ne_of_isHexDigit x 'x' hx (by decide)
      have h2 : (x == 'X') = false := by
        rw [beq_eq_false_iff_ne]
        exact ne_of_isHexDigit x 'X' hx (by decide)
      unfold hasHexPrefix
      split
      · rename_i heq
        simp only [List.cons.injEq] at heq
        obtain ⟨_, hx1, _⟩ := heq
        subst hx1
        rw [h1, h2]
        rfl
      · rfl
  unfold strtoul16
  simp only [hbody, hminus, hplus, or_self, if_false, hprefix, Bool.false_eq_true]
  rw [hexDigitsValue_eq_foldl s 0 h]
  change (if hexValue s ≥ 2 ^ ulongBits then _ else _) = _
  rw [if_neg (by omega)]
  rfl

/-! ## The build command: the handler -/

theorem handleOptions_append (ulongBits : Nat) (before after : List OptionUse)
    (build_options build_options1 : BuildOptions)
    (h : handleOptions ulongBits before build_options = .ok build_options1) :
    handleOptions ulongBits (before ++ after) build_options =
      handleOptions ulongBits after build_options1 := by
  induction before generalizing build_options with
  | nil =>
    simp only [handleOptions] at h
    injection h with h
    subst h
    rfl
  | cons use rest ih =>
    simp only [handleOptions, List.cons_append] at h ⊢
    cases hu : handler ulongBits use.opt use.arguments build_options with
    | error status => rw [hu] at h; cases h
    | ok o =>
      rw [hu] at h
      exact ih o h

theorem handler_forge_crc (ulongBits : Nat) (argument : List Char)
    (build_options : BuildOptions) :
    handler ulongBits 'C' [argument] build_options =
      handleForgeCrc ulongBits argument build_options := rfl

/-- What case `'C'` of the handler does with an argument that holds no NUL. -/
theorem handleForgeCrc_spec (ulongBits : Nat) (h32 : 32 ≤ ulongBits) (argument : List Char)
    (hnul : NUL ∉ argument) (build_options : BuildOptions) :
    handleForgeCrc ulongBits argument build_options =
      if isForgeCrc argument then
        .ok { build_options with forged_crc := some (hexValue argument) }
      else .error EXIT_FAILURE := by
  unfold handleForgeCrc strlen
  rw [cString_of_no_nul argument hnul]
  simp only
  by_cases hlen : argument.length > 8 ∨ argument.length < 1
  · rw [if_pos hlen, if_neg]
    unfold isForgeCrc
    omega
  · rw [if_neg hlen]
    by_cases hhex : hexadecimalCheck argument = true
    · have hall := (hexadecimalCheck_iff argument).mp hhex
      have hvalid : isForgeCrc argument := ⟨by omega, by omega, hall⟩
      have hlt := hexValue_lt argument hall (by omega)
      have hpow : 2 ^ 32 ≤ 2 ^ ulongBits := Nat.pow_le_pow_right (by omega) h32
      rw [if_neg (by simp [hhex]), if_pos hvalid,
        strtoul16_of_hex ulongBits argument hall (by omega), Nat.mod_eq_of_lt hlt]
    · have hfalse : hexadecimalCheck argument = false := by simpa using hhex
      rw [if_pos hfalse, if_neg]
      rintro ⟨_, _, hall⟩
      exact hhex ((hexadecimalCheck_iff argument).mpr hall)

/-! ## Settled claims: the cache file loader -/

/-- C15: for every map, region, offset and minimum size, `get_data_at_offset` fails with
`OutOfBoundsException` whenever `offset + minimum_size` exceeds the length of the region (in
particular for every request of at least one byte from a region of length zero), and
otherwise returns the bytes of the region from `offset` on, at least `minimum_size` of them. -/
theorem get_data_at_offset_bounds_checked (map : Map) (offset minimum_size : Nat)
    (map_type : DataMapType) :
    (offset + minimum_size > (map.region map_type).length →
      map.get_data_at_offset offset minimum_size map_type = .error .OutOfBoundsException) ∧
    ((map.region map_type).length = 0 → 0 < offset + minimum_size →
      map.get_data_at_offset offset minimum_size map_type = .error .OutOfBoundsException) ∧
    (offset + minimum_size ≤ (map.region map_type).length →
      map.get_data_at_offset offset minimum_size map_type =
          .ok ((map.region map_type).drop offset) ∧
        minimum_size ≤ ((map.region map_type).drop offset).length) := by
  unfold Map.get_data_at_offset
  refine ⟨fun h => by rw [if_pos h], fun h0 h => by rw [if_pos (by omega)], fun h => ?_⟩
  rw [if_neg (by omega), List.length_drop]
  exact ⟨rfl, by omega⟩

/-- C15 (witness): one byte of the empty sound region and two bytes from offset 3 of the
four-byte cache region are out of bounds; one byte from offset 1 of the bitmap region is
not. -/
theorem get_data_at_offset_bounds_checked_witness :
    exampleMap.get_data_at_offset 0 1 .DATA_MAP_SOUND = .error .OutOfBoundsException ∧
    exampleMap.get_data_at_offset 3 2 .DATA_MAP_CACHE = .error .OutOfBoundsException ∧
    exampleMap.get_data_at_offset 1 1 .DATA_MAP_BITMAP = .ok [2] :=
  ⟨(get_data_at_offset_bounds_checked exampleMap 0 1 .DATA_MAP_SOUND).2.1 rfl (by decide),
   (get_data_at_offset_bounds_checked exampleMap 3 2 .DATA_MAP_CACHE).1 (by decide),
   ((get_data_at_offset_bounds_checked exampleMap 1 1 .DATA_MAP_BITMAP).2.2 (by decide)).1⟩

/-! ## Settled claims: the build command -/

/-- C17: for an `unsigned long` of at least 32 bits and an argument of `--forge-crc` (a C
string, so without NUL), the handler accepts the argument if and only if it has 1 to 8
characters that are all hexadecimal digits; an accepted argument stores as forged CRC the
number the argument denotes in base 16, which is below `2 ^ 32`; a rejected argument ends
the program with `EXIT_FAILURE` inside the handler, so that `main` ends with that status
without reaching the call of `compile_map`. -/
theorem forge_crc_accepted_iff_hexadecimal (ulongBits : Nat) (argument : List Char)
    (build_options : BuildOptions) (h32 : 32 ≤ ulongBits) (hnul : NUL ∉ argument) :
    ((∃ accepted, handler ulongBits 'C' [argument] build_options = .ok accepted) ↔
      isForgeCrc argument) ∧
    (isForgeCrc argument →
      handler ulongBits 'C' [argument] build_options =
          .ok { build_options with forged_crc := some (hexValue argument) } ∧
        hexValue argument < 2 ^ 32) ∧
    (¬ isForgeCrc argument →
      handler ulongBits 'C' [argument] build_options = .error EXIT_FAILURE ∧
      ∀ (C : Type) (X : Externals C) (before after : List OptionUse) (o : BuildOptions)
        (remaining_argument : List Char) (index_file : List (List Char)),
        handleOptions ulongBits before BuildOptions.initial = .ok o →
        main X ulongBits (before ++ { opt := 'C', arguments := [argument] } :: after)
          remaining_argument index_file = .error EXIT_FAILURE) := by
  have hspec := fun o => handleForgeCrc_spec ulongBits h32 argument hnul o
  refine ⟨?_, ?_, ?_⟩
  · rw [handler_forge_crc, hspec]
    by_cases hv : isForgeCrc argument
    · rw [if_pos hv]
      exact ⟨fun _ => hv, fun _ => ⟨_, rfl⟩⟩
    · rw [if_neg hv]
      constructor
      · rintro ⟨_, h⟩
        cases h
      · intro h
        exact absurd h hv
  · intro hv
    rw [handler_forge_crc, hspec, if_pos hv]
    exact ⟨rfl, hexValue_lt argument hv.2.2 hv.2.1⟩
  · intro hv
    rw [handler_forge_crc, hspec, if_neg hv]
    refine ⟨rfl, ?_⟩
    intro C X before after o remaining_argument index_file hbefore
    unfold main
    rw [handleOptions_append ulongBits before _ _ o hbefore]
    simp only [handleOptions]
    rw [handler_forge_crc, hspec, if_neg hv]

/-- C17 (witness): `DeadBeef` is accepted with the value `0xDEADBEEF`; `12x` and the nine
digits `123456789` are rejected. -/
theorem forge_crc_accepted_iff_hexadecimal_witness :
    handler 64 'C' ["DeadBeef".toList] BuildOptions.initial =
        .ok { BuildOptions.initial with forged_crc := some 0xDEADBEEF } ∧
    handler 64 'C' ["12x".toList] BuildOptions.initial = .error EXIT_FAILURE ∧
    handler 64 'C' ["123456789".toList] BuildOptions.initial = .error EXIT_FAILURE :=
  ⟨((forge_crc_accepted_iff_hexadecimal 64 "DeadBeef".toList BuildOptions.initial (by decide)
      (by decide)).2.1 (by decide)).1,
   ((forge_crc_accepted_iff_hexadecimal 64 "12x".toList BuildOptions.initial (by decide)
      (by decide)).2.2 (by decide)).1,
   ((forge_crc_accepted_iff_hexadecimal 64 "123456789".toList BuildOptions.initial (by decide)
      (by decide)).2.2 (by decide)).1⟩

/-- C18 (code defect): on the command line `-c -g custom` the map is compiled without
compression, although `--compress` is given and `--uncompressed` is not: case `'g'` of the
handler assigns `compress` and so overrides a `-c` that stands before it. On the command
line `-g custom -c` the map is compiled with compression. -/
theorem compress_before_game_engine_is_lost :
    (main exampleExternals 64
        [{ opt := 'c', arguments := [] }, { opt := 'g', arguments := ["custom".toList] }]
        "levels\\test\\test".toList []).map (fun a => (a.engine, a.compress)) =
      .ok (.CACHE_FILE_CUSTOM_EDITION, false) ∧
    (main exampleExternals 64
        [{ opt := 'g', arguments := ["custom".toList] }, { opt := 'c', arguments := [] }]
        "levels\\test\\test".toList []).map (fun a => (a.engine, a.compress)) =
      .ok (.CACHE_FILE_CUSTOM_EDITION, true) :=
  ⟨rfl, rfl⟩

/-- C19 (code defect): for the line `Levels/Test.scenario` of the index file the path added
to the index list is `Levels\Test`, with its uppercase letters: the loop under the comment
"Lowercase everything" lowercases the string `substr` (to `levels/test`), but the entry is
made from `substr_v`, a copy taken before that loop. -/
theorem index_path_is_not_lowercased :
    (main exampleExternals 64
        [{ opt := 'g', arguments := ["custom".toList] },
         { opt := 'w', arguments := ["index.txt".toList] }]
        "levels\\test\\test".toList ["Levels/Test.scenario".toList]).map
        (fun a => a.with_index) = .ok [("scenario".toList, "Levels\\Test".toList)] ∧
    (indexLine exampleExternals "Levels/Test.scenario".toList).map (fun l => l.substr) =
      .ok "levels/test".toList ∧
    "Levels\\Test".toList.any isUpper = true :=
  ⟨rfl, rfl, rfl⟩

/-! ## Settled claims: integer tokens -/

/-- C20 (code defect): the bare tokens `1`, `-42` and `007` are not emitted as integers. In
`(1)` the token `1` is stored as the string `)`; in `-42   ` and `007   ` the tokens are
stored as strings of three spaces; in `-42 ` closing the token reads past the terminating
NUL. The raw text of a token is taken from the character that terminated it instead of from
the token's first character; on the right raw text the conversion of lines 108-112 gives the
integers 1, -42 and 7. -/
theorem tokenize_integer_token_is_string (w : Nat) :
    (tokenize w "(1)".toList).map (fun r => r.tokens) = .ok
      [⟨1, 1, .string "(".toList, .TOKEN_TYPE_PARENTHESIS_BEGIN⟩,
       ⟨1, 2, .string ")".toList, .TOKEN_TYPE_STRING⟩,
       ⟨1, 3, .string ")".toList, .TOKEN_TYPE_PARENTHESIS_END⟩] ∧
    (tokenize w "-42   ".toList).map (fun r => r.tokens) = .ok
      [⟨1, 1, .string "   ".toList, .TOKEN_TYPE_STRING⟩] ∧
    (tokenize w "007   ".toList).map (fun r => r.tokens) = .ok
      [⟨1, 1, .string "   ".toList, .TOKEN_TYPE_STRING⟩] ∧
    tokenize w "-42 ".toList = .error .outOfBounds ∧
    finishToken 64 "1".toList 1 2 = ⟨1, 2, .integer 1, .TOKEN_TYPE_INTEGER⟩ ∧
    finishToken 64 "-42".toList 1 1 = ⟨1, 1, .integer (-42), .TOKEN_TYPE_INTEGER⟩ ∧
    finishToken 64 "007".toList 1 1 = ⟨1, 1, .integer 7, .TOKEN_TYPE_INTEGER⟩ :=
  ⟨rfl, rfl, rfl, rfl, by decide, by decide, by decide⟩

/-! ## Order of the returned tokens -/

/-- A later index has a later (line, column) position. -/
theorem position_lt (s : List Char) (i j : Nat) (hij : i < j) (hj : j ≤ s.length) :
    lineOf s i < lineOf s j ∨ (lineOf s i = lineOf s j ∧ columnOf s i < columnOf s j) := by
  induction j with
  | zero => omega
  | succ j ih =>
    have hl := lineOf_succ s j (by omega)
    have hc := columnOf_succ s j (by omega)
    by_cases hnl : s.getD j NUL = '\n'
    · rw [if_pos hnl] at hl hc
      rcases Nat.lt_or_ge i j with h | h
      · rcases ih h (by omega) with h1 | ⟨h1, _⟩ <;> left <;> omega
      · have : i = j := by omega
        subst this
        left; omega
    · rw [if_neg hnl] at hl hc
      rcases Nat.lt_or_ge i j with h | h
      · rcases ih h (by omega) with h1 | ⟨h1, h2⟩
        · left; omega
        · right; omega
      · have : i = j := by omega
        subst this
        right; omega

theorem startedAt_mono {s : List Char} {st st1 : State} {ks : List Nat}
    (h : StartedAt s st ks) (htok : st1.tokens = st.tokens) (hf : frontier st ≤ frontier st1) :
    StartedAt s st1 ks := by
  obtain ⟨h1, h2, h3⟩ := h
  refine ⟨h1, fun k hk => Nat.lt_of_lt_of_le (h2 k hk) hf, ?_⟩
  rw [htok]
  exact h3

theorem startedAt_push {s : List Char} {st st1 : State} {ks : List Nat} {t : Token} {k : Nat}
    (h : StartedAt s st ks) (htok : st1.tokens = st.tokens ++ [t])
    (hk : frontier st ≤ k) (hf : k < frontier st1)
    (ht : (t.line, t.column) = (lineOf s k, columnOf s k)) :
    StartedAt s st1 (ks ++ [k]) := by
  obtain ⟨h1, h2, h3⟩ := h
  refine ⟨?_, ?_, ?_⟩
  · rw [List.pairwise_append]
    refine ⟨h1, List.pairwise_singleton _ _, ?_⟩
    intro a ha b hb
    rw [List.mem_singleton.mp hb]
    exact Nat.lt_of_lt_of_le (h2 a ha) hk
  · intro a ha
    rcases List.mem_append.mp ha with h | h
    · exact Nat.lt_trans (Nat.lt_of_lt_of_le (h2 a h) hk) hf
    · rw [List.mem_singleton.mp h]
      exact hf
  · rw [htok]
    unfold positions at h3 ⊢
    rw [List.map_append, List.map_append, h3]
    simp only [List.map_cons, List.map_nil, ht]

/-- The tokens held at a reachable state started at increasing indices before the
frontier. -/
theorem reachable_startedAt {w : Nat} {s : List Char} {st : State} (hR : Reachable w s st) :
    ∃ ks, StartedAt s st ks := by
  induction hR with
  | start => exact ⟨[], List.Pairwise.nil, fun k hk => absurd hk (List.not_mem_nil k), rfl⟩
  | @next st st1 ch hR0 hch hn hstep ih =>
    obtain ⟨ks, hks⟩ := ih
    have hI := inv_of_reachable hR0
    rcases step_ok_cases hch hstep with
      ⟨ts, raw, hts, _, _, ⟨_, rfl⟩ | ⟨_, rfl⟩⟩ | ⟨ts, hts, _, rfl⟩ | ⟨hts, _, rfl⟩ |
      ⟨hts, _, _, rfl⟩ | ⟨hts, _, _, _, j, hj, rfl⟩ | ⟨hts, _, _, _, rfl⟩
    · obtain ⟨h1, h2, h3, _⟩ := hI.opened ts hts
      refine ⟨ks ++ [ts], startedAt_push hks rfl ?_ ?_ ?_⟩
      · simp [frontier, hts]
      · simpa [frontier, closeToken] using h1
      · simp [finishToken, h2, h3]
    · obtain ⟨h1, h2, h3, _⟩ := hI.opened ts hts
      refine ⟨ks ++ [ts], startedAt_push hks rfl ?_ ?_ ?_⟩
      · simp [frontier, hts]
      · simp only [frontier, closeToken, stepTail]
        omega
      · simp [finishToken, h2, h3]
    · refine ⟨ks, startedAt_mono hks rfl ?_⟩
      simp [frontier, stepTail, hts]
    · refine ⟨ks, startedAt_mono hks rfl ?_⟩
      simp [frontier, stepTail, hts]
    · refine ⟨ks ++ [st.c], startedAt_push hks rfl ?_ ?_ ?_⟩
      · simp [frontier, hts]
      · simp [frontier, stepTail, emitParenthesis, hts]
      · simp [parenthesisToken, hI.line_eq, hI.column_eq]
    · obtain ⟨hcj, _⟩ := skipComment_spec s st.c j hj
      refine ⟨ks, startedAt_mono hks rfl ?_⟩
      simp only [frontier, stepTail, hts]
      omega
    · refine ⟨ks, startedAt_mono hks rfl ?_⟩
      simp [frontier, stepTail, startToken, hts]

/-- Whenever `tokenize` returns, the returned tokens stand in the order of the source. -/
theorem tokenize_startedAt {w : Nat} {s : List Char} {r : TokenizeResult}
    (h : tokenize w s = .ok r) :
    ∃ ks : List Nat, ks.Pairwise (fun a b => a < b) ∧ (∀ k ∈ ks, k < s.length) ∧
      positions r.tokens = ks.map (fun k => (lineOf s k, columnOf s k)) := by
  obtain ⟨fin, hl, hr⟩ := tokenize_ok h
  obtain ⟨hR, _⟩ := loop_reachable _ Reachable.start hl
  have hI := inv_of_reachable hR
  obtain ⟨ks, h1, h2, h3⟩ := reachable_startedAt hR
  have hf : frontier fin ≤ s.length := by
    unfold frontier
    cases hts : fin.token_start with
    | none => exact hI.c_le
    | some ts =>
      have := (hI.opened ts hts).1
      have := hI.c_le
      simp only
      omega
  refine ⟨ks, h1, fun k hk => Nat.lt_of_lt_of_le (h2 k hk) hf, ?_⟩
  rw [hr, finish_tokens]
  exact h3

/-! ## Settled claims: the state and the order of the lexer -/

/-- C22: at every state that the character loop of `Tokenizer::tokenize` reaches, either no
token is open and `expected_end` is 0, or a token is open and `expected_end` is `'"'` when
the token began with a quote and `' '` when it did not. -/
theorem lexer_state_invariant (w : Nat) (s : List Char) (st : State)
    (h : Reachable w s st) :
    (st.token_start = none ∧ st.expected_end = NUL) ∨
    (∃ ts, st.token_start = some ts ∧ ts < st.c ∧
      ((s.getD ts NUL = '"' ∧ st.expected_end = '"') ∨
       (s.getD ts NUL ≠ '"' ∧ st.expected_end = ' '))) := by
  have hI := inv_of_reachable h
  cases hts : st.token_start with
  | none => exact Or.inl ⟨rfl, (hI.closed hts).1⟩
  | some ts =>
    right
    obtain ⟨h1, _, _, h4⟩ := hI.opened ts hts
    refine ⟨ts, rfl, h1, ?_⟩
    by_cases hq : s.getD ts NUL = '"'
    · rw [if_pos hq] at h4
      exact Or.inl ⟨hq, h4⟩
    · rw [if_neg hq] at h4
      exact Or.inr ⟨hq, h4⟩

/-- C22 (witness): in the input `a)` the state at the second character is reachable; the
bare token `a` is open there and `' '` is expected. -/
theorem lexer_state_invariant_witness :
    Reachable 64 ['a', ')'] openTokenState ∧
    ((openTokenState.token_start = none ∧ openTokenState.expected_end = NUL) ∨
     (∃ ts, openTokenState.token_start = some ts ∧ ts < openTokenState.c ∧
       ((['a', ')'].getD ts NUL = '"' ∧ openTokenState.expected_end = '"') ∨
        (['a', ')'].getD ts NUL ≠ '"' ∧ openTokenState.expected_end = ' ')))) :=
  ⟨reachable_open_token,
    lexer_state_invariant 64 ['a', ')'] openTokenState reachable_open_token⟩

/-- C27: whenever `Tokenizer::tokenize` returns, every returned token stands before every
later one: the (line, column) positions increase strictly in lexicographic order along the
returned vector, so no two tokens share a position. -/
theorem tokens_in_source_order (w : Nat) (s : List Char) (r : TokenizeResult)
    (h : tokenize w s = .ok r) :
    r.tokens.Pairwise Token.before ∧ (positions r.tokens).Nodup := by
  obtain ⟨ks, h1, h2, h3⟩ := tokenize_startedAt h
  have hpos : (positions r.tokens).Pairwise
      (fun a b : Nat × Nat => a.1 < b.1 ∨ (a.1 = b.1 ∧ a.2 < b.2)) := by
    rw [h3, List.pairwise_map]
    refine List.Pairwise.imp_of_mem ?_ h1
    intro a b _ hb hab
    exact position_lt s a b hab (Nat.le_of_lt (h2 b hb))
  refine ⟨?_, ?_⟩
  · unfold positions at hpos
    rw [List.pairwise_map] at hpos
    exact hpos
  · unfold List.Nodup
    refine List.Pairwise.imp ?_ hpos
    intro a b hab heq
    subst heq
    omega

/-- C27 (witness): the five tokens of `(a) (b ` stand at columns 1, 2, 3, 5 and 6 of
line 1. -/
theorem tokens_in_source_order_witness :
    (tokenize 64 "(a) (b ".toList).map (fun r => positions r.tokens) =
        .ok [(1, 1), (1, 2), (1, 3), (1, 5), (1, 6)] ∧
    ∃ r, tokenize 64 "(a) (b ".toList = .ok r ∧ r.tokens.Pairwise Token.before ∧
      (positions r.tokens).Nodup :=
  ⟨rfl, _, rfl, tokens_in_source_order 64 "(a) (b ".toList _ rfl⟩

/-! ## Settled claims: quoted strings, the terminator and the end of input -/

/-- Inside a quoted string a character other than the quote does not break the token: the
iteration only moves on, counting the line when the character is a newline. -/
theorem step_inside_quoted {w : Nat} {s : List Char} {st : State} {ch : Char} {ts : Nat}
    (hch : charAt s st.c = .ok ch) (hts : st.token_start = some ts)
    (hq : st.expected_end = '"') (hne : ch ≠ '"') :
    step w s st ch = .ok (stepTail st ch) := by
  have hp : isParenthesis st ch = false := by simp [isParenthesis, hq]
  have hb : breaksToken st ch = false := by
    have h1 : ('"' == ch) = false := by
      rw [beq_eq_false_iff_ne]
      exact fun h => hne h.symm
    simp [breaksToken, hq, hp, h1]
  have hk : parenthesisKilled st ch = false := by simp [parenthesisKilled, hp]
  unfold step stepBody
  rw [hts]
  simp only [hb, hk, Bool.false_eq_true, if_false, hch]

/-- C21 (code defect): inside a quoted string a parenthesis, a white space or a semicolon
does not end the string, yields no token and starts no comment, and a newline advances the
line counter (the parenthesis after the string `a`, newline, `b` stands at line 2). But these
characters do not appear in the text of the String token: for the string `a (b) ; c`
followed by nine spaces the text stored is the nine spaces. The raw text of a token is taken
from the character that terminated it instead of from the token's first character. -/
theorem tokenize_quoted_content_is_lost (w : Nat) :
    (∀ (s : List Char) (st : State) (ch : Char) (ts : Nat),
      charAt s st.c = .ok ch → st.token_start = some ts → st.expected_end = '"' →
      ch ∈ ['(', ')', ' ', '\t', '\r', '\n', ';'] →
      step w s st ch = .ok (stepTail st ch) ∧ (stepTail st ch).tokens = st.tokens ∧
        (stepTail st ch).token_start = some ts ∧
        (stepTail st ch).line = if ch = '\n' then st.line + 1 else st.line) ∧
    (tokenize w "\"a (b) ; c\"         ".toList).map (fun r => r.tokens) = .ok
      [⟨1, 1, .string "         ".toList, .TOKEN_TYPE_STRING⟩] ∧
    (tokenize w "\"a\nb\" (  ".toList).map (fun r => r.tokens) = .ok
      [⟨1, 1, .string " ( ".toList, .TOKEN_TYPE_STRING⟩,
       ⟨2, 4, .string "(".toList, .TOKEN_TYPE_PARENTHESIS_BEGIN⟩] := by
  refine ⟨?_, rfl, rfl⟩
  intro s st ch ts hch hts hq hmem
  have hne : ch ≠ '"' := by
    intro h
    subst h
    revert hmem
    decide
  exact ⟨step_inside_quoted hch hts hq hne, rfl, hts, rfl⟩

/-- C25 (code defect): the call always ends (the loop never runs out of iterations), but it
reads past the terminating NUL. On `; note`, a comment with no newline after it, the loop
`while(*c != '\n') c++` steps over the terminator. On `abcd "` the raw text of the token
`abcd` is read from the character that terminated it, four characters from index 4 of a
string whose terminator is at index 6. With a newline after the comment nothing is read out
of bounds. -/
theorem tokenize_reads_past_terminator (w : Nat) :
    (∀ s : List Char, tokenize w s ≠ .error .outOfFuel) ∧
    tokenize w "; note".toList = .error .outOfBounds ∧
    skipComment "; note".toList 0 = .error .outOfBounds ∧
    tokenize w "abcd \"".toList = .error .outOfBounds ∧
    stdString "abcd \"".toList 4 4 = .error .outOfBounds ∧
    (tokenize w "; note\n".toList).map (fun r => r.tokens) = .ok [] :=
  ⟨tokenize_ne_outOfFuel w, rfl, rfl, rfl, rfl, rfl⟩

/-- C26 (code defect): on `foo` and on `(a) 12` the bare token that runs up to the end of
the input is not returned and is reported as the error, at line 1, column 1 with the text
`foo` and at line 1, column 5 with the text `12`. On `abcdef g` nothing is reported: closing
the token `abcdef` reads six characters from index 6 of a string whose terminator is at
index 8, because the raw text of a token is taken from the character that terminated it
instead of from the token's first character. -/
theorem tokenize_open_bare_token (w : Nat) :
    tokenize w "foo".toList = .ok
      { tokens := [], error := true, error_line := some 1, error_column := some 1,
        error_token := some "foo".toList } ∧
    tokenize w "(a) 12".toList = .ok
      { tokens := [⟨1, 1, .string "(".toList, .TOKEN_TYPE_PARENTHESIS_BEGIN⟩,
                   ⟨1, 2, .string ")".toList, .TOKEN_TYPE_STRING⟩,
                   ⟨1, 3, .string ")".toList, .TOKEN_TYPE_PARENTHESIS_END⟩],
        error := true, error_line := some 1, error_column := some 5,
        error_token := some "12".toList } ∧
    tokenize w "abcdef g".toList = .error .outOfBounds ∧
    stdString "abcdef g".toList 6 6 = .error .outOfBounds :=
  ⟨rfl, rfl, rfl, rfl⟩

/-! ## Settled claims: the bounds of scenario post-processing -/

/-- C28: for every buffer, `postprocess_hek_data` succeeds, so that no read or write falls
outside the buffer, and keeps the length. The number of nodes it handles is the smaller of
the table's `size` and the number of whole nodes behind the header; each of these nodes lies
inside the buffer; every byte from the first node not handled on is unchanged; and a buffer
shorter than the table header is returned as it is. -/
theorem postprocess_stays_in_bounds (L : Layout) (K : Constants) (buf : List Nat)
    (hL : L.WellFormed) :
    ∃ out, postprocess_hek_data L K buf = .ok out ∧ out.length = buf.length ∧
      elementCount L buf =
        min (be16At buf L.sizeOffset) ((buf.length - L.tableSize) / L.nodeSize) ∧
      (∀ i, i < elementCount L buf → nodeOffset L i + L.nodeSize ≤ buf.length) ∧
      (∀ k, nodeOffset L (elementCount L buf) ≤ k → out.getD k 0 = buf.getD k 0) ∧
      (buf.length < L.tableSize → out = buf) := by
  have hnode : 0 < L.nodeSize := by
    have := hL.type_in
    omega
  have hin : ∀ i, i < elementCount L buf → nodeOffset L i + L.nodeSize ≤ buf.length := by
    intro i hi
    have h1 : i + 1 ≤ (buf.length - L.tableSize) / L.nodeSize :=
      Nat.le_trans hi (Nat.min_le_right _ _)
    have h2 := (Nat.le_div_iff_mul_le hnode).mp h1
    have h3 : (i + 1) * L.nodeSize = i * L.nodeSize + L.nodeSize := by ring
    have h4 : 0 < (buf.length - L.tableSize) / L.nodeSize := by omega
    have h5 : L.nodeSize ≤ buf.length - L.tableSize := by
      by_contra hlt
      rw [Nat.div_eq_of_lt (by omega)] at h4
      omega
    unfold nodeOffset
    omega
  by_cases hlen : L.tableSize ≤ buf.length
  · obtain ⟨out, ho, hlen1, hget⟩ := postprocess_spec hL K buf hlen
    refine ⟨out, ho, hlen1, rfl, hin, ?_, fun h => by omega⟩
    intro k hk
    have hp := hL.ptr_in
    have hge := nodeOffset_ge L (elementCount L buf)
    rw [hget, if_neg, if_neg (by omega)]
    rintro ⟨m, hm, _, hd⟩
    have hmono : nodeOffset L m + L.nodeSize ≤ nodeOffset L (elementCount L buf) := by
      unfold nodeOffset
      have : (m + 1) * L.nodeSize ≤ elementCount L buf * L.nodeSize :=
        Nat.mul_le_mul_right _ hm
      have h3 : (m + 1) * L.nodeSize = m * L.nodeSize + L.nodeSize := by ring
      omega
    have hdin := hL.data_in
    unfold inData at hd
    omega
  · refine ⟨buf, postprocess_short L K buf (by omega), rfl, rfl, hin, fun _ _ => rfl,
      fun _ => rfl⟩

/-- C28 (witness): the example table holds exactly the three nodes its header declares;
they end at byte 116, the length of the buffer, which the call keeps. -/
theorem postprocess_stays_in_bounds_witness :
    exampleTable.length = 116 ∧ elementCount hekLayout exampleTable = 3 ∧
    ∃ out, postprocess_hek_data hekLayout hekConstants exampleTable = .ok out ∧
      out.length = exampleTable.length ∧
      elementCount hekLayout exampleTable =
        min (be16At exampleTable hekLayout.sizeOffset)
          ((exampleTable.length - hekLayout.tableSize) / hekLayout.nodeSize) ∧
      (∀ i, i < elementCount hekLayout exampleTable →
        nodeOffset hekLayout i + hekLayout.nodeSize ≤ exampleTable.length) ∧
      (∀ k, nodeOffset hekLayout (elementCount hekLayout exampleTable) ≤ k →
        out.getD k 0 = exampleTable.getD k 0) ∧
      (exampleTable.length < hekLayout.tableSize → out = exampleTable) :=
  ⟨by decide, by decide,
    postprocess_stays_in_bounds hekLayout hekConstants exampleTable hekLayout_wellFormed⟩

/-! ## The effect hook: a rule for the whole run -/

/-- The rule of `Effect::post_compile` with recursion enabled: a property of the loop state
that holds before the loops, is carried by the loop body for each part of each event, and
passes from the end of one event to the start of the next, holds when the loops have ended;
the workload returned is the one left by the loops with the flags of the effect updated. -/
theorem post_compile_rule {R : Type} [LinearOrder R] {K : EffectConstants}
    {wl wl1 : BuildWorkload R} {si so : Nat} (I : Nat → Nat → HookState R → Prop)
    (hrec : wl.disable_recursion = false) (h : post_compile K wl si so = .ok wl1)
    (hinit : I 0 0 { structs := wl.structs, must_be_deterministic := false })
    (hpart : ∀ e p pi event st st1, IsEvent wl.structs si so e event →
      event.parts_pointer = some pi → p < event.parts_count →
      Similar wl.structs st.structs → I e p st →
      processPart K wl.tags si so pi p st = .ok st1 → I e (p + 1) st1)
    (hnext : ∀ e event st, IsEvent wl.structs si so e event →
      Similar wl.structs st.structs → I e event.parts_count st → I (e + 1) 0 st) :
    ∃ eff0 st eff, getEffect wl.structs si so = .ok eff0 ∧
      Similar wl.structs st.structs ∧ I eff0.events_count 0 st ∧
      getEffect st.structs si so = .ok eff ∧ wl1 = storeFlags K wl si so st eff := by
  unfold post_compile at h
  rw [hrec] at h
  simp only [Bool.false_eq_true, if_false] at h
  cases heff : getEffect wl.structs si so with
  | error err => rw [heff] at h; cases h
  | ok effect0 =>
    rw [heff] at h
    simp only at h
    have hevent : ∀ ei events e st st1, effect0.events_pointer = some ei →
        getEvents wl.structs ei = .ok events → e < effect0.events_count →
        (Similar wl.structs st.structs ∧ I e 0 st) →
        processEvent K wl.tags si so ei e st = .ok st1 →
        Similar wl.structs st1.structs ∧ I (e + 1) 0 st1 := by
      intro ei events e st st1 hptr hevs he hI hrun
      unfold processEvent at hrun
      rw [similar_getEvents hI.1 hevs] at hrun
      simp only at hrun
      cases hev : events[e]? with
      | none => rw [hev] at hrun; cases hrun
      | some event =>
        rw [hev] at hrun
        simp only at hrun
        have hevt : IsEvent wl.structs si so e event :=
          ⟨effect0, ei, events, heff, he, hptr, hevs, hev⟩
        by_cases hc : event.parts_count ≠ 0
        · rw [if_pos hc] at hrun
          cases hpp : event.parts_pointer with
          | none => rw [hpp] at hrun; cases hrun
          | some pi =>
            rw [hpp] at hrun
            simp only [derefOptional] at hrun
            cases hgp : getParts st.structs pi with
            | error err => rw [hgp] at hrun; cases hrun
            | ok parts =>
              rw [hgp] at hrun
              simp only at hrun
              have := partsLoop_rule
                (fun p s => Similar wl.structs s.structs ∧ I e p s)
                event.parts_count 0 st st1 hI
                (fun p s s1 _ hlt hs hstep => by
                  obtain ⟨_, _, hsim1, _⟩ := processPart_spec hstep
                  exact ⟨similar_trans hs.1 hsim1,
                    hpart e p pi event s s1 hevt hpp (by omega) hs.1 hs.2 hstep⟩) hrun
              rw [Nat.zero_add] at this
              exact ⟨this.1, hnext e event st1 hevt this.1 this.2⟩
        · rw [if_neg hc] at hrun
          injection hrun with hrun
          subst hrun
          have h0 : event.parts_count = 0 := by simpa using hc
          refine ⟨hI.1, hnext e event st hevt hI.1 ?_⟩
          rw [h0]
          exact hI.2
    have hloop : ∃ st, (Similar wl.structs st.structs ∧ I effect0.events_count 0 st) ∧
        (match getEffect st.structs si so with
          | .error e => (.error e : Except HookFault (BuildWorkload R))
          | .ok effect => .ok (storeFlags K wl si so st effect)) = .ok wl1 := by
      by_cases hc : effect0.events_count ≠ 0
      · rw [if_pos hc] at h
        cases hptr : effect0.events_pointer with
        | none => rw [hptr] at h; cases h
        | some ei =>
          rw [hptr] at h
          simp only [derefOptional] at h
          cases hevs : getEvents wl.structs ei with
          | error err => rw [hevs] at h; cases h
          | ok events =>
            rw [hevs] at h
            simp only at h
            cases hl : eventsLoop K wl.tags si so ei effect0.events_count 0
                { structs := wl.structs, must_be_deterministic := false } with
            | error err => rw [hl] at h; cases h
            | ok st =>
              rw [hl] at h
              simp only at h
              have := eventsLoop_rule
                (fun e s => Similar wl.structs s.structs ∧ I e 0 s)
                effect0.events_count 0 _ st ⟨similar_refl _, hinit⟩
                (fun e s s1 _ hlt hs hstep =>
                  hevent ei events e s s1 hptr hevs (by omega) hs hstep) hl
              rw [Nat.zero_add] at this
              exact ⟨st, this, h⟩
      · rw [if_neg hc] at h
        simp only at h
        have h0 : effect0.events_count = 0 := by simpa using hc
        rw [h0]
        exact ⟨_, ⟨similar_refl _, hinit⟩, h⟩
    obtain ⟨st, hI, hfin⟩ := hloop
    cases hget : getEffect st.structs si so with
    | error err => rw [hget] at hfin; cases hfin
    | ok eff =>
      rw [hget] at hfin
      simp only at hfin
      injection hfin with hfin
      exact ⟨effect0, st, eff, rfl, hI.1, hI.2, hget, hfin.symm⟩

/-! ## The effect hook: what the loop body stores in a part -/

theorem visitedPart_ids (K : EffectConstants) (x : EffectPart) :
    (visitedPart K x).type_tag_fourcc = x.type_tag_fourcc ∧
      (visitedPart K x).type_tag_id = x.type_tag_id := by
  unfold visitedPart
  split <;> exact ⟨rfl, rfl⟩

theorem visitedPart_idem (K : EffectConstants) (x : EffectPart) :
    visitedPart K (visitedPart K x) = visitedPart K x := by
  unfold visitedPart
  by_cases h : x.type_tag_id.is_null = true
  · simp [h]
  · simp [h, classOf]

theorem visitedPart_of_ids (K : EffectConstants) {x y : EffectPart}
    (h1 : y.type_tag_fourcc = x.type_tag_fourcc) (h2 : y.type_tag_id = x.type_tag_id)
    (h3 : x.type_tag_id.is_null = false) :
    { y with type_class := classOf K y } = visitedPart K { x with type_class := y.type_class }
      := by
  cases x
  cases y
  simp only at h1 h2 h3
  subst h1
  subst h2
  simp [visitedPart, classOf, h3]

theorem partIn_setTypeClass_self {R : Type} {a : List (StructData R)} {pi p : Nat}
    {parts : List EffectPart} {part : EffectPart} (v : Nat)
    (hl : getParts a pi = .ok parts) (hp : parts[p]? = some part) :
    PartIn (setTypeClass a pi p parts part v) pi p { part with type_class := v } := by
  rw [getParts_ok] at hl
  have hlt : pi < a.length := by
    rcases Nat.lt_or_ge pi a.length with h1 | h1
    · exact h1
    · rw [List.getElem?_eq_none h1] at hl; cases hl
  have hplt : p < parts.length := by
    rcases Nat.lt_or_ge p parts.length with h1 | h1
    · exact h1
    · rw [List.getElem?_eq_none h1] at hp; cases hp
  unfold setTypeClass
  exact ⟨_, by rw [getParts_ok, List.getElem?_set_self hlt], List.getElem?_set_self hplt⟩

theorem partIn_setTypeClass_other {R : Type} {a : List (StructData R)} {pi p i q : Nat}
    {parts : List EffectPart} {part y : EffectPart} (v : Nat)
    (hl : getParts a pi = .ok parts) (hne : i ≠ pi ∨ q ≠ p) (hy : PartIn a i q y) :
    PartIn (setTypeClass a pi p parts part v) i q y := by
  obtain ⟨l, hyl, hq⟩ := hy
  unfold setTypeClass
  by_cases hi : pi = i
  · subst hi
    rw [hl] at hyl
    injection hyl with hyl
    subst hyl
    have hqp : p ≠ q := by
      rcases hne with h | h
      · exact absurd rfl h
      · exact fun h0 => h h0.symm
    rw [getParts_ok] at hl
    have hlt : pi < a.length := by
      rcases Nat.lt_or_ge pi a.length with h1 | h1
      · exact h1
      · rw [List.getElem?_eq_none h1] at hl; cases hl
    refine ⟨_, by rw [getParts_ok, List.getElem?_set_self hlt], ?_⟩
    rw [List.getElem?_set_ne hqp]
    exact hq
  · rw [getParts_ok] at hyl
    exact ⟨l, by rw [getParts_ok, List.getElem?_set_ne hi]; exact hyl, hq⟩

/-- What the loop body does to the parts: the part at hand is left as `visitedPart` says,
every other part is left alone. -/
theorem processPart_parts {R : Type} [LinearOrder R] {K : EffectConstants}
    {tags : List BuildWorkloadTag} {si so pi p : Nat} {st st1 : HookState R}
    (h : processPart K tags si so pi p st = .ok st1) :
    ∃ part, PartIn st.structs pi p part ∧ PartIn st1.structs pi p (visitedPart K part) ∧
      ∀ i q y, (i ≠ pi ∨ q ≠ p) → PartIn st.structs i q y → PartIn st1.structs i q y := by
  unfold processPart at h
  cases hl : getParts st.structs pi with
  | error err => rw [hl] at h; cases h
  | ok parts =>
    rw [hl] at h
    simp only at h
    cases hp : parts[p]? with
    | none => rw [hp] at h; cases h
    | some part =>
      rw [hp] at h
      simp only at h
      refine ⟨part, ⟨parts, hl, hp⟩, ?_⟩
      by_cases hn : part.type_tag_id.is_null = true
      · rw [if_pos hn] at h
        injection h with h
        subst h
        refine ⟨?_, fun _ _ _ _ hy => hy⟩
        unfold visitedPart
        rw [if_pos hn]
        exact ⟨parts, hl, hp⟩
      · rw [if_neg hn] at h
        by_cases hobj : K.IS_OBJECT_TAG part.type_tag_fourcc = true
        · rw [if_pos hobj] at h
          injection h with h
          subst h
          refine ⟨?_, fun i q y hne hy => partIn_setTypeClass_other _ hl hne hy⟩
          have := @partIn_setTypeClass_self R st.structs pi p parts part K.TAG_FOURCC_OBJECT
            hl hp
          unfold visitedPart classOf
          rw [if_neg hn, if_pos hobj]
          exact this
        · rw [if_neg hobj] at h
          have hself := @partIn_setTypeClass_self R st.structs pi p parts part
            part.type_tag_fourcc hl hp
          have hvis : visitedPart K part = { part with type_class := part.type_tag_fourcc }
              := by
            unfold visitedPart classOf
            rw [if_neg hn, if_neg hobj]
          rw [hvis]
          by_cases hde : part.type_tag_fourcc = K.TAG_FOURCC_DAMAGE_EFFECT
          · simp only [if_pos hde] at h
            exact ⟨raiseRadius_keeps_parts h hself, fun i q y hne hy =>
              raiseRadius_keeps_parts h (partIn_setTypeClass_other _ hl hne hy)⟩
          · simp only [if_neg hde] at h
            injection h with h
            subst h
            exact ⟨hself, fun i q y hne hy => partIn_setTypeClass_other _ hl hne hy⟩

theorem raisedTo_nan {R : Type} [LinearOrder R] (r : FloatValue R) :
    raisedTo r FloatValue.nan = FloatValue.nan := by
  unfold raisedTo FloatValue.gt
  cases r <;> simp

theorem raisedTo_of_nan {R : Type} [LinearOrder R] (c : FloatValue R) :
    raisedTo FloatValue.nan c = c := by
  unfold raisedTo FloatValue.gt
  simp

/-! ## The effect hook: the general invariant is kept -/

theorem isPart_partIn {R : Type} {a : List (StructData R)} {si so e p pi : Nat}
    {x : EffectPart} (h : IsPart a si so e p pi x) : PartIn a pi p x := by
  obtain ⟨_, _, _, _, hin⟩ := h
  exact hin

theorem radiusRaised_congr {R : Type} [LinearOrder R] {K : EffectConstants}
    {S0 : List (StructData R)} {tags : List BuildWorkloadTag} {si so e p e2 p2 : Nat}
    {before after : FloatValue R}
    (hb : ∀ e1 p1 pi part, IsPart S0 si so e1 p1 pi part →
      (Before e p e1 p1 ↔ Before e2 p2 e1 p1))
    (h : RadiusRaised K S0 tags si so e p before after) :
    RadiusRaised K S0 tags si so e2 p2 before after := by
  unfold RadiusRaised at h ⊢
  cases before with
  | nan => exact h
  | num m0 =>
    obtain ⟨m, h1, h2, h3, h4⟩ := h
    refine ⟨m, h1, h2, ?_, ?_⟩
    · intro e1 p1 pi part x hbe hpart
      exact h3 e1 p1 pi part x ((hb _ _ _ _ hpart).mpr hbe) hpart
    · rcases h4 with h4 | ⟨e1, p1, pi, part, h5, h6, h7⟩
      · exact Or.inl h4
      · exact Or.inr ⟨e1, p1, pi, part, (hb _ _ _ _ h6).mp h5, h6, h7⟩

/-- The radius after one more part: raised by the radius of the part's damage effect when
the hook looks at it, left alone otherwise. -/
theorem radiusRaised_step {R : Type} [LinearOrder R] {K : EffectConstants}
    {S0 : List (StructData R)} {tags : List BuildWorkloadTag} {si so e p pi : Nat}
    {part0 : EffectPart} {before cur nxt : FloatValue R}
    (hpart0 : IsPart S0 si so e p pi part0)
    (h : RadiusRaised K S0 tags si so e p before cur)
    (hnxt : (∃ r, RaisesRadius K part0 ∧ HasRadius S0 tags part0 r ∧ nxt = raisedTo r cur) ∨
      (¬ RaisesRadius K part0 ∧ nxt = cur)) :
    RadiusRaised K S0 tags si so e (p + 1) before nxt := by
  have hweak : ∀ e1 p1, Before e p e1 p1 → Before e (p + 1) e1 p1 :=
    fun e1 p1 hb => (before_succ e p e1 p1).mpr (Or.inl hb)
  have hhere : Before e (p + 1) e p := (before_succ e p e p).mpr (Or.inr ⟨rfl, rfl⟩)
  unfold RadiusRaised at h ⊢
  cases before with
  | nan =>
    simp only at h ⊢
    rcases hnxt with ⟨r, _, _, hn⟩ | ⟨_, hn⟩
    · rw [hn, h, raisedTo_nan]
    · rw [hn, h]
  | num m0 =>
    simp only at h ⊢
    obtain ⟨m, hcur, hm0, hbound, hatt⟩ := h
    have hkeep : (∀ x, ¬ (RaisesRadius K part0 ∧ HasRadius S0 tags part0 (.num x))) →
        nxt = cur →
        ∃ m, nxt = .num m ∧ m0 ≤ m ∧
          (∀ e1 p1 pi part x, Before e (p + 1) e1 p1 → IsPart S0 si so e1 p1 pi part →
            RaisesRadius K part → HasRadius S0 tags part (.num x) → x ≤ m) ∧
          (m = m0 ∨ ∃ e1 p1 pi part, Before e (p + 1) e1 p1 ∧
            IsPart S0 si so e1 p1 pi part ∧ RaisesRadius K part ∧
            HasRadius S0 tags part (.num m)) := by
      intro hno hn
      refine ⟨m, by rw [hn, hcur], hm0, ?_, ?_⟩
      · intro e1 p1 pi1 part1 y h1 h2 h3 h4
        rcases (before_succ e p e1 p1).mp h1 with h5 | ⟨h5, h6⟩
        · exact hbound e1 p1 pi1 part1 y h5 h2 h3 h4
        · subst h5
          subst h6
          obtain ⟨h7, h8⟩ := isPart_unique h2 hpart0
          subst h7
          subst h8
          exact absurd ⟨h3, h4⟩ (hno y)
      · rcases hatt with h1 | ⟨e1, p1, pi1, part1, h1, h2, h3, h4⟩
        · exact Or.inl h1
        · exact Or.inr ⟨e1, p1, pi1, part1, hweak _ _ h1, h2, h3, h4⟩
    rcases hnxt with ⟨r, hrp, hr0, hn⟩ | ⟨hrp, hn⟩
    · cases r with
      | nan =>
        refine hkeep ?_ (by rw [hn, raisedTo_of_nan])
        rintro x ⟨_, hx⟩
        have := hasRadius_unique hx hr0
        cases this
      | num x =>
        rw [hcur, raisedTo_num] at hn
        refine ⟨max m x, hn, le_trans hm0 (le_max_left m x), ?_, ?_⟩
        · intro e1 p1 pi1 part1 y h1 h2 h3 h4
          rcases (before_succ e p e1 p1).mp h1 with h5 | ⟨h5, h6⟩
          · exact le_trans (hbound e1 p1 pi1 part1 y h5 h2 h3 h4) (le_max_left m x)
          · subst h5
            subst h6
            obtain ⟨h7, h8⟩ := isPart_unique h2 hpart0
            subst h7
            subst h8
            have := hasRadius_unique h4 hr0
            injection this with this
            subst this
            exact le_max_right m y
        · rcases le_total m x with hle | hle
          · rw [max_eq_right hle]
            exact Or.inr ⟨e, p, pi, part0, hhere, hpart0, hrp, hr0⟩
          · rw [max_eq_left hle]
            rcases hatt with h1 | ⟨e1, p1, pi1, part1, h1, h2, h3, h4⟩
            · exact Or.inl h1
            · exact Or.inr ⟨e1, p1, pi1, part1, hweak _ _ h1, h2, h3, h4⟩
    · exact hkeep (fun x hx => hrp hx.1) hn

/-- Before the loops start the general invariant holds with no part visited. -/
theorem hookInv_init {R : Type} [LinearOrder R] (K : EffectConstants)
    (S0 : List (StructData R)) (tags : List BuildWorkloadTag) (si so : Nat) :
    HookInv K S0 tags si so 0 0 { structs := S0, must_be_deterministic := false } := by
  have hno : ∀ e1 p1, ¬ Before 0 0 e1 p1 := by
    intro e1 p1 hb
    unfold Before at hb
    omega
  refine ⟨similar_refl _, fun _ _ _ hx => Or.inl hx, ?_, ?_, ?_, ?_⟩
  · intro e1 p1 _ _ hb
    exact absurd hb (hno e1 p1)
  · constructor
    · intro h0; cases h0
    · rintro ⟨e1, p1, _, _, hb, _⟩
      exact absurd hb (hno e1 p1)
  · intro e1 p1 hb
    exact absurd hb (hno e1 p1)
  · intro eff0 heff0
    refine ⟨eff0, heff0, ?_⟩
    unfold RadiusRaised
    cases eff0.maximum_damage_radius with
    | nan => rfl
    | num m0 =>
      refine ⟨m0, rfl, le_refl _, ?_, Or.inl rfl⟩
      intro e1 p1 _ _ _ hb
      exact absurd hb (hno e1 p1)

/-- The loop body for part `p` of event `e` carries the general invariant to part
`p + 1`. -/
theorem hookInv_part {R : Type} [LinearOrder R] {K : EffectConstants}
    {S0 : List (StructData R)} {tags : List BuildWorkloadTag} {si so e p pi : Nat}
    {event : EffectEvent} {st st1 : HookState R}
    (hev : IsEvent S0 si so e event) (hpi : event.parts_pointer = some pi)
    (hp : p < event.parts_count) (hI : HookInv K S0 tags si so e p st)
    (h : processPart K tags si so pi p st = .ok st1) :
    HookInv K S0 tags si so e (p + 1) st1 := by
  obtain ⟨part, hin, hsim, hmbd, _, hsame, hde⟩ := processPart_spec h
  obtain ⟨part1, hin1, hself, hother⟩ := processPart_parts h
  have := partIn_unique hin1 hin
  subst this
  obtain ⟨part0, hin0, hfc, hid⟩ := similar_partIn (similar_symm hI.similar) hin
  have hpart0 : IsPart S0 si so e p pi part0 := ⟨event, hev, hp, hpi, hin0⟩
  have hweak : ∀ e1 p1, Before e p e1 p1 → Before e (p + 1) e1 p1 :=
    fun e1 p1 hb => (before_succ e p e1 p1).mpr (Or.inl hb)
  have hhere : Before e (p + 1) e p := (before_succ e p e p).mpr (Or.inr ⟨rfl, rfl⟩)
  have hvis : PartIn st1.structs pi p (visitedPart K part0) := by
    rcases hI.kept pi p part0 hin0 with hk | hk
    · rw [partIn_unique hk hin]
      exact hself
    · rw [← visitedPart_idem, partIn_unique hk hin]
      exact hself
  have hsets : SetsDeterminism K part0 ↔
      (!part1.type_tag_id.is_null && !K.IS_OBJECT_TAG part1.type_tag_fourcc &&
        (part1.type_tag_fourcc == K.TAG_FOURCC_DAMAGE_EFFECT ||
          part1.type_tag_fourcc == K.TAG_FOURCC_LIGHT)) = true := by
    unfold SetsDeterminism
    rw [hfc, hid]
    simp only [Bool.and_eq_true, Bool.not_eq_true', Bool.or_eq_true, beq_iff_eq]
    tauto
  have hraises : RaisesRadius K part0 ↔
      (part1.type_tag_id.is_null = false ∧ K.IS_OBJECT_TAG part1.type_tag_fourcc = false ∧
        part1.type_tag_fourcc = K.TAG_FOURCC_DAMAGE_EFFECT) := by
    unfold RaisesRadius
    rw [hfc, hid]
  have hradius : ∀ r, HasRadius st.structs tags part1 r → HasRadius S0 tags part0 r :=
    fun r hr => hasRadius_of_id hid.symm
      (hasRadius_similar (similar_symm hI.similar) tags part1 r hr)
  refine ⟨similar_trans hI.similar hsim, ?_, ?_, ?_, ?_, ?_⟩
  · intro i q x hx
    by_cases hpos : i = pi ∧ q = p
    · obtain ⟨h1, h2⟩ := hpos
      subst h1
      subst h2
      rw [partIn_unique hx hin0]
      exact Or.inr hvis
    · have hne : i ≠ pi ∨ q ≠ p := by
        by_cases h1 : i = pi
        · exact Or.inr (fun h2 => hpos ⟨h1, h2⟩)
        · exact Or.inl h1
      rcases hI.kept i q x hx with hk | hk
      · exact Or.inl (hother i q _ hne hk)
      · exact Or.inr (hother i q _ hne hk)
  · intro e1 p1 pi1 x hb hx
    by_cases hpos : pi1 = pi ∧ p1 = p
    · obtain ⟨h1, h2⟩ := hpos
      subst h1
      subst h2
      rw [partIn_unique (isPart_partIn hx) hin0]
      exact hvis
    · have hne : pi1 ≠ pi ∨ p1 ≠ p := by
        by_cases h1 : pi1 = pi
        · exact Or.inr (fun h2 => hpos ⟨h1, h2⟩)
        · exact Or.inl h1
      rcases (before_succ e p e1 p1).mp hb with h4 | ⟨h4, h5⟩
      · exact hother pi1 p1 _ hne (hI.visited e1 p1 pi1 x h4 hx)
      · subst h4
        subst h5
        exact absurd ⟨(isPart_unique hx hpart0).1, rfl⟩ hpos
  · rw [hmbd, Bool.or_eq_true, hI.det, ← hsets]
    constructor
    · rintro (⟨e1, p1, pi1, x, h1, h2, h3⟩ | h1)
      · exact ⟨e1, p1, pi1, x, hweak _ _ h1, h2, h3⟩
      · exact ⟨e, p, pi, part0, hhere, hpart0, h1⟩
    · rintro ⟨e1, p1, pi1, x, h1, h2, h3⟩
      rcases (before_succ e p e1 p1).mp h1 with h4 | ⟨h4, h5⟩
      · exact Or.inl ⟨e1, p1, pi1, x, h4, h2, h3⟩
      · subst h4
        subst h5
        obtain ⟨_, h7⟩ := isPart_unique h2 hpart0
        subst h7
        exact Or.inr h3
  · intro e1 p1 hb
    rcases (before_succ e p e1 p1).mp hb with h4 | ⟨h4, h5⟩
    · exact hI.resolved e1 p1 h4
    · subst h4
      subst h5
      refine ⟨event, hev, fun _ => ⟨pi, part0, hpart0, ?_⟩⟩
      intro hrp
      obtain ⟨h1, h2, h3⟩ := hraises.mp hrp
      obtain ⟨r, _, hr, _, _⟩ := hde h1 h2 h3
      exact ⟨r, hradius r hr⟩
  · intro eff0 heff0
    obtain ⟨eff, hget, hrr⟩ := hI.radius eff0 heff0
    by_cases hrp : RaisesRadius K part0
    · obtain ⟨h1, h2, h3⟩ := hraises.mp hrp
      obtain ⟨r, e0, hr, hget0, hget1⟩ := hde h1 h2 h3
      rw [hget] at hget0
      injection hget0 with hget0
      subst hget0
      exact ⟨_, hget1, radiusRaised_step hpart0 hrr
        (Or.inl ⟨r, hrp, hradius r hr, rfl⟩)⟩
    · have hget1 : getEffect st1.structs si so = getEffect st.structs si so := by
        apply hsame
        by_contra hcon
        apply hrp
        rw [hraises]
        refine ⟨?_, ?_, ?_⟩
        · by_contra h0
          exact hcon (Or.inl (by simpa using h0))
        · by_contra h0
          exact hcon (Or.inr (Or.inl (by simpa using h0)))
        · by_contra h0
          exact hcon (Or.inr (Or.inr h0))
      exact ⟨eff, by rw [hget1]; exact hget, radiusRaised_step hpart0 hrr (Or.inr ⟨hrp, rfl⟩)⟩

/-- At the last part of event `e` the general invariant passes to event `e + 1`. -/
theorem hookInv_next {R : Type} [LinearOrder R] {K : EffectConstants}
    {S0 : List (StructData R)} {tags : List BuildWorkloadTag} {si so e : Nat}
    {event : EffectEvent} {st : HookState R} (hev : IsEvent S0 si so e event)
    (hI : HookInv K S0 tags si so e event.parts_count st) :
    HookInv K S0 tags si so (e + 1) 0 st := by
  have hb : ∀ e1 p1 pi part, IsPart S0 si so e1 p1 pi part →
      (Before e event.parts_count e1 p1 ↔ Before (e + 1) 0 e1 p1) := by
    intro e1 p1 pi part hpart
    refine (before_next_event e event.parts_count e1 p1 ?_).symm
    intro h1
    subst h1
    obtain ⟨event1, h2, h3, _, _⟩ := hpart
    rw [isEvent_unique hev h2]
    exact h3
  refine ⟨hI.similar, hI.kept, ?_, ?_, ?_, ?_⟩
  · intro e1 p1 pi part h1 h2
    exact hI.visited e1 p1 pi part ((hb _ _ _ _ h2).mpr h1) h2
  · rw [hI.det]
    constructor
    · rintro ⟨e1, p1, pi, part, h1, h2, h3⟩
      exact ⟨e1, p1, pi, part, (hb _ _ _ _ h2).mp h1, h2, h3⟩
    · rintro ⟨e1, p1, pi, part, h1, h2, h3⟩
      exact ⟨e1, p1, pi, part, (hb _ _ _ _ h2).mpr h1, h2, h3⟩
  · intro e1 p1 h1
    by_cases he1 : e1 = e
    · subst he1
      refine ⟨event, hev, fun hp1 => ?_⟩
      obtain ⟨event1, h2, h3⟩ := hI.resolved e1 p1 (Or.inr ⟨rfl, hp1⟩)
      rw [isEvent_unique h2 hev] at h3
      exact h3 hp1
    · apply hI.resolved e1 p1
      unfold Before at h1 ⊢
      omega
  · intro eff0 heff0
    obtain ⟨eff, h1, h2⟩ := hI.radius eff0 heff0
    exact ⟨eff, h1, radiusRaised_congr hb h2⟩

/-- What a run of the hook with recursion enabled establishes, without any assumption on
the enumerators: the loops end in a state `st` that satisfies the general invariant with
every event visited, and the workload returned is the one of `st` with the flags of the
effect `eff` updated. -/
theorem post_compile_general {R : Type} [LinearOrder R] {K : EffectConstants}
    {wl wl1 : BuildWorkload R} {si so : Nat} (hrec : wl.disable_recursion = false)
    (h : post_compile K wl si so = .ok wl1) :
    ∃ eff0 st eff, getEffect wl.structs si so = .ok eff0 ∧
      HookInv K wl.structs wl.tags si so eff0.events_count 0 st ∧
      getEffect st.structs si so = .ok eff ∧ wl1 = storeFlags K wl si so st eff := by
  obtain ⟨eff0, st, eff, h1, _, h3, h4, h5⟩ := post_compile_rule
    (fun e p st => HookInv K wl.structs wl.tags si so e p st) hrec h
    (hookInv_init K wl.structs wl.tags si so)
    (fun e p pi event st st1 hev hpi hp _ hI hrun => hookInv_part hev hpi hp hI hrun)
    (fun e event st hev _ hI => hookInv_next hev hI)
  exact ⟨eff0, st, eff, h1, h3, h4, h5⟩

/-- Every part of the effect lies before the end of the loops. -/
theorem isPart_before_end {R : Type} {S0 : List (StructData R)} {si so e p pi : Nat}
    {part : EffectPart} {eff0 : EffectData R} (heff : getEffect S0 si so = .ok eff0)
    (h : IsPart S0 si so e p pi part) : Before eff0.events_count 0 e p := by
  obtain ⟨event, ⟨eff1, _, _, h1, h2, _⟩, _⟩ := h
  rw [heff] at h1
  injection h1 with h1
  subst h1
  exact Or.inl h2

/-! ## The effect hook: every bit of the flags -/

/-- Bit by bit, what lines 60-71 leave in the flags: a bit of the input survives when it is
one of the 32 bits and belongs to neither deterministic mask, and the bits of the mask for
the target engine are added when determinism is required. -/
theorem testBit_updateFlags (K : EffectConstants) (engine : CacheFileEngine)
    (must_be_deterministic : Bool) (flags i : Nat) :
    (updateFlags K engine must_be_deterministic flags).testBit i =
      ((flags.testBit i && (decide (i < 32) &&
          !(K.EFFECT_FLAGS_FLAG_MUST_BE_DETERMINISTIC |||
            K.EFFECT_FLAGS_FLAG_MUST_BE_DETERMINISTIC_XBOX).testBit i)) ||
        (must_be_deterministic && (deterministicBit K engine).testBit i)) := by
  unfold updateFlags
  cases must_be_deterministic with
  | true =>
    simp only [if_true, Bool.true_and]
    rw [Nat.testBit_or, Nat.testBit_and, testBit_complement32]
  | false =>
    simp only [Bool.false_eq_true, if_false, Bool.false_and, Bool.or_false]
    rw [Nat.testBit_and, testBit_complement32]

/-- When determinism is not required, both deterministic masks are cleared. -/
theorem updateFlags_cleared (K : EffectConstants) (engine : CacheFileEngine) (flags : Nat) :
    updateFlags K engine false flags &&&
      (K.EFFECT_FLAGS_FLAG_MUST_BE_DETERMINISTIC |||
        K.EFFECT_FLAGS_FLAG_MUST_BE_DETERMINISTIC_XBOX) = 0 := by
  apply Nat.eq_of_testBit_eq
  intro i
  rw [Nat.testBit_and, testBit_updateFlags, Nat.zero_testBit]
  cases (K.EFFECT_FLAGS_FLAG_MUST_BE_DETERMINISTIC |||
    K.EFFECT_FLAGS_FLAG_MUST_BE_DETERMINISTIC_XBOX).testBit i <;> simp

/-- A second update with the same requirement changes nothing. -/
theorem updateFlags_idem (K : EffectConstants) (engine : CacheFileEngine)
    (must_be_deterministic : Bool) (flags : Nat) :
    updateFlags K engine must_be_deterministic
      (updateFlags K engine must_be_deterministic flags) =
      updateFlags K engine must_be_deterministic flags := by
  apply Nat.eq_of_testBit_eq
  intro i
  rw [testBit_updateFlags, testBit_updateFlags]
  cases flags.testBit i <;> cases decide (i < 32) <;>
    cases (K.EFFECT_FLAGS_FLAG_MUST_BE_DETERMINISTIC |||
      K.EFFECT_FLAGS_FLAG_MUST_BE_DETERMINISTIC_XBOX).testBit i <;>
    cases must_be_deterministic <;> cases (deterministicBit K engine).testBit i <;> rfl

theorem getEffect_storeFlags {R : Type} {K : EffectConstants} {wl : BuildWorkload R}
    {si so : Nat} {st : HookState R} {eff : EffectData R}
    (hget : getEffect st.structs si so = .ok eff) :
    ∃ eff1, getEffect (storeFlags K wl si so st eff).structs si so = .ok eff1 ∧
      eff1.flags =
        updateFlags K wl.build_cache_file_engine st.must_be_deterministic eff.flags ∧
      eff1.maximum_damage_radius = eff.maximum_damage_radius ∧
      eff1.events_count = eff.events_count ∧ eff1.events_pointer = eff.events_pointer :=
  ⟨_, getEffect_set_self _ _ _ _ _ hget, rfl, rfl, rfl, rfl⟩

/-! ## Settled claims: classes and flags of the effect hook -/

/-- C23: with recursion enabled, `Effect::post_compile` returns whenever every reference it
follows resolves, and in the workload it returns every part of every event of the effect
whose tag id is not null has as `type_class` the class `TAG_FOURCC_OBJECT` when its
dependency's class is an object class and the dependency's class otherwise. A deterministic
bit is set in the flags only if some part that is not of an object class has a tag id that is
not null and the class damage effect or light, and the radius differs from the one before
only if it is the radius of the damage effect of such a part of class damage effect. -/
theorem effect_parts_classified {R : Type} [LinearOrder R] (K : EffectConstants)
    (wl : BuildWorkload R) (si so : Nat) (hrec : wl.disable_recursion = false) :
    (Resolves K wl.structs wl.tags si so → ∃ wl1, post_compile K wl si so = .ok wl1) ∧
    ∀ wl1, post_compile K wl si so = .ok wl1 →
      (∀ e p pi part, IsPart wl.structs si so e p pi part →
        part.type_tag_id.is_null = false →
        PartIn wl1.structs pi p { part with type_class := classOf K part }) ∧
      (∀ eff0 eff1, getEffect wl.structs si so = .ok eff0 →
        getEffect wl1.structs si so = .ok eff1 →
        (eff1.flags &&& (K.EFFECT_FLAGS_FLAG_MUST_BE_DETERMINISTIC |||
            K.EFFECT_FLAGS_FLAG_MUST_BE_DETERMINISTIC_XBOX) ≠ 0 →
          ∃ e p pi part, IsPart wl.structs si so e p pi part ∧
            part.type_tag_id.is_null = false ∧
            K.IS_OBJECT_TAG part.type_tag_fourcc = false ∧
            (part.type_tag_fourcc = K.TAG_FOURCC_DAMAGE_EFFECT ∨
              part.type_tag_fourcc = K.TAG_FOURCC_LIGHT)) ∧
        (eff1.maximum_damage_radius ≠ eff0.maximum_damage_radius →
          ∃ e p pi part, IsPart wl.structs si so e p pi part ∧
            part.type_tag_id.is_null = false ∧
            K.IS_OBJECT_TAG part.type_tag_fourcc = false ∧
            part.type_tag_fourcc = K.TAG_FOURCC_DAMAGE_EFFECT ∧
            HasRadius wl.structs wl.tags part eff1.maximum_damage_radius)) := by
  refine ⟨post_compile_returns K wl si so, fun wl1 h => ?_⟩
  obtain ⟨eff0, st, eff, heff0, hI, hget, hwl⟩ := post_compile_general hrec h
  subst hwl
  refine ⟨?_, ?_⟩
  · intro e p pi part hpart hnn
    have hv := hI.visited e p pi part (isPart_before_end heff0 hpart) hpart
    unfold visitedPart at hv
    rw [if_neg (by simp [hnn])] at hv
    exact partIn_set_effect hget hv
  · intro eff0a eff1 h0 h1
    rw [heff0] at h0
    injection h0 with h0
    subst h0
    obtain ⟨eff1a, hget1, hflags, hmax, _, _⟩ :=
      @getEffect_storeFlags R K wl si so st eff hget
    rw [hget1] at h1
    injection h1 with h1
    subst h1
    refine ⟨?_, ?_⟩
    · intro hset
      rw [hflags] at hset
      cases hm : st.must_be_deterministic with
      | false =>
        rw [hm, updateFlags_cleared] at hset
        exact absurd rfl hset
      | true =>
        obtain ⟨e, p, pi, part, _, h2, h3⟩ := hI.det.mp hm
        exact ⟨e, p, pi, part, h2, h3⟩
    · intro hne
      rw [hmax] at hne ⊢
      obtain ⟨eff2, hget2, hrr⟩ := hI.radius eff0 heff0
      rw [hget] at hget2
      injection hget2 with hget2
      subst hget2
      unfold RadiusRaised at hrr
      cases hb : eff0.maximum_damage_radius with
      | nan =>
        rw [hb] at hrr hne
        exact absurd hrr hne
      | num m0 =>
        rw [hb] at hrr hne
        obtain ⟨m, h2, _, _, h5⟩ := hrr
        rcases h5 with h5 | ⟨e, p, pi, part, _, h6, h7, h8⟩
        · rw [h5] at h2
          exact absurd h2 hne
        · rw [h2]
          exact ⟨e, p, pi, part, h6, h7.1, h7.2.1, h7.2.2, h8⟩

/-- C23 (witness): the weapon part of the example gets the class `obje`, the sound part its
own class, and the part with the null tag id is left alone. -/
theorem effect_parts_classified_witness :
    post_compile exampleEffectConstants exampleObjectWorkload 0 0 = .ok exampleObjectResult ∧
    PartIn exampleObjectResult.structs 2 0
      { exampleWeaponPart with type_class := exampleEffectConstants.TAG_FOURCC_OBJECT } ∧
    PartIn exampleObjectResult.structs 2 0
      { exampleWeaponPart with type_class := classOf exampleEffectConstants exampleWeaponPart }
    :=
  ⟨rfl, ⟨_, rfl, rfl⟩,
    ((effect_parts_classified exampleEffectConstants exampleObjectWorkload 0 0 rfl).2
      exampleObjectResult rfl).1 0 0 2 exampleWeaponPart
      ⟨_, ⟨_, 1, _, rfl, by decide, rfl, rfl, rfl⟩, by decide, rfl, _, rfl, rfl⟩ rfl⟩

/-- C24: with recursion enabled, when the two deterministic flags are two different bits
`2 ^ a` and `2 ^ b`, `Effect::post_compile` returns whenever every
reference it follows resolves, and in the workload it returns the flags of the effect are as
follows. For the Xbox engine the Xbox bit `b` is set exactly when determinism is required
(some part sets it) and bit `a` is clear; for every other engine bit `a` is set exactly when
determinism is required and bit `b` is clear; so the two are never both set, and both are
clear when determinism is not required. Every other bit of the 32 is as before the hook. -/
theorem effect_deterministic_bits_exclusive {R : Type} [LinearOrder R]
    (K : EffectConstants) (wl : BuildWorkload R) (si so a b : Nat)
    (hrec : wl.disable_recursion = false)
    (ha : K.EFFECT_FLAGS_FLAG_MUST_BE_DETERMINISTIC = 2 ^ a)
    (hb : K.EFFECT_FLAGS_FLAG_MUST_BE_DETERMINISTIC_XBOX = 2 ^ b)
    (hab : a ≠ b) :
    (Resolves K wl.structs wl.tags si so → ∃ wl1, post_compile K wl si so = .ok wl1) ∧
    ∀ wl1, post_compile K wl si so = .ok wl1 →
      ∃ eff0 eff1, getEffect wl.structs si so = .ok eff0 ∧
        getEffect wl1.structs si so = .ok eff1 ∧
        (wl.build_cache_file_engine = .CACHE_FILE_XBOX →
          (eff1.flags.testBit b = true ↔
            ∃ e p pi part, IsPart wl.structs si so e p pi part ∧ SetsDeterminism K part) ∧
          eff1.flags.testBit a = false) ∧
        (wl.build_cache_file_engine ≠ .CACHE_FILE_XBOX →
          (eff1.flags.testBit a = true ↔
            ∃ e p pi part, IsPart wl.structs si so e p pi part ∧ SetsDeterminism K part) ∧
          eff1.flags.testBit b = false) ∧
        (∀ i, i < 32 → i ≠ a → i ≠ b → eff1.flags.testBit i = eff0.flags.testBit i) := by
  refine ⟨post_compile_returns K wl si so, fun wl1 h => ?_⟩
  obtain ⟨eff0, st, eff, heff0, hI, hget, hwl⟩ := post_compile_general hrec h
  subst hwl
  obtain ⟨eff1, hget1, hflags, _, _, _⟩ := @getEffect_storeFlags R K wl si so st eff hget
  obtain ⟨eff2, hget2, hf2, _, _⟩ := similar_getEffect hI.similar heff0
  rw [hget] at hget2
  injection hget2 with hget2
  subst hget2
  have hreq : st.must_be_deterministic = true ↔
      ∃ e p pi part, IsPart wl.structs si so e p pi part ∧ SetsDeterminism K part := by
    rw [hI.det]
    constructor
    · rintro ⟨e, p, pi, part, _, h2, h3⟩
      exact ⟨e, p, pi, part, h2, h3⟩
    · rintro ⟨e, p, pi, part, h2, h3⟩
      exact ⟨e, p, pi, part, isPart_before_end heff0 h2, h2, h3⟩
  have hbit : ∀ i, eff1.flags.testBit i =
      ((eff0.flags.testBit i && (decide (i < 32) && !(decide (a = i) || decide (b = i)))) ||
        (st.must_be_deterministic &&
          (if wl.build_cache_file_engine = .CACHE_FILE_XBOX then decide (b = i)
            else decide (a = i)))) := by
    intro i
    rw [hflags, testBit_updateFlags, hf2, Nat.testBit_or, ha, hb, Nat.testBit_two_pow,
      Nat.testBit_two_pow]
    unfold deterministicBit
    split
    · rw [hb, Nat.testBit_two_pow]
    · rw [ha, Nat.testBit_two_pow]
  refine ⟨eff0, eff1, heff0, hget1, ?_, ?_, ?_⟩
  · intro hx
    have hba : ¬ b = a := fun h0 => hab h0.symm
    refine ⟨?_, ?_⟩
    · rw [← hreq, hbit, if_pos hx]
      simp
    · rw [hbit, if_pos hx]
      simp [hba]
  · intro hx
    refine ⟨?_, ?_⟩
    · rw [← hreq, hbit, if_neg hx]
      simp
    · rw [hbit, if_neg hx]
      simp [hab]
  · intro i hi hia hib
    have h1 : ¬ a = i := fun h0 => hia h0.symm
    have h2 : ¬ b = i := fun h0 => hib h0.symm
    rw [hbit]
    split <;> simp [hi, h1, h2]

/-- C24 (witness): in the example of the specification, built for Custom Edition with the
bits 4 and 2, the flags 1 become 5: bit 2 is set, bit 1 is clear and bit 0 is kept. In the
example with the weapon part, where determinism is not required, the flags 7 become 1. -/
theorem effect_deterministic_bits_exclusive_witness :
    (getEffect exampleResult.structs 0 0).map (fun eff => eff.flags) = .ok 5 ∧
    (getEffect exampleObjectResult.structs 0 0).map (fun eff => eff.flags) = .ok 1 ∧
    ∃ eff0 eff1, getEffect exampleWorkload.structs 0 0 = .ok eff0 ∧
      getEffect exampleResult.structs 0 0 = .ok eff1 ∧
      (exampleWorkload.build_cache_file_engine = .CACHE_FILE_XBOX →
        (eff1.flags.testBit 1 = true ↔
          ∃ e p pi part, IsPart exampleWorkload.structs 0 0 e p pi part ∧
            SetsDeterminism exampleEffectConstants part) ∧
        eff1.flags.testBit 2 = false) ∧
      (exampleWorkload.build_cache_file_engine ≠ .CACHE_FILE_XBOX →
        (eff1.flags.testBit 2 = true ↔
          ∃ e p pi part, IsPart exampleWorkload.structs 0 0 e p pi part ∧
            SetsDeterminism exampleEffectConstants part) ∧
        eff1.flags.testBit 1 = false) ∧
      (∀ i, i < 32 → i ≠ 2 → i ≠ 1 → eff1.flags.testBit i = eff0.flags.testBit i) :=
  ⟨rfl, rfl,
    (effect_deterministic_bits_exclusive exampleEffectConstants exampleWorkload 0 0 2 1
      rfl rfl rfl (by decide)).2 exampleResult rfl⟩

/-! ## The effect hook: heaps of the same shape -/

theorem shape_refl {R : Type} (a : List (StructData R)) : Shape a a := rfl

theorem shape_symm {R : Type} {a b : List (StructData R)} (h : Shape a b) : Shape b a :=
  Eq.symm h

theorem shape_trans {R : Type} {a b c : List (StructData R)} (h1 : Shape a b)
    (h2 : Shape b c) : Shape a c :=
  Eq.trans h1 h2

theorem shape_getElem? {R : Type} {a b : List (StructData R)} (h : Shape a b) (i : Nat) :
    (a[i]?).map eraseShape = (b[i]?).map eraseShape := by
  have := congrArg (fun l => l[i]?) h
  simpa [List.getElem?_map] using this

theorem eraseShape_of_eraseStruct {R : Type} {x y : StructData R}
    (h : eraseStruct x = eraseStruct y) : eraseShape x = eraseShape y := by
  cases x <;> cases y <;> simp_all [eraseStruct, eraseShape]

theorem shape_of_similar {R : Type} {a b : List (StructData R)} (h : Similar a b) :
    Shape a b := by
  unfold Shape
  apply List.ext_getElem?
  intro i
  have := similar_getElem? h i
  simp only [List.getElem?_map]
  cases ha : a[i]? with
  | none =>
    cases hb : b[i]? with
    | none => rfl
    | some y => rw [ha, hb] at this; cases this
  | some x =>
    cases hb : b[i]? with
    | none => rw [ha, hb] at this; cases this
    | some y =>
      rw [ha, hb] at this
      simp only [Option.map_some', Option.some.injEq] at this ⊢
      exact eraseShape_of_eraseStruct this

/-- Storing an effect with the same events block over the effect keeps the shape. -/
theorem shape_set_effect {R : Type} {a : List (StructData R)} {si so : Nat}
    {e e1 : EffectData R} (h : getEffect a si so = .ok e)
    (hc : e1.events_count = e.events_count) (hp : e1.events_pointer = e.events_pointer) :
    Shape a (a.set si (.effect so e1)) := by
  rw [getEffect_ok] at h
  have hlt : si < a.length := by
    rcases Nat.lt_or_ge si a.length with h1 | h1
    · exact h1
    · rw [List.getElem?_eq_none h1] at h; cases h
  unfold Shape
  apply List.ext_getElem?
  intro n
  simp only [List.getElem?_map]
  by_cases hn : si = n
  · subst hn
    rw [List.getElem?_set_self hlt, h]
    simp only [Option.map_some', eraseShape, hc, hp]
  · rw [List.getElem?_set_ne hn]

theorem eraseShape_eq_effect {R : Type} {x : StructData R} {o : Nat} {e : EffectData R}
    (h : eraseShape x = .effect o e) :
    ∃ e0, x = .effect o e0 ∧ e0.events_count = e.events_count ∧
      e0.events_pointer = e.events_pointer := by
  cases x with
  | effect o0 e0 =>
    simp only [eraseShape, StructData.effect.injEq] at h
    obtain ⟨h1, h2⟩ := h
    subst h1
    refine ⟨e0, rfl, ?_, ?_⟩ <;> rw [← h2]
  | events l => simp [eraseShape] at h
  | parts l => simp [eraseShape] at h
  | damage_effect r => simp [eraseShape] at h
  | other => simp [eraseShape] at h

theorem eraseShape_eq_parts {R : Type} {x : StructData R} {m : List EffectPart}
    (h : eraseShape x = .parts m) :
    ∃ l, x = .parts l ∧ l.map (fun part => { part with type_class := 0 }) = m := by
  cases x with
  | effect o0 e0 => simp [eraseShape] at h
  | events l => simp [eraseShape] at h
  | parts l =>
    simp only [eraseShape, StructData.parts.injEq] at h
    exact ⟨l, rfl, h⟩
  | damage_effect r => simp [eraseShape] at h
  | other => simp [eraseShape] at h

theorem eraseShape_eq_events {R : Type} {x : StructData R} {l : List EffectEvent}
    (h : eraseShape x = .events l) : x = .events l := by
  cases x <;> simp_all [eraseShape]

theorem eraseShape_eq_damage {R : Type} {x : StructData R} {r : FloatValue R}
    (h : eraseShape x = .damage_effect r) : x = .damage_effect r := by
  cases x <;> simp_all [eraseShape]

theorem shape_getEvents {R : Type} {a b : List (StructData R)} (h : Shape a b) {i : Nat}
    {l : List EffectEvent} (hl : getEvents a i = .ok l) : getEvents b i = .ok l := by
  rw [getEvents_ok] at *
  have hs := shape_getElem? h i
  rw [hl] at hs
  cases hb : b[i]? with
  | none => rw [hb] at hs; cases hs
  | some y =>
    rw [hb] at hs
    simp only [Option.map_some', Option.some.injEq, eraseShape] at hs
    rw [eraseShape_eq_events hs.symm]

theorem shape_getDamageRadius {R : Type} {a b : List (StructData R)} (h : Shape a b)
    {i : Nat} {r : FloatValue R} (hl : getDamageRadius a i = .ok r) :
    getDamageRadius b i = .ok r := by
  rw [getDamageRadius_ok] at *
  have hs := shape_getElem? h i
  rw [hl] at hs
  cases hb : b[i]? with
  | none => rw [hb] at hs; cases hs
  | some y =>
    rw [hb] at hs
    simp only [Option.map_some', Option.some.injEq, eraseShape] at hs
    rw [eraseShape_eq_damage hs.symm]

theorem shape_getEffect {R : Type} {a b : List (StructData R)} (h : Shape a b) {i o : Nat}
    {e : EffectData R} (hl : getEffect a i o = .ok e) :
    ∃ e1, getEffect b i o = .ok e1 ∧ e1.events_count = e.events_count ∧
      e1.events_pointer = e.events_pointer := by
  rw [getEffect_ok] at hl
  have hs := shape_getElem? h i
  rw [hl] at hs
  cases hb : b[i]? with
  | none => rw [hb] at hs; cases hs
  | some y =>
    rw [hb] at hs
    simp only [Option.map_some', Option.some.injEq, eraseShape] at hs
    obtain ⟨e1, h1, h3, h4⟩ := eraseShape_eq_effect hs.symm
    refine ⟨e1, ?_, h3, h4⟩
    rw [getEffect_ok, hb, h1]

theorem shape_partIn {R : Type} {a b : List (StructData R)} (h : Shape a b) {i p : Nat}
    {part : EffectPart} (hp : PartIn a i p part) :
    ∃ part1, PartIn b i p part1 ∧ part1.type_tag_fourcc = part.type_tag_fourcc ∧
      part1.type_tag_id = part.type_tag_id := by
  obtain ⟨parts, hl, hpart⟩ := hp
  rw [getParts_ok] at hl
  have hs := shape_getElem? h i
  rw [hl] at hs
  cases hb : b[i]? with
  | none => rw [hb] at hs; cases hs
  | some y =>
    rw [hb] at hs
    simp only [Option.map_some', Option.some.injEq, eraseShape] at hs
    obtain ⟨l1, h1, h2⟩ := eraseShape_eq_parts hs.symm
    have h3 := congrArg (fun l => l[p]?) h2
    simp only [List.getElem?_map, hpart, Option.map_some'] at h3
    cases hp1 : l1[p]? with
    | none => rw [hp1] at h3; cases h3
    | some part1 =>
      rw [hp1] at h3
      simp only [Option.map_some', Option.some.injEq, EffectPart.mk.injEq] at h3
      exact ⟨part1, ⟨l1, by rw [getParts_ok, hb, h1], hp1⟩, h3.1, h3.2.1⟩

theorem shape_isEvent {R : Type} {a b : List (StructData R)} (h : Shape a b)
    {si so e : Nat} {event : EffectEvent} (he : IsEvent a si so e event) :
    IsEvent b si so e event := by
  obtain ⟨eff, ei, events, h1, h2, h3, h4, h5⟩ := he
  obtain ⟨eff1, h6, h7, h8⟩ := shape_getEffect h h1
  exact ⟨eff1, ei, events, h6, by rw [h7]; exact h2, by rw [h8]; exact h3,
    shape_getEvents h h4, h5⟩

theorem shape_isPart {R : Type} {a b : List (StructData R)} (h : Shape a b)
    {si so e p pi : Nat} {part : EffectPart} (hp : IsPart a si so e p pi part) :
    ∃ part1, IsPart b si so e p pi part1 ∧ part1.type_tag_fourcc = part.type_tag_fourcc ∧
      part1.type_tag_id = part.type_tag_id := by
  obtain ⟨event, h1, h2, h3, h4⟩ := hp
  obtain ⟨part1, h5, h6, h7⟩ := shape_partIn h h4
  exact ⟨part1, ⟨event, shape_isEvent h h1, h2, h3, h5⟩, h6, h7⟩

theorem shape_hasRadius {R : Type} {a b : List (StructData R)} (h : Shape a b)
    {tags : List BuildWorkloadTag} {x y : EffectPart} {r : FloatValue R}
    (hid : x.type_tag_id = y.type_tag_id) (hr : HasRadius a tags x r) :
    HasRadius b tags y r := by
  obtain ⟨bs, h1, h2⟩ := hr
  exact ⟨bs, hid ▸ h1, shape_getDamageRadius h h2⟩

theorem setsDeterminism_of_ids {K : EffectConstants} {x y : EffectPart}
    (h1 : y.type_tag_fourcc = x.type_tag_fourcc) (h2 : y.type_tag_id = x.type_tag_id)
    (h : SetsDeterminism K x) : SetsDeterminism K y := by
  unfold SetsDeterminism at *
  rw [h1, h2]
  exact h

theorem raisesRadius_of_ids {K : EffectConstants} {x y : EffectPart}
    (h1 : y.type_tag_fourcc = x.type_tag_fourcc) (h2 : y.type_tag_id = x.type_tag_id)
    (h : RaisesRadius K x) : RaisesRadius K y := by
  unfold RaisesRadius at *
  rw [h1, h2]
  exact h

theorem shape_partsResolve {R : Type} {K : EffectConstants} {a b : List (StructData R)}
    (h : Shape a b) {tags : List BuildWorkloadTag} {pi count : Nat}
    (hr : PartsResolve K a tags pi count) : PartsResolve K b tags pi count := by
  obtain ⟨parts, h1, h2⟩ := hr
  cases count with
  | zero =>
    rw [getParts_ok] at h1
    have hs := shape_getElem? h pi
    rw [h1] at hs
    cases hb : b[pi]? with
    | none => rw [hb] at hs; cases hs
    | some y =>
      rw [hb] at hs
      simp only [Option.map_some', Option.some.injEq, eraseShape] at hs
      obtain ⟨l1, h3, _⟩ := eraseShape_eq_parts hs.symm
      exact ⟨l1, by rw [getParts_ok, hb, h3], fun p hp => absurd hp (Nat.not_lt_zero p)⟩
  | succ n =>
    obtain ⟨part0, h3, _⟩ := h2 0 (Nat.succ_pos n)
    obtain ⟨_, ⟨parts1, h4, _⟩, _⟩ := shape_partIn h ⟨parts, h1, h3⟩
    refine ⟨parts1, h4, fun p hp => ?_⟩
    obtain ⟨part, h5, h6⟩ := h2 p hp
    obtain ⟨part1, ⟨parts2, h7, h8⟩, h9, h10⟩ := shape_partIn h ⟨parts, h1, h5⟩
    rw [h4] at h7
    injection h7 with h7
    subst h7
    refine ⟨part1, h8, ?_⟩
    intro hn ho hd
    rw [h9] at ho hd
    rw [h10] at hn
    obtain ⟨r, hr⟩ := h6 hn ho hd
    exact ⟨r, shape_hasRadius h h10.symm hr⟩

theorem shape_resolves {R : Type} {K : EffectConstants} {a b : List (StructData R)}
    (h : Shape a b) {tags : List BuildWorkloadTag} {si so : Nat}
    (hr : Resolves K a tags si so) : Resolves K b tags si so := by
  obtain ⟨eff, h1, h2⟩ := hr
  obtain ⟨eff1, h3, h4, h5⟩ := shape_getEffect h h1
  refine ⟨eff1, h3, fun hc => ?_⟩
  rw [h4] at hc ⊢
  obtain ⟨ei, h6, events, h7, h8⟩ := h2 hc
  refine ⟨ei, by rw [h5]; exact h6, events, shape_getEvents h h7, fun e he => ?_⟩
  obtain ⟨event, h9, h10⟩ := h8 e he
  refine ⟨event, h9, fun hpc => ?_⟩
  obtain ⟨pi, h11, h12⟩ := h10 hpc
  exact ⟨pi, h11, shape_partsResolve h h12⟩

/-! ## The effect hook: a second run -/

theorem set_of_getElem? {α : Type} (l : List α) (i : Nat) (x : α) (h : l[i]? = some x) :
    l.set i x = l := by
  apply List.ext_getElem?
  intro n
  by_cases hn : i = n
  · subst hn
    have hlt : i < l.length := by
      rcases Nat.lt_or_ge i l.length with h1 | h1
      · exact h1
      · rw [List.getElem?_eq_none h1] at h; cases h
    rw [List.getElem?_set_self hlt, h]
  · rw [List.getElem?_set_ne hn]

theorem setTypeClass_self {R : Type} {a : List (StructData R)} {pi p : Nat}
    {parts : List EffectPart} {part : EffectPart} {v : Nat}
    (hl : getParts a pi = .ok parts) (hp : parts[p]? = some part) (hv : part.type_class = v) :
    setTypeClass a pi p parts part v = a := by
  unfold setTypeClass
  subst hv
  rw [set_of_getElem? parts p _ hp]
  exact set_of_getElem? a pi _ (getParts_ok.mp hl)

/-- On a part that is already as the loop body leaves it, and whose damage effect does not
exceed the radius of the effect, the loop body leaves the heap as it is. -/
theorem processPart_fixed {R : Type} [LinearOrder R] {K : EffectConstants}
    {tags : List BuildWorkloadTag} {si so pi p : Nat} {st st1 : HookState R}
    {part : EffectPart} (hpart : PartIn st.structs pi p part)
    (hv : visitedPart K part = part)
    (hr : RaisesRadius K part → ∀ r eff, HasRadius st.structs tags part r →
      getEffect st.structs si so = .ok eff → r.gt eff.maximum_damage_radius = false)
    (h : processPart K tags si so pi p st = .ok st1) : st1.structs = st.structs := by
  obtain ⟨parts, hl, hp⟩ := hpart
  unfold processPart at h
  rw [hl] at h
  simp only at h
  rw [hp] at h
  simp only at h
  by_cases hn : part.type_tag_id.is_null = true
  · rw [if_pos hn] at h
    injection h with h
    subst h
    rfl
  · rw [if_neg hn] at h
    have hclass : part.type_class = classOf K part := by
      unfold visitedPart at hv
      rw [if_neg hn] at hv
      have := congrArg EffectPart.type_class hv
      exact this.symm
    by_cases hobj : K.IS_OBJECT_TAG part.type_tag_fourcc = true
    · rw [if_pos hobj] at h
      injection h with h
      subst h
      refine setTypeClass_self hl hp ?_
      rw [hclass]
      unfold classOf
      rw [if_pos hobj]
    · rw [if_neg hobj] at h
      have hfix : setTypeClass st.structs pi p parts part part.type_tag_fourcc = st.structs := by
        refine setTypeClass_self hl hp ?_
        rw [hclass]
        unfold classOf
        rw [if_neg hobj]
      rw [hfix] at h
      by_cases hde : part.type_tag_fourcc = K.TAG_FOURCC_DAMAGE_EFFECT
      · simp only [if_pos hde] at h
        unfold raiseRadius at h
        cases hb : baseStructOf tags part.type_tag_id with
        | error err => rw [hb] at h; cases h
        | ok b =>
          rw [hb] at h
          simp only at h
          cases hrad : getDamageRadius st.structs b with
          | error err => rw [hrad] at h; cases h
          | ok r =>
            rw [hrad] at h
            simp only at h
            cases he : getEffect st.structs si so with
            | error err => rw [he] at h; cases h
            | ok e =>
              rw [he] at h
              simp only at h
              have hgt := hr ⟨by simpa using hn, by simpa using hobj, hde⟩ r e
                ⟨b, hb, hrad⟩ he
              rw [if_neg (by simp [hgt])] at h
              injection h with h
              subst h
              rfl
      · simp only [if_neg hde] at h
        injection h with h
        subst h
        rfl

/-- A run of the hook that returned followed every reference with success. -/
theorem resolves_of_hookInv {R : Type} [LinearOrder R] {K : EffectConstants}
    {S0 : List (StructData R)} {tags : List BuildWorkloadTag} {si so : Nat}
    {eff0 : EffectData R} {st : HookState R} (heff0 : getEffect S0 si so = .ok eff0)
    (hI : HookInv K S0 tags si so eff0.events_count 0 st) : Resolves K S0 tags si so := by
  refine ⟨eff0, heff0, fun hc => ?_⟩
  have hall : ∀ e, e < eff0.events_count → ∀ p, ∃ event, IsEvent S0 si so e event ∧
      (p < event.parts_count → ∃ pi part, IsPart S0 si so e p pi part ∧
        (RaisesRadius K part → ∃ r, HasRadius S0 tags part r)) :=
    fun e he p => hI.resolved e p (Or.inl he)
  obtain ⟨event0, ⟨eff1, ei, events, h1, _, h3, h4, _⟩, _⟩ := hall 0 (by omega) 0
  rw [heff0] at h1
  injection h1 with h1
  subst h1
  refine ⟨ei, h3, events, h4, fun e he => ?_⟩
  obtain ⟨event, hev, _⟩ := hall e he 0
  have hevs : events[e]? = some event := by
    obtain ⟨eff2, ei2, events2, h5, _, h6, h7, h8⟩ := hev
    rw [heff0] at h5
    injection h5 with h5
    subst h5
    rw [h3] at h6
    injection h6 with h6
    subst h6
    rw [h4] at h7
    injection h7 with h7
    subst h7
    exact h8
  refine ⟨event, hevs, fun hpc => ?_⟩
  have hparts : ∀ p, p < event.parts_count → ∃ pi part, IsPart S0 si so e p pi part ∧
      (RaisesRadius K part → ∃ r, HasRadius S0 tags part r) := by
    intro p hp
    obtain ⟨event1, hev1, h9⟩ := hall e he p
    rw [isEvent_unique hev1 hev] at h9
    exact h9 hp
  obtain ⟨pi, part0, hp0, _⟩ := hparts 0 (by omega)
  obtain ⟨event2, hev2, _, hptr, parts, hgp, _⟩ := hp0
  rw [isEvent_unique hev2 hev] at hptr
  refine ⟨pi, hptr, parts, hgp, fun p hp => ?_⟩
  obtain ⟨pi1, part, hpart, hrad⟩ := hparts p hp
  obtain ⟨event3, hev3, _, hptr3, parts3, hgp3, hp3⟩ := hpart
  rw [isEvent_unique hev3 hev, hptr] at hptr3
  injection hptr3 with hptr3
  subst hptr3
  rw [hgp] at hgp3
  injection hgp3 with hgp3
  subst hgp3
  exact ⟨part, hp3, fun hn ho hd => hrad ⟨hn, ho, hd⟩⟩

/-- The heap that a run of the hook returns is settled, and has the shape of the heap the
run started from. -/
theorem settled_of_hookInv {R : Type} [LinearOrder R] {K : EffectConstants}
    {wl : BuildWorkload R} {si so : Nat} {eff0 eff : EffectData R} {st : HookState R}
    (heff0 : getEffect wl.structs si so = .ok eff0)
    (hI : HookInv K wl.structs wl.tags si so eff0.events_count 0 st)
    (hget : getEffect st.structs si so = .ok eff) :
    Shape wl.structs (storeFlags K wl si so st eff).structs ∧
      Settled K (storeFlags K wl si so st eff).structs wl.tags si so := by
  have hshape : Shape wl.structs (storeFlags K wl si so st eff).structs :=
    shape_trans (shape_of_similar hI.similar) (shape_set_effect hget rfl rfl)
  refine ⟨hshape, ?_, ?_⟩
  · intro e p pi y hy
    obtain ⟨x, hx, _, _⟩ := shape_isPart (shape_symm hshape) hy
    have h1 := hI.visited e p pi x (isPart_before_end heff0 hx) hx
    have h2 : PartIn (storeFlags K wl si so st eff).structs pi p (visitedPart K x) :=
      partIn_set_effect hget h1
    rw [partIn_unique (isPart_partIn hy) h2, visitedPart_idem]
  · intro e p pi y r eff1 hy hry hr hget1
    obtain ⟨x, hx, hfc, hid⟩ := shape_isPart (shape_symm hshape) hy
    have hrx : RaisesRadius K x := raisesRadius_of_ids hfc hid hry
    have hr0 : HasRadius wl.structs wl.tags x r :=
      shape_hasRadius (shape_symm hshape) hid.symm hr
    obtain ⟨eff2, hget2, _, hmax, _, _⟩ := @getEffect_storeFlags R K wl si so st eff hget
    rw [hget1] at hget2
    injection hget2 with hget2
    subst hget2
    obtain ⟨eff3, hget3, hrr⟩ := hI.radius eff0 heff0
    rw [hget] at hget3
    injection hget3 with hget3
    subst hget3
    rw [hmax]
    unfold RadiusRaised at hrr
    cases hb : eff0.maximum_damage_radius with
    | nan =>
      rw [hb] at hrr
      simp only at hrr
      rw [hrr]
      cases r <;> rfl
    | num m0 =>
      rw [hb] at hrr
      obtain ⟨m, h1, _, h3, _⟩ := hrr
      rw [h1]
      cases r with
      | nan => rfl
      | num v =>
        have := h3 e p pi x v (isPart_before_end heff0 hx) hx hrx hr0
        simp only [FloatValue.gt, decide_eq_false_iff_not, not_lt]
        exact this

/-- Running the hook a second time changes nothing. -/
theorem post_compile_idem {R : Type} [LinearOrder R] (K : EffectConstants)
    (wl wl1 : BuildWorkload R) (si so : Nat) (h : post_compile K wl si so = .ok wl1) :
    post_compile K wl1 si so = .ok wl1 := by
  by_cases hrec : wl.disable_recursion = true
  · have h0 := h
    unfold post_compile at h0
    rw [if_pos hrec] at h0
    injection h0 with h0
    subst h0
    exact h
  · have hrec0 : wl.disable_recursion = false := by simpa using hrec
    obtain ⟨eff0, st, eff, heff0, hI, hget, hwl⟩ := post_compile_general hrec0 h
    obtain ⟨hshape, hset1, hset2⟩ := settled_of_hookInv heff0 hI hget
    obtain ⟨eff1, hget1, hflags, _, _, _⟩ := @getEffect_storeFlags R K wl si so st eff hget
    rw [← hwl] at hshape hset1 hset2 hget1
    have htags : wl1.tags = wl.tags := by rw [hwl]; rfl
    have hengine : wl1.build_cache_file_engine = wl.build_cache_file_engine := by
      rw [hwl]; rfl
    have hrec1 : wl1.disable_recursion = false := by rw [hwl]; exact hrec0
    have hres : Resolves K wl1.structs wl1.tags si so := by
      rw [htags]
      exact shape_resolves hshape (resolves_of_hookInv heff0 hI)
    obtain ⟨wl2, h2⟩ := post_compile_returns K wl1 si so hres
    rw [h2]
    obtain ⟨eff1a, st2, eff2, hget1a, _, ⟨hfix, hI2⟩, hget2, hwl2⟩ := post_compile_rule
      (fun e p s => s.structs = wl1.structs ∧ HookInv K wl1.structs wl1.tags si so e p s)
      hrec1 h2 ⟨rfl, hookInv_init K wl1.structs wl1.tags si so⟩
      (fun e p pi event s s1 hev hpi hp _ hs hrun => by
        obtain ⟨part, hin, _⟩ := processPart_spec hrun
        rw [hs.1] at hin
        have hpart : IsPart wl1.structs si so e p pi part := ⟨event, hev, hp, hpi, hin⟩
        refine ⟨?_, hookInv_part hev hpi hp hs.2 hrun⟩
        rw [← hs.1]
        refine processPart_fixed (by rw [hs.1]; exact hin) (hset1 e p pi part hpart) ?_ hrun
        intro hrp r eff3 hr hg
        rw [hs.1, htags] at hr
        rw [hs.1] at hg
        exact hset2 e p pi part r eff3 hpart hrp hr hg)
      (fun e event s hev _ hs => ⟨hs.1, hookInv_next hev hs.2⟩)
    rw [hget1] at hget1a
    injection hget1a with hget1a
    subst hget1a
    rw [hfix, hget1] at hget2
    injection hget2 with hget2
    subst hget2
    have hmbd : st2.must_be_deterministic = st.must_be_deterministic := by
      rw [Bool.eq_iff_iff, hI2.det, hI.det]
      constructor
      · rintro ⟨e, p, pi, y, _, h4, h5⟩
        obtain ⟨x, hx, hfc, hid⟩ := shape_isPart (shape_symm hshape) h4
        exact ⟨e, p, pi, x, isPart_before_end heff0 hx, hx,
          setsDeterminism_of_ids hfc hid h5⟩
      · rintro ⟨e, p, pi, x, _, h4, h5⟩
        obtain ⟨y, hy, hfc, hid⟩ := shape_isPart hshape h4
        exact ⟨e, p, pi, y, isPart_before_end hget1 hy, hy,
          setsDeterminism_of_ids hfc hid h5⟩
    rw [hwl2]
    unfold storeFlags
    simp only
    rw [hfix, hmbd, hengine, hflags, updateFlags_idem, ← hflags]
    rw [set_of_getElem? wl1.structs si _ (getEffect_ok.mp hget1), ← hengine]

/-! ## Settled claims: the radius is never lowered -/

/-- C29 (counterexample): with recursion disabled the hook returns the example of the
specification as it is: the radius of the effect stays 0 although its damage-effect part
refers to a damage effect of radius 10, so the value after the hook is not the larger of the
value before and the largest radius among the damage-effect parts. And with recursion
enabled a NaN stored as the radius of the effect stays, although the same part has the
radius 10: the comparison `radius > maximum_damage_radius` is false against a NaN. -/
theorem disabled_hook_keeps_smaller_radius :
    post_compile exampleEffectConstants exampleDisabledWorkload 0 0 =
        .ok exampleDisabledWorkload ∧
    (getEffect exampleDisabledWorkload.structs 0 0).map
        (fun eff => eff.maximum_damage_radius) = .ok (.num 0) ∧
    IsPart exampleDisabledWorkload.structs 0 0 0 0 2 exampleDamagePart ∧
    IsDamagePart exampleEffectConstants exampleDamagePart ∧
    HasRadius exampleDisabledWorkload.structs exampleDisabledWorkload.tags exampleDamagePart
      (.num 10) ∧
    ¬ (∀ wl1, post_compile exampleEffectConstants exampleDisabledWorkload 0 0 = .ok wl1 →
        ∃ eff1 m, getEffect wl1.structs 0 0 = .ok eff1 ∧
          eff1.maximum_damage_radius = .num m ∧
          ∀ e p pi part x, IsPart exampleDisabledWorkload.structs 0 0 e p pi part →
            IsDamagePart exampleEffectConstants part →
            HasRadius exampleDisabledWorkload.structs exampleDisabledWorkload.tags part
              (.num x) → x ≤ m) ∧
    exampleNanWorkload.disable_recursion = false ∧
    IsPart exampleNanWorkload.structs 0 0 0 0 2 exampleDamagePart ∧
    HasRadius exampleNanWorkload.structs exampleNanWorkload.tags exampleDamagePart
      (.num 10) ∧
    (post_compile exampleEffectConstants exampleNanWorkload 0 0).bind
        (fun wl1 => (getEffect wl1.structs 0 0).map (fun eff => eff.maximum_damage_radius)) =
      .ok .nan := by
  have hpart : IsPart exampleDisabledWorkload.structs 0 0 0 0 2 exampleDamagePart :=
    ⟨_, ⟨_, 1, _, rfl, by decide, rfl, rfl, rfl⟩, by decide, rfl, _, rfl, rfl⟩
  have hdam : IsDamagePart exampleEffectConstants exampleDamagePart := ⟨rfl, rfl⟩
  have hrad : HasRadius exampleDisabledWorkload.structs exampleDisabledWorkload.tags
      exampleDamagePart (.num 10) := ⟨3, rfl, rfl⟩
  refine ⟨rfl, rfl, hpart, hdam, hrad, ?_, rfl,
    ⟨_, ⟨_, 1, _, rfl, by decide, rfl, rfl, rfl⟩, by decide, rfl, _, rfl, rfl⟩,
    ⟨3, rfl, rfl⟩, rfl⟩
  intro hall
  obtain ⟨eff1, m, h1, h2, h3⟩ := hall exampleDisabledWorkload rfl
  have h4 : getEffect exampleDisabledWorkload.structs 0 0 = .ok exampleEffect := rfl
  rw [h4] at h1
  injection h1 with h1
  subst h1
  have h5 : exampleEffect.maximum_damage_radius = .num 0 := rfl
  rw [h5] at h2
  injection h2 with h2
  subst h2
  exact absurd (h3 0 0 2 exampleDamagePart 10 hpart hdam hrad) (by decide)

/-- C29 (amended): when damage effect is not an object class, `Effect::post_compile` returns
whenever every reference it follows resolves, and in the workload it returns the radius of
the effect is as follows. With recursion disabled it is the radius before the hook. With
recursion enabled a NaN stays, and a number `m0` becomes a number `m` that is at least `m0`,
at least every radius upper bound that is a number among the parts with a tag id that is not
null and the class damage effect, and equal to `m0` or to such a radius upper bound; so `m0`
stays when no such radius exceeds it. Running the hook on the returned workload returns that
workload again. -/
theorem effect_radius_never_lowered {R : Type} [LinearOrder R] (K : EffectConstants)
    (wl : BuildWorkload R) (si so : Nat) (eff0 : EffectData R)
    (hD : K.IS_OBJECT_TAG K.TAG_FOURCC_DAMAGE_EFFECT = false)
    (heff0 : getEffect wl.structs si so = .ok eff0) :
    (Resolves K wl.structs wl.tags si so → ∃ wl1, post_compile K wl si so = .ok wl1) ∧
    ∀ wl1, post_compile K wl si so = .ok wl1 →
      ∃ eff1, getEffect wl1.structs si so = .ok eff1 ∧
        (wl.disable_recursion = true →
          eff1.maximum_damage_radius = eff0.maximum_damage_radius) ∧
        (wl.disable_recursion = false →
          (eff0.maximum_damage_radius = .nan → eff1.maximum_damage_radius = .nan) ∧
          ∀ m0, eff0.maximum_damage_radius = .num m0 →
            ∃ m, eff1.maximum_damage_radius = .num m ∧ m0 ≤ m ∧
              (∀ e p pi part x, IsPart wl.structs si so e p pi part → IsDamagePart K part →
                HasRadius wl.structs wl.tags part (.num x) → x ≤ m) ∧
              (m = m0 ∨ ∃ e p pi part, IsPart wl.structs si so e p pi part ∧
                IsDamagePart K part ∧ HasRadius wl.structs wl.tags part (.num m)) ∧
              ((∀ e p pi part x, IsPart wl.structs si so e p pi part → IsDamagePart K part →
                HasRadius wl.structs wl.tags part (.num x) → x ≤ m0) → m = m0)) ∧
        post_compile K wl1 si so = .ok wl1 := by
  refine ⟨post_compile_returns K wl si so, fun wl1 h => ?_⟩
  have hidem := post_compile_idem K wl wl1 si so h
  by_cases hrec : wl.disable_recursion = true
  · have h0 := h
    unfold post_compile at h0
    rw [if_pos hrec] at h0
    injection h0 with h0
    subst h0
    refine ⟨eff0, heff0, fun _ => rfl, fun hf => ?_, hidem⟩
    rw [hrec] at hf
    cases hf
  · have hrec0 : wl.disable_recursion = false := by simpa using hrec
    obtain ⟨eff0a, st, eff, heff0a, hI, hget, hwl⟩ := post_compile_general hrec0 h
    rw [heff0] at heff0a
    injection heff0a with heff0a
    subst heff0a
    obtain ⟨eff1, hget1, _, hmax, _, _⟩ := @getEffect_storeFlags R K wl si so st eff hget
    rw [← hwl] at hget1
    obtain ⟨eff2, hget2, hrr⟩ := hI.radius eff0 heff0
    rw [hget] at hget2
    injection hget2 with hget2
    subst hget2
    have hraises : ∀ part, IsDamagePart K part → RaisesRadius K part := by
      intro part hp
      exact ⟨hp.1, by rw [hp.2]; exact hD, hp.2⟩
    refine ⟨eff1, hget1, fun hf => absurd hf hrec, fun _ => ⟨?_, ?_⟩, hidem⟩
    · intro hnan
      unfold RadiusRaised at hrr
      rw [hnan] at hrr
      rw [hmax]
      exact hrr
    · intro m0 hm0
      unfold RadiusRaised at hrr
      rw [hm0] at hrr
      obtain ⟨m, h1, h2, h3, h4⟩ := hrr
      have hbound : ∀ e p pi part x, IsPart wl.structs si so e p pi part →
          IsDamagePart K part → HasRadius wl.structs wl.tags part (.num x) → x ≤ m :=
        fun e p pi part x hp hd hr =>
          h3 e p pi part x (isPart_before_end heff0 hp) hp (hraises part hd) hr
      have hatt : m = m0 ∨ ∃ e p pi part, IsPart wl.structs si so e p pi part ∧
          IsDamagePart K part ∧ HasRadius wl.structs wl.tags part (.num m) := by
        rcases h4 with h4 | ⟨e, p, pi, part, _, h5, h6, h7⟩
        · exact Or.inl h4
        · exact Or.inr ⟨e, p, pi, part, h5, ⟨h6.1, h6.2.2⟩, h7⟩
      refine ⟨m, by rw [hmax]; exact h1, h2, hbound, hatt, ?_⟩
      intro hsmall
      rcases hatt with h5 | ⟨e, p, pi, part, h5, h6, h7⟩
      · exact h5
      · exact le_antisymm (hsmall e p pi part m h5 h6 h7) h2

/-- C29 (witness): the effect of the example with the weapon part has the radius 3 and no
damage-effect part; the hook leaves the radius at 3, and a second run returns the same
workload. -/
theorem effect_radius_never_lowered_witness :
    post_compile exampleEffectConstants exampleObjectWorkload 0 0 = .ok exampleObjectResult ∧
    (getEffect exampleObjectResult.structs 0 0).map (fun eff => eff.maximum_damage_radius) =
        .ok (.num 3) ∧
    ∃ eff1, getEffect exampleObjectResult.structs 0 0 = .ok eff1 ∧
      (∀ m0 : Int, (FloatValue.num 3 : FloatValue Int) = .num m0 →
        ∃ m, eff1.maximum_damage_radius = .num m ∧ m0 ≤ m) ∧
      post_compile exampleEffectConstants exampleObjectResult 0 0 = .ok exampleObjectResult :=
  ⟨rfl, rfl, by
    obtain ⟨eff1, h1, _, h3, h4⟩ :=
      (effect_radius_never_lowered exampleEffectConstants exampleObjectWorkload 0 0 _ rfl
        rfl).2 exampleObjectResult rfl
    refine ⟨eff1, h1, fun m0 hm0 => ?_, h4⟩
    obtain ⟨m, h5, h6, _⟩ := (h3 rfl).2 m0 hm0
    exact ⟨m, h5, h6⟩⟩

end Invader
